import Mathlib

/-!
Verification development for the obsidian-task-manager plugin
(`src/main.ts`).  Lines of the vault's markdown documents are modelled as
`List Char`; each definition below is a shallow embedding of the
correspondingly named JavaScript function.  JavaScript regular-expression
operations are embedded as recursive scanners over the character list that
reproduce the leftmost, non-overlapping, single-pass semantics of
`String.prototype.replace`/`match`.  JavaScript `\s` is modelled by the
ASCII whitespace characters (space, tab, newline, carriage return, vertical
tab, form feed); the documents handled by the plugin contain no other
whitespace code points.
-/

set_option maxRecDepth 4096

abbrev Str := List Char

/-- Character list of a string literal. -/
def strL (s : String) : Str := s.data

/-- The characters matched by JavaScript `\s` that can occur in the
documents handled by the plugin (ASCII whitespace). -/
def isWs (c : Char) : Bool :=
  c == ' ' || c == '\t' || c == '\n' || c == '\r' || c == '\x0b' || c == '\x0c'

/-- JavaScript `\d`. -/
def isDig (c : Char) : Bool := c.isDigit

/-- `String.prototype.trimEnd`. -/
def trimEndStr (s : Str) : Str := (s.reverse.dropWhile isWs).reverse

/-- `String.prototype.trim` (both ends). -/
def trimStr (s : Str) : Str := trimEndStr (s.dropWhile isWs)

/-- Consume the literal `lit` from the front of `s`. -/
def dropLit : Str → Str → Option Str
  | [], s => some s
  | _ :: _, [] => none
  | a :: l, c :: s => if a == c then dropLit l s else none

/-- `String.prototype.includes`: `pat` occurs as a contiguous substring. -/
def containsSub (pat : Str) : Str → Bool
  | [] => (dropLit pat []).isSome
  | c :: s => (dropLit pat (c :: s)).isSome || containsSub pat s

/-- `content.split('\n')`. -/
def splitLinesGo (cur : Str) : Str → List Str
  | [] => [cur.reverse]
  | c :: s => if c == '\n' then cur.reverse :: splitLinesGo [] s else splitLinesGo (c :: cur) s

def splitLines (s : Str) : List Str := splitLinesGo [] s

/-- `lines.join('\n')`. -/
def joinLines : List Str → Str
  | [] => []
  | [l] => l
  | l :: ls => l ++ '\n' :: joinLines ls

/-- Consume a `\d{4}-\d{2}-\d{2}` date from the front of `s`,
returning the ten consumed characters and the rest. -/
def matchDate : Str → Option (Str × Str)
  | a :: b :: c :: d :: '-' :: e :: f :: '-' :: g :: h :: r =>
    if isDig a && isDig b && isDig c && isDig d && isDig e && isDig f && isDig g && isDig h then
      some ([a, b, c, d, '-', e, f, '-', g, h], r)
    else none
  | _ => none

/-- One match attempt of `\s*\[<DATE\]` / `\s*\[>DATE\]` (with inner `\s*`)
at the current position: `mSchedTag o s = some r` iff the pattern
`\s*\[o\s*\d{4}-\d{2}-\d{2}\]` matches a prefix of `s`, `r` the rest. -/
def mSchedTag (o : Char) (s : Str) : Option Str :=
  match dropLit ['[', o] (s.dropWhile isWs) with
  | none => none
  | some r1 =>
    match matchDate (r1.dropWhile isWs) with
    | none => none
    | some (_, r2) =>
      match r2 with
      | ']' :: r3 => some r3
      | _ => none

/-- One match attempt of `\s*LABEL[^\]]+\]` at the current position, where
`LABEL` is an opening literal such as `[id::`.  Used for the
`[id::…]`, `[parent::…]`, `[uid::…]`, `[sch_from::…]`, `[sch_to::…]` tags. -/
def mColonTag (label : Str) (s : Str) : Option Str :=
  match dropLit label (s.dropWhile isWs) with
  | none => none
  | some r1 =>
    let v := r1.takeWhile (fun c => c != ']')
    match r1.dropWhile (fun c => c != ']') with
    | ']' :: r2 => if v.isEmpty then none else some r2
    | _ => none

/-- One match attempt of `\s*📅\s*\[\[[^\]]+\]\]` (legacy calendar link). -/
def mEmojiLink (s : Str) : Option Str :=
  match dropLit ['📅'] (s.dropWhile isWs) with
  | none => none
  | some r1 =>
    match dropLit ['[', '['] (r1.dropWhile isWs) with
    | none => none
    | some r2 =>
      let v := r2.takeWhile (fun c => c != ']')
      match r2.dropWhile (fun c => c != ']') with
      | ']' :: ']' :: r3 => if v.isEmpty then none else some r3
      | _ => none

/-- One match attempt of `\s*📅\s*\d{4}-\d{2}-\d{2}` (legacy date). -/
def mEmojiDate (s : Str) : Option Str :=
  match dropLit ['📅'] (s.dropWhile isWs) with
  | none => none
  | some r1 =>
    match matchDate (r1.dropWhile isWs) with
    | none => none
    | some (_, r2) => some r2

/-- Fueled global-replace-by-empty: scan left to right, at each position try
the matcher; on success drop the matched prefix and continue after it, else
keep the character.  This is the semantics of JavaScript
`s.replace(/pat/g, '')` for the patterns used here (matches never empty). -/
def stripAllF (m : Str → Option Str) : Nat → Str → Str
  | 0, s => s
  | _ + 1, [] => []
  | f + 1, c :: s =>
    match m (c :: s) with
    | some r => stripAllF m f r
    | none => c :: stripAllF m f s

def stripAll (m : Str → Option Str) (s : Str) : Str := stripAllF m s.length s

namespace TaskUtils

/-- `TASK_PATTERN: /^[\t]*- \[.\]/` -/
def isTask (l : Str) : Bool :=
  match l.dropWhile (fun c => c == '\t') with
  | '-' :: ' ' :: '[' :: _ :: ']' :: _ => true
  | _ => false

/-- `PARENT_TASK_PATTERN: /^- \[.\]/` -/
def isParentTask (l : Str) : Bool :=
  match l with
  | '-' :: ' ' :: '[' :: _ :: ']' :: _ => true
  | _ => false

/-- `SUBTASK_PATTERN: /^\t+- \[.\]/` -/
def isSubtask (l : Str) : Bool :=
  match l with
  | '\t' :: r =>
    (match r.dropWhile (fun c => c == '\t') with
     | '-' :: ' ' :: '[' :: _ :: ']' :: _ => true
     | _ => false)
  | _ => false

/-- `COMPLETED_PATTERN: /^[\t]*- \[[xX\->]\]/` -/
def isCompleted (l : Str) : Bool :=
  match l.dropWhile (fun c => c == '\t') with
  | '-' :: ' ' :: '[' :: c :: ']' :: _ => c == 'x' || c == 'X' || c == '-' || c == '>'
  | _ => false

/-- The checkbox marker character of a task line (`none` when the line is
not a task). -/
def markerOf (l : Str) : Option Char :=
  match l.dropWhile (fun c => c == '\t') with
  | '-' :: ' ' :: '[' :: c :: ']' :: _ => some c
  | _ => none

/-- `CALENDAR_EVENT_PATTERN: /^[\t]*- \[c\]/` -/
def isCalendarEvent (l : Str) : Bool :=
  match l.dropWhile (fun c => c == '\t') with
  | '-' :: ' ' :: '[' :: 'c' :: ']' :: _ => true
  | _ => false

/-- One match attempt of `\[id::([^\]]+)\]`-style capture at the current
position: returns the raw (untrimmed) capture group. -/
def mCapture (label : Str) (s : Str) : Option Str :=
  match dropLit label s with
  | none => none
  | some r1 =>
    let v := r1.takeWhile (fun c => c != ']')
    match r1.dropWhile (fun c => c != ']') with
    | ']' :: _ => if v.isEmpty then none else some v
    | _ => none

/-- First match of `LABEL([^\]]+)\]` anywhere in the line (raw capture). -/
def findCapture (label : Str) : Str → Option Str
  | [] => none
  | c :: s =>
    match mCapture label (c :: s) with
    | some v => some v
    | none => findCapture label s

/-- `extractId`: first `\[id::([^\]]+)\]` match, capture trimmed. -/
def extractId (l : Str) : Option Str := (findCapture (strL "[id::") l).map trimStr

/-- `extractParentId`: first `\[parent::([^\]]+)\]` match, capture trimmed. -/
def extractParentId (l : Str) : Option Str := (findCapture (strL "[parent::") l).map trimStr

/-- JavaScript truthiness of an `extractId` result: both `null` and the
empty string (an `[id::..]` capture that trims to nothing) are falsy. -/
def truthyId (o : Option Str) : Bool :=
  match o with
  | none => false
  | some v => !v.isEmpty

/-- `addId`: append ` [id::id]` after `trimEnd` unless a truthy id is
present (`if (this.extractId(line))` — false for `null` and for `''`). -/
def addId (l : Str) (id : Str) : Str :=
  if truthyId (extractId l) then l
  else trimEndStr l ++ strL " [id::" ++ id ++ [']']

/-- The 36-character alphabet of `generateId`. -/
def idAlphabet : Str := strL "abcdefghijklmnopqrstuvwxyz0123456789"

/-- `generateId`: `idPrefix` followed by `idLength` random alphabet
characters; the random draws `Math.floor(Math.random()*36)` are modelled by
the oracle `pick`. -/
def generateId (pfx : Str) (len : Nat) (pick : Nat → Fin 36) : Str :=
  pfx ++ (List.range len).map (fun i => idAlphabet.getD (pick i) ' ')

/-- `getTaskSortKey`: `some (start, end)` in minutes when the line matches
`/^- \[.\]\s*(\d{2}):(\d{2}) - (\d{2}):(\d{2})/`, else `none`
(`hasTime=false, start=end=Infinity`). -/
def getTaskSortKey (l : Str) : Option (Nat × Nat) :=
  match l with
  | '-' :: ' ' :: '[' :: _ :: ']' :: r =>
    (match r.dropWhile isWs with
     | a :: b :: ':' :: c :: d :: ' ' :: '-' :: ' ' :: e :: f :: ':' :: g :: h :: _ =>
       if isDig a && isDig b && isDig c && isDig d &&
          isDig e && isDig f && isDig g && isDig h then
         some ((a.toNat - 48) * 600 + (b.toNat - 48) * 60 + (c.toNat - 48) * 10 + (d.toNat - 48),
               (e.toNat - 48) * 600 + (f.toNat - 48) * 60 + (g.toNat - 48) * 10 + (h.toNat - 48))
       else none
     | _ => none)
  | _ => none

end TaskUtils

/-- Split a task line into the `^([\t]*- \[.\]\s*)` prefix (greedy trailing
whitespace included) and the remaining content; `none` when the pattern does
not match. -/
def taskPrefixSplit (l : Str) : Option (Str × Str) :=
  let tabs := l.takeWhile (fun c => c == '\t')
  match l.dropWhile (fun c => c == '\t') with
  | '-' :: ' ' :: '[' :: c :: ']' :: r =>
    some (tabs ++ '-' :: ' ' :: '[' :: c :: ']' :: r.takeWhile isWs, r.dropWhile isWs)
  | _ => none

/-- `line.replace(/^([\t]*- \[)[^\]](\])/, '$1' + nm + '$2')`: overwrite the
checkbox marker (whatever it is, except `]`) with `nm`. -/
def setMarkerAny (nm : Char) (l : Str) : Str :=
  let tabs := l.takeWhile (fun c => c == '\t')
  match l.dropWhile (fun c => c == '\t') with
  | '-' :: ' ' :: '[' :: c :: ']' :: r =>
    if c == ']' then l else tabs ++ '-' :: ' ' :: '[' :: nm :: ']' :: r
  | _ => l

/-- `line.replace(/^([\t]*- \[)o(\])/, '$1' + nm + '$2')`: overwrite the
checkbox marker with `nm` only when it currently equals `old`. -/
def setMarkerFrom (old nm : Char) (l : Str) : Str :=
  let tabs := l.takeWhile (fun c => c == '\t')
  match l.dropWhile (fun c => c == '\t') with
  | '-' :: ' ' :: '[' :: c :: ']' :: r =>
    if c == old then tabs ++ '-' :: ' ' :: '[' :: nm :: ']' :: r else l
  | _ => l

/-- Consume `\d{1,2}:\d{2}` (greedy two-digit hour first, with regex
backtracking to one digit). -/
def matchHM (s : Str) : Option Str :=
  match s with
  | a :: b :: rest =>
    if isDig a && isDig b then
      match rest with
      | ':' :: c :: d :: r => if isDig c && isDig d then some r else none
      | _ => none
    else if isDig a && b == ':' then
      match rest with
      | c :: d :: r => if isDig c && isDig d then some r else none
      | _ => none
    else none
  | _ => none

/-- First match of `\[o\s*(\d{4}-\d{2}-\d{2})\]` anywhere, returning the
captured date. -/
def findSchedCapture (o : Char) : Str → Option Str
  | [] => none
  | c :: s =>
    match dropLit ['[', o] (c :: s) with
    | some r1 =>
      (match matchDate (r1.dropWhile isWs) with
       | some (d, ']' :: _) => some d
       | _ => findSchedCapture o s)
    | none => findSchedCapture o s

/-- One position of the dynamically built `\[id::\s*TID\]` pattern used by
`scheduleTask`/`unscheduleTask` (the interpolated task id contains no regex
metacharacters for the well-formed ids considered here). -/
def mIdTagAt (tid : Str) (s : Str) : Option Str :=
  match dropLit (strL "[id::") s with
  | none => none
  | some r1 =>
    match dropLit tid (r1.dropWhile isWs) with
    | some (']' :: r2) => some r2
    | _ => none

/-- `new RegExp('\\[id::\\s*' + tid + '\\]').test(s)`. -/
def hasIdTag (tid : Str) : Str → Bool
  | [] => false
  | c :: s => (mIdTagAt tid (c :: s)).isSome || hasIdTag tid s

-- ============================================================================
-- TASK ID MANAGER MODULE
-- ============================================================================

namespace TaskIdManager

/-- The loop body of `processContent`; `k` counts the `generateId` calls made
so far, `picks` is the random oracle for each call. -/
def processGo (pfx : Str) (len : Nat) (picks : Nat → Nat → Fin 36) (k : Nat) :
    List Str → List Str
  | [] => []
  | l :: ls =>
    if TaskUtils.isCalendarEvent l then l :: processGo pfx len picks k ls
    else if TaskUtils.isTask l && !TaskUtils.truthyId (TaskUtils.extractId l) then
      TaskUtils.addId l (TaskUtils.generateId pfx len (picks k)) ::
        processGo pfx len picks (k + 1) ls
    else l :: processGo pfx len picks k ls

/-- `TaskIdManager.processContent(content, settings)`: assign a generated id
to every task line lacking one; calendar-event lines are skipped. -/
def processContent (pfx : Str) (len : Nat) (picks : Nat → Nat → Fin 36) (content : Str) : Str :=
  joinLines (processGo pfx len picks 0 (splitLines content))

end TaskIdManager

-- ============================================================================
-- TASK SCHEDULER MODULE
-- ============================================================================

namespace TaskScheduler

/-- `removeSchedulingTags`: six sequential global replaces removing
`[< DATE]`, `[> DATE]`, legacy `[sch_from::…]`, `[sch_to::…]`, and the two
legacy calendar-emoji forms, each with its leading whitespace. -/
def removeSchedulingTags (l : Str) : Str :=
  let s1 := stripAll (mSchedTag '<') l
  let s2 := stripAll (mSchedTag '>') s1
  let s3 := stripAll (mColonTag (strL "[sch_from::")) s2
  let s4 := stripAll (mColonTag (strL "[sch_to::")) s3
  let s5 := stripAll mEmojiLink s4
  stripAll mEmojiDate s5

/-- `newLine.replace(/^([\t]*- \[.\]\s*)\d{1,2}:\d{2}\s*-\s*\d{1,2}:\d{2}\s*/, '$1')`. -/
def stripTimeBlock (l : Str) : Str :=
  match taskPrefixSplit l with
  | none => l
  | some (pfx, rest) =>
    match matchHM rest with
    | none => l
    | some r1 =>
      match r1.dropWhile isWs with
      | '-' :: r3 =>
        (match matchHM (r3.dropWhile isWs) with
         | some r4 => pfx ++ r4.dropWhile isWs
         | none => l)
      | _ => l

/-- `createScheduledTaskCopy(line, fromDate)`: marker reset to `[ ]`, the
scheduling tags and the `parent` tag removed (the parent pattern
`\s*\[parent::\s*[^\]]+\]` is equivalent, position by position, to a
nonempty non-`]` run after `[parent::`), then ` [< fromDate]` appended. -/
def createScheduledTaskCopy (l : Str) (fromDate : Str) : Str :=
  let s1 := setMarkerAny ' ' l
  let s2 := removeSchedulingTags s1
  let s3 := stripAll (mColonTag (strL "[parent::")) s2
  trimEndStr s3 ++ strL " [< " ++ fromDate ++ [']']

/-- `markTaskAsScheduled(line, toDate)`: marker to `[>]`, leading time block
removed, scheduling tags removed, ` [> toDate]` appended. -/
def markTaskAsScheduled (l : Str) (toDate : Str) : Str :=
  let s1 := setMarkerAny '>' l
  let s2 := stripTimeBlock s1
  let s3 := removeSchedulingTags s2
  trimEndStr s3 ++ strL " [> " ++ toDate ++ [']']

/-- `extractScheduledToDate`: first `\[>\s*(\d{4}-\d{2}-\d{2})\]` match. -/
def extractScheduledToDate (l : Str) : Option Str := findSchedCapture '>' l

/-- `isScheduledAway`: `/^[\t]*- \[>\]/`. -/
def isScheduledAway (l : Str) : Bool :=
  match l.dropWhile (fun c => c == '\t') with
  | '-' :: ' ' :: '[' :: '>' :: ']' :: _ => true
  | _ => false

/-- `resetScheduledTask`: `[>]` back to `[ ]`, scheduling tags removed. -/
def resetScheduledTask (l : Str) : Str :=
  removeSchedulingTags (setMarkerFrom '>' ' ' l)

/-- Map the first list element satisfying `p` through `f`. -/
def mapFirst (p : α → Bool) (f : α → α) : List α → List α
  | [] => []
  | x :: xs => if p x then f x :: xs else x :: mapFirst p f xs

/-- The per-line update of the exists-in-target branch of `scheduleTask`:
reset the marker to `[ ]`, remove old scheduling tags, append ` [< fromDate]`. -/
def updateTargetLine (fromDate : Str) (l : Str) : Str :=
  trimEndStr (removeSchedulingTags (setMarkerAny ' ' l)) ++ strL " [< " ++ fromDate ++ [']']

/-- Exists-in-target branch: rewrite the first line matching the id pattern. -/
def updateFirstIdLine (tid fromDate : Str) (c : Str) : Str :=
  joinLines (mapFirst (hasIdTag tid) (updateTargetLine fromDate) (splitLines c))

/-- Absent-from-target branch: `targetContent.trimEnd() + '\n' + taskCopy`. -/
def appendScheduledCopy (line fromDate : Str) (c : Str) : Str :=
  trimEndStr c ++ '\n' :: createScheduledTaskCopy line fromDate

/-- Apply `f` to the leading run of subtask lines (the
mark-subtasks/reset-subtasks loops, which stop at the first non-subtask). -/
def markTail (f : Str → Str) : List Str → List Str
  | [] => []
  | l :: ls => if TaskUtils.isSubtask l then f l :: markTail f ls else l :: ls

/-- `scheduleTask(app, settings, editor, lineNum, targetDate)` restricted to
its document effects.  The source document is the editor's line list, the
target daily note is its current content (`''` right after creation when the
file did not exist); `fromDate` is the source file's basename.  `none` models
the early `return false` paths, in which nothing has been written; on
success the pair is (new source lines, new target content).  The satellite
task-note update (step 7) is outside this model. -/
def scheduleTask (src : List Str) (lineNum : Nat) (fromDate targetDate : Str)
    (targetContent : Str) : Option (List Str × Str) :=
  let line := src.getD lineNum []
  if !TaskUtils.isTask line then none
  else if containsSub (strL "[> " ++ targetDate ++ [']']) line then none
  else
    let tgt :=
      match TaskUtils.extractId line with
      | some tid =>
        if hasIdTag tid targetContent then updateFirstIdLine tid fromDate targetContent
        else appendScheduledCopy line fromDate targetContent
      | none => appendScheduledCopy line fromDate targetContent
    let src1 := src.set lineNum (markTaskAsScheduled line targetDate)
    let src2 := src1.take (lineNum + 1) ++ markTail (setMarkerAny '>') (src1.drop (lineNum + 1))
    some (src2, tgt)

/-- `content.replace(/\n{3,}/g, '\n\n')`: runs of three or more newlines
collapse to exactly two. -/
def collapseGo (run : Nat) : Str → Str
  | [] => List.replicate (if 3 ≤ run then 2 else run) '\n'
  | c :: r =>
    if c == '\n' then collapseGo (run + 1) r
    else List.replicate (if 3 ≤ run then 2 else run) '\n' ++ c :: collapseGo 0 r

def collapseBlankRuns (s : Str) : Str := collapseGo 0 s

/-- Number of consecutive subtask lines at the head. -/
def subRunLen (ls : List Str) : Nat := (ls.takeWhile TaskUtils.isSubtask).length

/-- Step 3 of `unscheduleTask`: delete the line matching the id pattern plus
its contiguous subtask run from the target content, collapse blank-line runs
and trim; `none` when the id is not found (no write happens). -/
def deleteFromTarget (tid : Str) (c : Str) : Option Str :=
  let ls := splitLines c
  match ls.findIdx? (hasIdTag tid) with
  | none => none
  | some i =>
    let n := 1 + subRunLen (ls.drop (i + 1))
    some (trimEndStr (collapseBlankRuns (joinLines (ls.take i ++ ls.drop (i + n)))))

/-- `unscheduleTask(app, settings, editor, lineNum)` restricted to its
document effects.  `lookup d` is the current content of the daily note for
date `d` (`none` when that file does not exist).  The result is `none` for
the early `return false` paths; otherwise `(new source lines, upd)` where
`upd = some (d, c)` records the single write performed on the target daily
note for date `d` and `upd = none` means no other document was written.
The satellite task-note update (step 4) is outside this model. -/
def unscheduleTask (src : List Str) (lineNum : Nat) (lookup : Str → Option Str) :
    Option (List Str × Option (Str × Str)) :=
  let line := src.getD lineNum []
  if !TaskUtils.isTask line then none
  else
    let targetDate := extractScheduledToDate line
    if targetDate.isNone && !isScheduledAway line then none
    else
      let src1 := src.set lineNum (resetScheduledTask line)
      let src2 := src1.take (lineNum + 1) ++
        markTail (setMarkerFrom '>' ' ') (src1.drop (lineNum + 1))
      let upd :=
        match targetDate, TaskUtils.extractId line with
        | some d, some tid =>
          (match lookup d with
           | some c => (deleteFromTarget tid c).map (fun c' => (d, c'))
           | none => none)
        | _, _ => none
      some (src2, upd)

end TaskScheduler

-- ============================================================================
-- NORMALIZE METADATA ORDER (TaskUtils.normalizeMetadataOrder)
-- ============================================================================

namespace TaskUtils

/-- Intercalate a single space (`parts.join(' ')`). -/
def joinSp : List Str → Str
  | [] => []
  | [p] => p
  | p :: ps => p ++ ' ' :: joinSp ps

/-- `if m { parts.push(`PRE${m[1]}]`) }`: the optional rebuilt tag string. -/
def optTagStr (pre : Str) : Option Str → List Str
  | some v => [pre ++ v ++ [']']]
  | none => []

/-- `normalizeMetadataOrder(line)`: strip the five known metadata tags from
the content and re-append those present in the fixed canonical order
(id, parent, uid, `[< DATE]`, `[> DATE]`). -/
def normalizeMetadataOrder (l : Str) : Str :=
  if !isTask l then l
  else
    match taskPrefixSplit l with
    | none => l
    | some (pfx, content) =>
      let idM := findCapture (strL "[id::") content
      let parentM := findCapture (strL "[parent::") content
      let uidM := findCapture (strL "[uid::") content
      let toM := findSchedCapture '>' content
      let fromM := findSchedCapture '<' content
      let c1 := stripAll (mColonTag (strL "[id::")) content
      let c2 := stripAll (mColonTag (strL "[parent::")) c1
      let c3 := stripAll (mColonTag (strL "[uid::")) c2
      let c4 := stripAll (mSchedTag '>') c3
      let c5 := stripAll (mSchedTag '<') c4
      let stripped := trimEndStr c5
      let parts := [pfx ++ stripped] ++
        optTagStr (strL "[id::") idM ++
        optTagStr (strL "[parent::") parentM ++
        optTagStr (strL "[uid::") uidM ++
        optTagStr (strL "[< ") fromM ++
        optTagStr (strL "[> ") toM
      joinSp parts

end TaskUtils

-- ============================================================================
-- TASK SORTER MODULE
-- ============================================================================

namespace TaskSorter

/-- Case-insensitive literal match. -/
def matchCI : Str → Str → Option Str
  | [], s => some s
  | _ :: _, [] => none
  | a :: l, c :: s => if a.toLower == c.toLower then matchCI l s else none

/-- `/^##\s*Completed\s*$/i`. -/
def isCompletedHeading (l : Str) : Bool :=
  match l with
  | '#' :: '#' :: r =>
    (match matchCI (strL "completed") (r.dropWhile isWs) with
     | some r2 => (r2.dropWhile isWs).isEmpty
     | none => false)
  | _ => false

/-- `/^#/`. -/
def startsHash (l : Str) : Bool :=
  match l with
  | '#' :: _ => true
  | _ => false

/-- A parent-task record of the first pass: `{index, id, line}`. -/
structure PT where
  idx : Nat
  id : Option Str
  line : Str
deriving Repr, DecidableEq

/-- A subtask record of the first pass: `{index, parentId, line}`. -/
structure ST where
  idx : Nat
  pid : Option Str
  line : Str
deriving Repr, DecidableEq

/-- A non-task-line record of the first pass: `{index, line, isTaskArea}`. -/
structure OL where
  idx : Nat
  line : Str
  ta : Bool
deriving Repr, DecidableEq

/-- A group parsed from an existing `## Completed` section. -/
structure CGroup where
  id : Option Str
  parent : Str
  subtasks : List Str
deriving Repr, DecidableEq

/-- The full first-pass state of `sortContent`. -/
structure PassSt where
  completedTasks : List CGroup
  inCompleted : Bool
  parents : List PT
  subs : List ST
  others : List OL
  inTaskArea : Bool
deriving Repr

/-- Update the last element of a list. -/
def updateLastG (f : α → α) : List α → List α
  | [] => []
  | [g] => [f g]
  | g :: gs => g :: updateLastG f gs

/-- Attach a subtask line to the completed-section groups: to the first
group whose id matches its `parentId` when one exists, else to the last
group (`completedTasks[completedTasks.length - 1]`). -/
def pushSubToCompleted (gs : List CGroup) (pid : Option Str) (l : Str) : List CGroup :=
  let addTo : CGroup → CGroup := fun g => { g with subtasks := g.subtasks ++ [l] }
  match pid with
  | some p =>
    if gs.any (fun g => g.id == some p) then
      TaskScheduler.mapFirst (fun g => g.id == some p) addTo gs
    else updateLastG addTo gs
  | none => updateLastG addTo gs

/-- First pass of `sortContent`: classify each line, tracking the
`## Completed` section and the (dead) `inTaskArea` flag. -/
def pass1 (i : Nat) (st : PassSt) : List Str → PassSt
  | [] => st
  | l :: ls =>
    if isCompletedHeading l then pass1 (i + 1) { st with inCompleted := true } ls
    else
      let isP := TaskUtils.isParentTask l
      let isS := TaskUtils.isSubtask l
      if st.inCompleted then
        if isP then
          pass1 (i + 1)
            { st with completedTasks := st.completedTasks ++ [⟨TaskUtils.extractId l, l, []⟩] } ls
        else if isS && !st.completedTasks.isEmpty then
          pass1 (i + 1)
            { st with completedTasks :=
                pushSubToCompleted st.completedTasks (TaskUtils.extractParentId l) l } ls
        else if startsHash l then
          pass1 (i + 1)
            { st with inCompleted := false, others := st.others ++ [⟨i, l, false⟩] } ls
        else pass1 (i + 1) st ls
      else
        if isP then
          pass1 (i + 1)
            { st with inTaskArea := true,
                      parents := st.parents ++ [⟨i, TaskUtils.extractId l, l⟩] } ls
        else if isS then
          pass1 (i + 1) { st with subs := st.subs ++ [⟨i, TaskUtils.extractParentId l, l⟩] } ls
        else
          let ta := if st.inTaskArea && startsHash l then false else st.inTaskArea
          pass1 (i + 1) { st with inTaskArea := ta, others := st.others ++ [⟨i, l, ta⟩] } ls

def initSt : PassSt := ⟨[], false, [], [], [], false⟩

def pass1Of (content : Str) : PassSt := pass1 0 initSt (splitLines content)

/-- A task group of the second phase. -/
structure TGroup where
  parent : Str
  subtasks : List Str
  sortKey : Option (Nat × Nat)
deriving Repr, DecidableEq

/-- The closest preceding parent's index for a given subtask index. -/
def closestParentIdx (parents : List PT) (sidx : Nat) : Option Nat :=
  (parents.filter (fun p => p.idx < sidx)).foldl
    (fun m p => match m with | none => some p.idx | some n => some (max n p.idx)) none

/-- The legacy fallback loop of the group builder: subtasks without a
`parentId` whose closest preceding parent is this one, deduplicated against
the subtasks collected so far. -/
def addLegacy (parents : List PT) (pIdx : Nat) (acc : List Str) : List ST → List Str
  | [] => acc
  | s :: ss =>
    if s.pid.isNone &&
       parents.all (fun q => !(decide (pIdx < q.idx) && decide (q.idx < s.idx))) &&
       closestParentIdx parents s.idx == some pIdx &&
       !acc.contains s.line then
      addLegacy parents pIdx (acc ++ [s.line]) ss
    else addLegacy parents pIdx acc ss

/-- Build the task group of one parent: id-matched subtasks first, then the
legacy positional fallback. -/
def buildGroup (parents : List PT) (subs : List ST) (p : PT) : TGroup :=
  let byId :=
    match p.id with
    | some pid => (subs.filter (fun s => s.pid == some pid)).map (fun s => s.line)
    | none => []
  ⟨p.line, addLegacy parents p.idx byId subs, TaskUtils.getTaskSortKey p.line⟩

def groupsOf (content : Str) : List TGroup :=
  let st := pass1Of content
  st.parents.map (buildGroup st.parents st.subs)

/-- The strict part of the sort comparator: `a` strictly before `b`. -/
def keyLt (a b : Option (Nat × Nat)) : Bool :=
  match a, b with
  | some _, none => true
  | none, none => false
  | none, some _ => false
  | some (s1, e1), some (s2, e2) => decide (s1 < s2) || (s1 == s2 && decide (e1 < e2))

/-- Stable insertion: `x` goes before the first element not strictly below
it.  For a consistent comparator this reproduces the (stable) output of
`Array.prototype.sort`. -/
def insStable (lt : α → α → Bool) (x : α) : List α → List α
  | [] => [x]
  | y :: ys => if lt y x then y :: insStable lt x ys else x :: y :: ys

def sortStable (lt : α → α → Bool) : List α → List α
  | [] => []
  | x :: xs => insStable lt x (sortStable lt xs)

def groupLt (a b : TGroup) : Bool := keyLt a.sortKey b.sortKey

def incompleteSortedOf (content : Str) : List TGroup :=
  sortStable groupLt ((groupsOf content).filter (fun g => !TaskUtils.isCompleted g.parent))

def completedSortedOf (content : Str) : List TGroup :=
  sortStable groupLt ((groupsOf content).filter (fun g => TaskUtils.isCompleted g.parent))

/-- The final comparator of the Completed section recomputes the key from
the parent line. -/
def compLt (a b : TGroup) : Bool :=
  keyLt (TaskUtils.getTaskSortKey a.parent) (TaskUtils.getTaskSortKey b.parent)

/-- `[...completedGroups, ...completedTasks]`, re-sorted. -/
def allCompletedSortedOf (content : Str) : List TGroup :=
  sortStable compLt
    (completedSortedOf content ++
      (pass1Of content).completedTasks.map
        (fun g => ⟨g.parent, g.subtasks, TaskUtils.getTaskSortKey g.parent⟩))

/-- All task groups in the order they are emitted into the output document:
the sorted incomplete groups followed by the sorted `## Completed` groups. -/
def outputGroupsOf (content : Str) : List TGroup :=
  incompleteSortedOf content ++ allCompletedSortedOf content

def emitGroups (gs : List TGroup) : List Str :=
  gs.foldr (fun g acc => g.parent :: g.subtasks ++ acc) []

/-- Pop trailing lines with `line.trim() === ''`. -/
def dropTrailingBlankish (ls : List Str) : List Str :=
  (ls.reverse.dropWhile (fun l => (trimStr l).isEmpty)).reverse

def firstTaskIndexOf (content : Str) : Nat :=
  match (pass1Of content).parents with
  | [] => 0
  | p :: _ => p.idx

def lastTaskIndexOf (content : Str) : Nat :=
  let st := pass1Of content
  if st.parents.isEmpty then 0
  else (st.parents.map (fun p => p.idx) ++ st.subs.map (fun s => s.idx)).foldl max 0

/-- `TaskSorter.sortContent(content, settings)` (the `settings` argument is
unused by the original function body). -/
def sortContent (content : Str) : Str :=
  let st := pass1Of content
  let before := ((st.others.filter (fun o => decide (o.idx < firstTaskIndexOf content))).map
    (fun o => o.line))
  let mid := emitGroups (incompleteSortedOf content)
  let after := ((st.others.filter (fun o => decide (lastTaskIndexOf content < o.idx))).map
    (fun o => o.line))
  let allCompleted := allCompletedSortedOf content
  let resultMain := before ++ mid ++ after
  let result :=
    if allCompleted.isEmpty then resultMain
    else dropTrailingBlankish resultMain ++ [[], strL "## Completed"] ++ emitGroups allCompleted
  joinLines result

end TaskSorter

-- ============================================================================
-- TASK ARCHIVER MODULE
-- ============================================================================

namespace TaskArchiver

/-- `ARCHIVE_STATES: /^[\t]*- \[[xX>\-]\]/`. -/
def archiveStates (l : Str) : Bool :=
  match l.dropWhile (fun c => c == '\t') with
  | '-' :: ' ' :: '[' :: c :: ']' :: _ => c == 'x' || c == 'X' || c == '>' || c == '-'
  | _ => false

/-- `ACTIVE_STATES: /^[\t]*- \[[ \/c]\]/`. -/
def activeStates (l : Str) : Bool :=
  match l.dropWhile (fun c => c == '\t') with
  | '-' :: ' ' :: '[' :: c :: ']' :: _ => c == ' ' || c == '/' || c == 'c'
  | _ => false

/-- `ARCHIVE_CALLOUT_START: /^> \[!archived\]-?\s*Archived\s*$/`. -/
def calloutStart (l : Str) : Bool :=
  match dropLit (strL "> [!archived]") l with
  | none => false
  | some r =>
    let r1 := match r with | '-' :: r' => r' | _ => r
    match dropLit (strL "Archived") (r1.dropWhile isWs) with
    | some r2 => (r2.dropWhile isWs).isEmpty
    | none => false

/-- `ARCHIVE_LINE: /^> /`. -/
def archLine (l : Str) : Bool := (dropLit (strL "> ") l).isSome

/-- Scanner mode: outside/inside the existing archive section, or in the
middle of collecting a task group's contiguous subtasks. -/
inductive AMode
  | normF
  | normT
  | collArch
  | collAct
deriving Repr, DecidableEq

structure AAcc where
  cal : List Str
  active : List Str
  archived : List Str
  existing : List Str
deriving Repr, DecidableEq

/-- Dispatch one line through the normal-mode checks of the first pass of
`archiveContent` (the archive-section flag is false at this point). -/
def archStep (acc : AAcc) (l : Str) : AMode × AAcc :=
  if calloutStart l then (.normT, acc)
  else if TaskUtils.isCalendarEvent l then (.normF, { acc with cal := acc.cal ++ [l] })
  else if archiveStates l then (.collArch, { acc with archived := acc.archived ++ [l] })
  else if activeStates l then (.collAct, { acc with active := acc.active ++ [l] })
  else if !(trimStr l).isEmpty || !acc.active.isEmpty then
    (.normF, { acc with active := acc.active ++ [l] })
  else (.normF, acc)

/-- The categorizing first pass of `archiveContent`. -/
def archGo : AMode → AAcc → List Str → AAcc
  | _, acc, [] => acc
  | m, acc, l :: ls =>
    match m with
    | .collArch =>
      if TaskUtils.isSubtask l then
        archGo .collArch { acc with archived := acc.archived ++ [l] } ls
      else
        let s := archStep acc l
        archGo s.1 s.2 ls
    | .collAct =>
      if TaskUtils.isSubtask l then
        archGo .collAct { acc with active := acc.active ++ [l] } ls
      else
        let s := archStep acc l
        archGo s.1 s.2 ls
    | .normT =>
      if calloutStart l then archGo .normT acc ls
      else if archLine l then archGo .normT { acc with existing := acc.existing ++ [l.drop 2] } ls
      else
        let s := archStep acc l
        archGo s.1 s.2 ls
    | .normF =>
      let s := archStep acc l
      archGo s.1 s.2 ls

def archAccOf (content : Str) : AAcc := archGo .normF ⟨[], [], [], []⟩ (splitLines content)

/-- The lines housed in the trailing archive callout of a document: the
lines after the first callout-start line, with their `> ` prefix removed. -/
def calloutTasks (ls : List Str) : List Str :=
  ((ls.dropWhile (fun l => !calloutStart l)).drop 1).map (fun l => l.drop 2)

/-- Pop trailing lines that are exactly `''`. -/
def dropTrailingEmpties (ls : List Str) : List Str :=
  (ls.reverse.dropWhile (fun l => l.isEmpty)).reverse

/-- `TaskArchiver.archiveContent(content, settings)`. -/
def archiveContent (content : Str) : Str :=
  let acc := archAccOf content
  let allArchived := acc.archived ++ acc.existing
  let result0 := acc.cal ++ acc.active
  let result :=
    if allArchived.isEmpty then result0
    else
      (if result0.isEmpty then [] else dropTrailingEmpties result0 ++ List.replicate 7 []) ++
      strL "> [!archived]- Archived" :: allArchived.map (fun l => strL "> " ++ l)
  joinLines result

end TaskArchiver

-- ============================================================================
-- THEOREMS
-- ============================================================================

/-- C5: scheduling the source line `- [ ] Call dentist [id::t-xy] ` (with a
trailing space) from the document dated `2025-01-10` to `2025-01-12`
rewrites the source line to exactly
`- [>] Call dentist [id::t-xy] [> 2025-01-12]` and appends to the
`2025-01-12` document exactly the new line
`- [ ] Call dentist [id::t-xy] [< 2025-01-10]`. -/
theorem C5_schedule_example :
    TaskScheduler.markTaskAsScheduled (strL "- [ ] Call dentist [id::t-xy] ")
        (strL "2025-01-12") =
      strL "- [>] Call dentist [id::t-xy] [> 2025-01-12]" ∧
    TaskScheduler.createScheduledTaskCopy (strL "- [ ] Call dentist [id::t-xy] ")
        (strL "2025-01-10") =
      strL "- [ ] Call dentist [id::t-xy] [< 2025-01-10]" ∧
    TaskScheduler.scheduleTask [strL "- [ ] Call dentist [id::t-xy] "] 0
        (strL "2025-01-10") (strL "2025-01-12") (strL "- [ ] Other") =
      some ([strL "- [>] Call dentist [id::t-xy] [> 2025-01-12]"],
        strL "- [ ] Other" ++ '\n' :: strL "- [ ] Call dentist [id::t-xy] [< 2025-01-10]") := by
  refine ⟨?_, ?_, ?_⟩ <;> decide

/-- C8: when the source line already contains the literal scheduling tag
`[> targetDate]`, `scheduleTask` returns `false` before performing any
write: the source document, the target document and the satellite note are
all left unchanged (modelled by the `none` result, which is produced before
any document is modified). -/
theorem C8_schedule_rejects_duplicate (src : List Str) (lineNum : Nat)
    (fromDate targetDate targetContent : Str)
    (h : containsSub (strL "[> " ++ targetDate ++ [']']) (src.getD lineNum []) = true) :
    TaskScheduler.scheduleTask src lineNum fromDate targetDate targetContent = none := by
  unfold TaskScheduler.scheduleTask
  simp only []
  rw [if_pos h]
  split <;> rfl

theorem C8_schedule_rejects_duplicate_witness :
    containsSub (strL "[> " ++ strL "2025-01-12" ++ [']'])
      (([strL "- [>] A [> 2025-01-12]"] : List Str).getD 0 []) = true ∧
    TaskScheduler.scheduleTask [strL "- [>] A [> 2025-01-12]"] 0 (strL "2025-01-10")
      (strL "2025-01-12") (strL "") = none :=
  ⟨by decide, C8_schedule_rejects_duplicate _ _ _ _ _ (by decide)⟩

/-- C1 counterexample: the schedule/unschedule round trip does NOT restore a
source line that carried a leading `HH:MM - HH:MM` time block —
`markTaskAsScheduled` strips the time block and `resetScheduledTask` cannot
restore it.  Scheduling `- [ ] 09:00 - 10:00 Call [id::t-a1]` to
`2025-01-12` and unscheduling the resulting line yields
`- [ ] Call [id::t-a1]`, which differs from the original line (the task is
correctly removed from the target document, but `D1` is not restored). -/
theorem C1_roundtrip_counterexample :
    TaskScheduler.scheduleTask [strL "- [ ] 09:00 - 10:00 Call [id::t-a1]"] 0
        (strL "2025-01-10") (strL "2025-01-12") [] =
      some ([strL "- [>] Call [id::t-a1] [> 2025-01-12]"],
        '\n' :: strL "- [ ] 09:00 - 10:00 Call [id::t-a1] [< 2025-01-10]") ∧
    TaskScheduler.unscheduleTask [strL "- [>] Call [id::t-a1] [> 2025-01-12]"] 0
        (fun d => if d = strL "2025-01-12" then
          some ('\n' :: strL "- [ ] 09:00 - 10:00 Call [id::t-a1] [< 2025-01-10]") else none) =
      some ([strL "- [ ] Call [id::t-a1]"], some (strL "2025-01-12", [])) ∧
    [strL "- [ ] Call [id::t-a1]"] ≠ [strL "- [ ] 09:00 - 10:00 Call [id::t-a1]"] := by
  refine ⟨?_, ?_, ?_⟩ <;> decide

/-- C3 counterexample: the chronological sorter DOES lose non-task lines
that sit between task lines; they are dropped, not hoisted.  On
`- [ ] A\nnote\n- [ ] B` the line `note` is absent from the output. -/
theorem C3_sort_counterexample :
    TaskSorter.sortContent (strL "- [ ] A\nnote\n- [ ] B") = strL "- [ ] A\n- [ ] B" ∧
    ¬ strL "note" ∈ splitLines (TaskSorter.sortContent (strL "- [ ] A\nnote\n- [ ] B")) := by
  refine ⟨?_, ?_⟩ <;> decide

/-- C4 counterexample: `archiveContent` moves a whole group — the archivable
head together with its contiguous subtasks of ANY marker — into the
callout.  On `- [x] A\n\t- [ ] sub`, the incomplete (`' '`-marked) subtask
line ends up inside the trailing archive callout, refuting "every task line
whose marker is `' '` or `/` lies outside that callout". -/
theorem C4_archive_counterexample :
    ¬ (∀ l ∈ TaskArchiver.calloutTasks
          (splitLines (TaskArchiver.archiveContent (strL "- [x] A\n\t- [ ] sub"))),
        TaskUtils.isTask l = true → TaskUtils.markerOf l ≠ some ' ') := by
  intro h
  exact absurd (h (strL "\t- [ ] sub") (by decide) (by decide)) (by decide)

/-- C7 counterexample: taken over the whole output of `sortContent`, the
ordering property fails: an untimed incomplete group is emitted BEFORE the
timed groups of the `## Completed` section.  On
`- [ ] B\n- [x] 09:00 - 10:00 A` the untimed group `B` precedes the timed
group `A`, violating "every group without a time block appears after every
group with one". -/
theorem C7_order_counterexample :
    ¬ List.Pairwise (fun a b => TaskSorter.keyLt b.sortKey a.sortKey = false)
        (TaskSorter.outputGroupsOf (strL "- [ ] B\n- [x] 09:00 - 10:00 A")) := by
  decide

/-- C10 counterexample: on a `[>]`-marked line with no `[id::…]` tag,
`unscheduleTask` does proceed and touches only the source document, but it
does NOT strip the scheduling tags of the contiguous subtasks — it only
resets their `[>]` markers.  The subtask below keeps its `[> 2025-01-12]`
tag, refuting "resets the source line and its contiguous following subtasks
to the incomplete marker and strips their scheduling tags". -/
theorem C10_unschedule_counterexample :
    TaskScheduler.unscheduleTask
        [strL "- [>] A [> 2025-01-12]", strL "\t- [>] s [> 2025-01-12]"] 0 (fun _ => none) =
      some ([strL "- [ ] A", strL "\t- [ ] s [> 2025-01-12]"], none) ∧
    TaskScheduler.extractScheduledToDate (strL "\t- [ ] s [> 2025-01-12]") =
      some (strL "2025-01-12") := by
  refine ⟨?_, ?_⟩ <;> decide


-- ============================================================================
-- INFRASTRUCTURE LEMMAS: splitLines / joinLines
-- ============================================================================

theorem splitLinesGo_append_no_nl (l : Str) (hl : ∀ c ∈ l, c ≠ '\n') (cur s : Str) :
    splitLinesGo cur (l ++ s) = splitLinesGo (l.reverse ++ cur) s := by
  induction l generalizing cur with
  | nil => simp
  | cons c l ih =>
    have hl' : ∀ c ∈ l, c ≠ '\n' := fun d hd => hl d (by simp [hd])
    have hb : (c == '\n') = false := by
      have := hl c (by simp)
      simp [this]
    show splitLinesGo cur (c :: (l ++ s)) = _
    rw [splitLinesGo, hb]
    simp only [Bool.false_eq_true, if_false]
    rw [ih hl']
    simp

theorem splitLines_joinLines (ls : List Str) (h : ∀ l ∈ ls, ∀ c ∈ l, c ≠ '\n')
    (hne : ls ≠ []) : splitLines (joinLines ls) = ls := by
  induction ls with
  | nil => exact absurd rfl hne
  | cons l ls ih =>
    cases ls with
    | nil =>
      show splitLinesGo [] (joinLines [l]) = [l]
      rw [show joinLines [l] = l ++ [] from by simp [joinLines]]
      rw [splitLinesGo_append_no_nl l (h l (by simp)) [] []]
      simp [splitLinesGo]
    | cons l2 ls2 =>
      have hj : joinLines (l :: l2 :: ls2) = l ++ '\n' :: joinLines (l2 :: ls2) := by
        rw [joinLines]
        simp
      show splitLinesGo [] (joinLines (l :: l2 :: ls2)) = l :: l2 :: ls2
      rw [hj, splitLinesGo_append_no_nl l (h l (by simp)) [] _]
      rw [splitLinesGo]
      simp only [beq_self_eq_true, if_true, List.append_nil, List.reverse_reverse]
      have := ih (fun x hx => h x (by simp [hx])) (by simp)
      exact congrArg (l :: ·) this

theorem mem_splitLinesGo_no_nl (s : Str) : ∀ (cur : Str), (∀ c ∈ cur, c ≠ '\n') →
    ∀ l ∈ splitLinesGo cur s, ∀ c ∈ l, c ≠ '\n' := by
  induction s with
  | nil =>
    intro cur hcur l hl c hc
    rw [splitLinesGo] at hl
    simp only [List.mem_singleton] at hl
    subst hl
    exact hcur c (by simpa using hc)
  | cons a s ih =>
    intro cur hcur l hl
    rw [splitLinesGo] at hl
    by_cases ha : a = '\n'
    · rw [if_pos (by simp [ha])] at hl
      rcases List.mem_cons.mp hl with h1 | h2
      · subst h1
        intro c hc
        exact hcur c (by simpa using hc)
      · exact ih [] (by simp) l h2
    · rw [if_neg (by simp [ha])] at hl
      refine ih (a :: cur) ?_ l hl
      intro c hc
      rcases List.mem_cons.mp hc with h1 | h2
      · subst h1; exact ha
      · exact hcur c h2

theorem mem_splitLines_no_nl (s : Str) (l : Str) (hl : l ∈ splitLines s) :
    ∀ c ∈ l, c ≠ '\n' :=
  mem_splitLinesGo_no_nl s [] (by simp) l hl

theorem splitLines_ne_nil (s : Str) : splitLines s ≠ [] := by
  have : ∀ (cur : Str), splitLinesGo cur s ≠ [] := by
    induction s with
    | nil => intro cur; rw [splitLinesGo]; simp
    | cons a s ih =>
      intro cur
      rw [splitLinesGo]
      by_cases ha : (a == '\n') = true
      · rw [if_pos ha]; simp
      · rw [if_neg ha]; exact ih (a :: cur)
  exact this []

theorem mem_trimEndStr (s : Str) (c : Char) (hc : c ∈ trimEndStr s) : c ∈ s := by
  unfold trimEndStr at hc
  rw [List.mem_reverse] at hc
  have := (List.dropWhile_suffix (p := isWs) (l := s.reverse)).subset hc
  simpa using this

-- ============================================================================
-- C9: TaskIdManager.processContent frame conditions
-- ============================================================================

/-- A line that receives a generated id in `processContent`: a non-calendar
task line without a truthy `[id::…]` tag (no tag, or a capture that trims to
the empty string). -/
def needsId (l : Str) : Bool :=
  !TaskUtils.isCalendarEvent l &&
    (TaskUtils.isTask l && !TaskUtils.truthyId (TaskUtils.extractId l))

theorem generateId_chars (pfx : Str) (len : Nat) (pick : Nat → Fin 36) :
    ∀ c ∈ TaskUtils.generateId pfx len pick, c ∈ pfx ∨ c ∈ TaskUtils.idAlphabet := by
  intro c hc
  unfold TaskUtils.generateId at hc
  rcases List.mem_append.mp hc with h | h
  · exact Or.inl h
  · right
    rcases List.mem_map.mp h with ⟨i, _, rfl⟩
    have h36 : (pick i : Nat) < TaskUtils.idAlphabet.length := by
      have := (pick i).isLt
      have hlen : TaskUtils.idAlphabet.length = 36 := by decide
      omega
    rw [List.getD_eq_getElem TaskUtils.idAlphabet ' ' h36]
    exact List.getElem_mem h36

theorem addId_of_falsy (l id0 : Str) (h : TaskUtils.truthyId (TaskUtils.extractId l) = false) :
    TaskUtils.addId l id0 = trimEndStr l ++ strL " [id::" ++ id0 ++ [']'] := by
  unfold TaskUtils.addId
  rw [h]
  simp

theorem addId_no_nl (l id0 : Str) (hl : ∀ c ∈ l, c ≠ '\n') (hid : ∀ c ∈ id0, c ≠ '\n') :
    ∀ c ∈ TaskUtils.addId l id0, c ≠ '\n' := by
  intro c hc
  unfold TaskUtils.addId at hc
  split at hc
  · exact hl c hc
  · have : c ∈ trimEndStr l ∨ c ∈ strL " [id::" ∨ c ∈ id0 ∨ c = ']' := by
      simp only [List.append_assoc, List.mem_append, List.mem_singleton] at hc
      tauto
    rcases this with h | h | h | h
    · exact hl c (mem_trimEndStr l c h)
    · intro hEq; subst hEq; revert h; decide
    · exact hid c h
    · intro hEq; rw [hEq] at h; exact absurd h (by decide)

theorem generateId_no_nl (pfx : Str) (len : Nat) (pick : Nat → Fin 36)
    (hpfx : ∀ c ∈ pfx, c ≠ '\n') :
    ∀ c ∈ TaskUtils.generateId pfx len pick, c ≠ '\n' := by
  intro c hc
  rcases generateId_chars pfx len pick c hc with h | h
  · exact hpfx c h
  · intro hEq; rw [hEq] at h; exact absurd h (by decide)

theorem processGo_length (pfx : Str) (len : Nat) (picks : Nat → Nat → Fin 36) :
    ∀ (k : Nat) (ls : List Str),
      (TaskIdManager.processGo pfx len picks k ls).length = ls.length := by
  intro k ls
  induction ls generalizing k with
  | nil => rfl
  | cons l ls ih =>
    unfold TaskIdManager.processGo
    split
    · simpa using ih k
    · split
      · simpa using ih (k + 1)
      · simpa using ih k

theorem processGo_ne_nil (pfx : Str) (len : Nat) (picks : Nat → Nat → Fin 36)
    (k : Nat) (ls : List Str) (h : ls ≠ []) :
    TaskIdManager.processGo pfx len picks k ls ≠ [] := by
  intro hEq
  have := processGo_length pfx len picks k ls
  rw [hEq] at this
  simp at this
  exact h (List.length_eq_zero.mp this.symm)

theorem processGo_no_nl (pfx : Str) (len : Nat) (picks : Nat → Nat → Fin 36)
    (hpfx : ∀ c ∈ pfx, c ≠ '\n') :
    ∀ (k : Nat) (ls : List Str), (∀ l ∈ ls, ∀ c ∈ l, c ≠ '\n') →
      ∀ l ∈ TaskIdManager.processGo pfx len picks k ls, ∀ c ∈ l, c ≠ '\n' := by
  intro k ls
  induction ls generalizing k with
  | nil => intro _ l hl; rw [TaskIdManager.processGo] at hl; simp at hl
  | cons l0 ls ih =>
    intro hls l hl
    have h0 : ∀ c ∈ l0, c ≠ '\n' := hls l0 (by simp)
    have hrest : ∀ x ∈ ls, ∀ c ∈ x, c ≠ '\n' := fun x hx => hls x (by simp [hx])
    unfold TaskIdManager.processGo at hl
    split at hl
    · rcases List.mem_cons.mp hl with h1 | h2
      · subst h1; exact h0
      · exact ih k hrest l h2
    · split at hl
      · rcases List.mem_cons.mp hl with h1 | h2
        · subst h1
          exact addId_no_nl l0 _ h0 (generateId_no_nl pfx len (picks k) hpfx)
        · exact ih (k + 1) hrest l h2
      · rcases List.mem_cons.mp hl with h1 | h2
        · subst h1; exact h0
        · exact ih k hrest l h2

theorem processGo_getD (pfx : Str) (len : Nat) (picks : Nat → Nat → Fin 36) :
    ∀ (ls : List Str) (k i : Nat), i < ls.length →
      (TaskIdManager.processGo pfx len picks k ls).getD i [] =
        (if needsId (ls.getD i []) then
          TaskUtils.addId (ls.getD i [])
            (TaskUtils.generateId pfx len
              (picks (k + ((ls.take i).filter needsId).length)))
         else ls.getD i []) := by
  intro ls
  induction ls with
  | nil => intro k i hi; simp at hi
  | cons l ls ih =>
    intro k i hi
    unfold TaskIdManager.processGo
    by_cases hCal : TaskUtils.isCalendarEvent l = true
    · rw [if_pos hCal]
      have hneed : needsId l = false := by simp [needsId, hCal]
      cases i with
      | zero => simp [hneed]
      | succ i =>
        have hi' : i < ls.length := by simpa using hi
        have hf : List.filter needsId (List.take (i + 1) (l :: ls)) =
            List.filter needsId (List.take i ls) := by
          simp [List.take_succ_cons, List.filter_cons, hneed]
        simp only [List.getD_cons_succ, hf]
        exact ih k i hi'
    · rw [if_neg hCal]
      by_cases hTask :
          (TaskUtils.isTask l && !TaskUtils.truthyId (TaskUtils.extractId l)) = true
      · rw [if_pos hTask]
        have hneed : needsId l = true := by
          simp only [Bool.and_eq_true] at hTask
          simp [needsId, hTask.1, hTask.2, hCal]
        cases i with
        | zero => simp [hneed]
        | succ i =>
          have hi' : i < ls.length := by simpa using hi
          have hf : List.filter needsId (List.take (i + 1) (l :: ls)) =
              l :: List.filter needsId (List.take i ls) := by
            simp [List.take_succ_cons, List.filter_cons, hneed]
          simp only [List.getD_cons_succ, hf, List.length_cons]
          rw [ih (k + 1) i hi']
          have harith : k + 1 + (List.filter needsId (List.take i ls)).length =
              k + ((List.filter needsId (List.take i ls)).length + 1) := by omega
          rw [harith]
      · rw [if_neg hTask]
        have hneed : needsId l = false := by
          unfold needsId
          cases hT : TaskUtils.isTask l with
          | false => simp [hT]
          | true =>
            cases hE : TaskUtils.truthyId (TaskUtils.extractId l) with
            | true => simp [hT, hE]
            | false => exact absurd (by rw [hT, hE]; rfl) hTask
        cases i with
        | zero => simp [hneed]
        | succ i =>
          have hi' : i < ls.length := by simpa using hi
          have hf : List.filter needsId (List.take (i + 1) (l :: ls)) =
              List.filter needsId (List.take i ls) := by
            simp [List.take_succ_cons, List.filter_cons, hneed]
          simp only [List.getD_cons_succ, hf]
          exact ih k i hi'

theorem generateId_shape (pfx : Str) (len : Nat) (pick : Nat → Fin 36) :
    ∃ cs, TaskUtils.generateId pfx len pick = pfx ++ cs ∧ cs.length = len ∧
      ∀ c ∈ cs, c ∈ TaskUtils.idAlphabet := by
  refine ⟨_, rfl, by simp, ?_⟩
  intro c hc
  rcases List.mem_map.mp hc with ⟨i, _, rfl⟩
  have h36 : ((pick i : Fin 36) : Nat) < TaskUtils.idAlphabet.length := by
    have := (pick i).isLt
    have hlen : TaskUtils.idAlphabet.length = 36 := by decide
    omega
  rw [List.getD_eq_getElem TaskUtils.idAlphabet ' ' h36]
  exact List.getElem_mem h36

/-- The lines of `processContent`'s output. -/
def procOut (pfx : Str) (len : Nat) (picks : Nat → Nat → Fin 36) (content : Str) : List Str :=
  splitLines (TaskIdManager.processContent pfx len picks content)

theorem needsId_false_of_cal (l : Str) (h : TaskUtils.isCalendarEvent l = true) :
    needsId l = false := by simp [needsId, h]

theorem needsId_false_of_not_task (l : Str) (h : TaskUtils.isTask l = false) :
    needsId l = false := by simp [needsId, h]

theorem needsId_false_of_truthy (l : Str)
    (h : TaskUtils.truthyId (TaskUtils.extractId l) = true) :
    needsId l = false := by
  unfold needsId
  rw [h]
  simp

/-- C9 counterexample to the original claim: the line `- [ ] a [id:: ]`
already carries an `[id::…]` tag (its capture is a single space), yet the
capture trims to the empty string, which the JavaScript guard
`if (!TaskUtils.extractId(line))` treats as falsy, so `processContent`
still appends a freshly generated id instead of leaving the line
unchanged. -/
theorem C9_frame_counterexample :
    (TaskUtils.extractId (strL "- [ ] a [id:: ]")).isSome = true ∧
    TaskIdManager.processContent (strL "t-") 2 (fun _ _ => (0 : Fin 36))
        (strL "- [ ] a [id:: ]")
      = strL "- [ ] a [id:: ] [id::t-aa]" := by
  decide

/-- C9 (amended): `TaskIdManager.processContent` preserves the exact number
of lines; it leaves every calendar-event line, every non-task line, and
every task line whose `[id::…]` capture trims to a nonempty (JS-truthy)
string byte-for-byte unchanged; a task line lacking a truthy id — no tag at
all, or a capture that trims to the empty string — is changed only by
trimming its trailing whitespace and appending a single ` [id::<generated>]`
tag, where the generated id is the configured prefix followed by exactly
`len` characters drawn from the lowercase-alphanumeric alphabet. -/
theorem C9_processContent_frame (pfx : Str) (len : Nat) (picks : Nat → Nat → Fin 36)
    (content : Str) (hpfx : ∀ c ∈ pfx, c ≠ '\n') :
    (procOut pfx len picks content).length = (splitLines content).length ∧
    (∀ i, i < (splitLines content).length →
      (TaskUtils.isCalendarEvent ((splitLines content).getD i []) = true →
        (procOut pfx len picks content).getD i [] = (splitLines content).getD i []) ∧
      (TaskUtils.isTask ((splitLines content).getD i []) = false →
        (procOut pfx len picks content).getD i [] = (splitLines content).getD i []) ∧
      (TaskUtils.truthyId (TaskUtils.extractId ((splitLines content).getD i [])) = true →
        (procOut pfx len picks content).getD i [] = (splitLines content).getD i []) ∧
      (needsId ((splitLines content).getD i []) = true →
        (procOut pfx len picks content).getD i [] =
          trimEndStr ((splitLines content).getD i []) ++ strL " [id::" ++
            TaskUtils.generateId pfx len
              (picks ((((splitLines content).take i).filter needsId).length)) ++ [']'])) ∧
    (∀ k, ∃ cs, TaskUtils.generateId pfx len (picks k) = pfx ++ cs ∧ cs.length = len ∧
      ∀ c ∈ cs, c ∈ TaskUtils.idAlphabet) := by
  have houts : procOut pfx len picks content =
      TaskIdManager.processGo pfx len picks 0 (splitLines content) := by
    show splitLines (joinLines _) = _
    exact splitLines_joinLines _
      (processGo_no_nl pfx len picks hpfx 0 (splitLines content)
        (fun l hl => mem_splitLines_no_nl content l hl))
      (processGo_ne_nil pfx len picks 0 (splitLines content) (splitLines_ne_nil content))
  refine ⟨?_, ?_, fun k => generateId_shape pfx len (picks k)⟩
  · rw [houts]; exact processGo_length pfx len picks 0 (splitLines content)
  · intro i hi
    have hg := processGo_getD pfx len picks (splitLines content) 0 i hi
    rw [← houts] at hg
    rw [Nat.zero_add] at hg
    refine ⟨?_, ?_, ?_, ?_⟩
    · intro hCal
      rw [hg, if_neg (by rw [needsId_false_of_cal _ hCal]; simp)]
    · intro hT
      rw [hg, if_neg (by rw [needsId_false_of_not_task _ hT]; simp)]
    · intro hId
      rw [hg, if_neg (by rw [needsId_false_of_truthy _ hId]; simp)]
    · intro hN
      have hFalsy : TaskUtils.truthyId
          (TaskUtils.extractId ((splitLines content).getD i [])) = false := by
        have := hN
        unfold needsId at this
        simp only [Bool.and_eq_true] at this
        simpa using this.2.2
      rw [hg, if_pos hN, addId_of_falsy _ _ hFalsy]

theorem C9_processContent_frame_witness :
    (∀ c ∈ strL "t-", c ≠ '\n') ∧
    (procOut (strL "t-") 8 (fun _ _ => (0 : Fin 36)) (strL "- [ ] a\nplain")).length =
      (splitLines (strL "- [ ] a\nplain")).length :=
  ⟨by decide,
    (C9_processContent_frame (strL "t-") 8 (fun _ _ => (0 : Fin 36)) (strL "- [ ] a\nplain")
      (by decide)).1⟩

-- ============================================================================
-- List positioning helpers
-- ============================================================================

theorem getD_append_length (pre : List Str) (x : Str) (post : List Str) :
    (pre ++ x :: post).getD pre.length [] = x := by
  induction pre with
  | nil => rfl
  | cons p pre ih => simpa using ih

theorem set_append_length (pre : List Str) (x y : Str) (post : List Str) :
    (pre ++ x :: post).set pre.length y = pre ++ y :: post := by
  induction pre with
  | nil => rfl
  | cons p pre ih => simpa using ih

theorem take_append_length_succ (pre : List Str) (x : Str) (post : List Str) :
    (pre ++ x :: post).take (pre.length + 1) = pre ++ [x] := by
  induction pre with
  | nil => rfl
  | cons p pre ih => simpa using ih

theorem drop_append_length_succ (pre : List Str) (x : Str) (post : List Str) :
    (pre ++ x :: post).drop (pre.length + 1) = post := by
  induction pre with
  | nil => rfl
  | cons p pre ih => simpa using ih

theorem markTail_each (f : Str → Str) (ls : List Str) :
    ∀ j, (TaskScheduler.markTail f ls).getD j [] = ls.getD j [] ∨
      (TaskScheduler.markTail f ls).getD j [] = f (ls.getD j []) := by
  induction ls with
  | nil => intro j; left; rfl
  | cons l ls ih =>
    intro j
    unfold TaskScheduler.markTail
    split
    · cases j with
      | zero => right; rfl
      | succ j => simpa using ih j
    · left; rfl

theorem isTask_of_isScheduledAway (l : Str) (h : TaskScheduler.isScheduledAway l = true) :
    TaskUtils.isTask l = true := by
  unfold TaskScheduler.isScheduledAway at h
  unfold TaskUtils.isTask
  split at h
  · rename_i heq
    rw [heq]
    rfl
  · exact absurd h (by simp)

-- ============================================================================
-- C10 amended: unscheduleTask in the degraded cases
-- ============================================================================

/-- C10 (amended): on a `[>]`-marked source line, `unscheduleTask` proceeds
even when the line has no `[id::…]` tag, no `[> DATE]` tag, or the target
daily note does not exist; in those cases it modifies ONLY the source
document (`upd = none`: no other document is written).  The source line is
reset (`resetScheduledTask`: marker back to `[ ]`, its scheduling tags
stripped), the contiguous following subtask run has ONLY its `[>]` markers
reset (`setMarkerFrom '>' ' '` — subtask scheduling tags are left in
place), and every following line is either untouched or marker-reset. -/
theorem C10_unschedule_degraded (pre : List Str) (line : Str) (post : List Str)
    (lookup : Str → Option Str)
    (hmark : TaskScheduler.isScheduledAway line = true)
    (hdeg : TaskUtils.extractId line = none ∨
            TaskScheduler.extractScheduledToDate line = none ∨
            (∀ d, lookup d = none)) :
    TaskScheduler.unscheduleTask (pre ++ line :: post) pre.length lookup =
      some (pre ++ TaskScheduler.resetScheduledTask line ::
              TaskScheduler.markTail (setMarkerFrom '>' ' ') post, none) ∧
    (∀ j, (TaskScheduler.markTail (setMarkerFrom '>' ' ') post).getD j [] = post.getD j [] ∨
      (TaskScheduler.markTail (setMarkerFrom '>' ' ') post).getD j [] =
        setMarkerFrom '>' ' ' (post.getD j [])) := by
  constructor
  · unfold TaskScheduler.unscheduleTask
    rw [getD_append_length]
    rw [if_neg (by rw [isTask_of_isScheduledAway line hmark]; simp)]
    simp only []
    rw [if_neg (by rw [hmark]; simp)]
    rw [set_append_length, take_append_length_succ, drop_append_length_succ]
    have hupd :
        (match TaskScheduler.extractScheduledToDate line, TaskUtils.extractId line with
          | some d, some tid =>
            (match lookup d with
             | some c => (TaskScheduler.deleteFromTarget tid c).map (fun c' => (d, c'))
             | none => none)
          | _, _ => (none : Option (Str × Str))) = none := by
      rcases hdeg with h | h | h
      · rw [h]
        cases TaskScheduler.extractScheduledToDate line <;> rfl
      · rw [h]
      · cases hTD : TaskScheduler.extractScheduledToDate line with
        | none => rfl
        | some d =>
          cases hID : TaskUtils.extractId line with
          | none => rfl
          | some tid =>
            dsimp only
            rw [h d]
    rw [hupd]
    simp
  · exact markTail_each (setMarkerFrom '>' ' ') post

theorem C10_unschedule_degraded_witness :
    TaskScheduler.isScheduledAway (strL "- [>] A [> 2025-01-12]") = true ∧
    TaskScheduler.unscheduleTask
        [strL "- [>] A [> 2025-01-12]", strL "\t- [>] s"] 0 (fun _ => none) =
      some ([strL "- [ ] A", strL "\t- [ ] s"], none) := by
  refine ⟨by decide, ?_⟩
  have h := C10_unschedule_degraded [] (strL "- [>] A [> 2025-01-12]") [strL "\t- [>] s"]
    (fun _ => none) (by decide) (Or.inl (by decide))
  have h1 := h.1
  simp only [List.nil_append, List.length_nil] at h1
  rw [h1]
  decide

-- ============================================================================
-- C7 amended: sortedness of the emitted group lists
-- ============================================================================

theorem keyLt_asymm (a b : Option (Nat × Nat)) :
    TaskSorter.keyLt a b = true → TaskSorter.keyLt b a = false := by
  unfold TaskSorter.keyLt
  rcases a with _ | ⟨s1, e1⟩ <;> rcases b with _ | ⟨s2, e2⟩ <;> simp <;> omega

theorem keyLt_neg_trans (a b c : Option (Nat × Nat)) :
    TaskSorter.keyLt b a = false → TaskSorter.keyLt c b = false →
    TaskSorter.keyLt c a = false := by
  unfold TaskSorter.keyLt
  rcases a with _ | ⟨s1, e1⟩ <;> rcases b with _ | ⟨s2, e2⟩ <;>
    rcases c with _ | ⟨s3, e3⟩ <;> simp <;> omega

theorem mem_insStable (lt : α → α → Bool) (x : α) (ys : List α) :
    ∀ b ∈ TaskSorter.insStable lt x ys, b = x ∨ b ∈ ys := by
  induction ys with
  | nil => intro b hb; unfold TaskSorter.insStable at hb; simp at hb; exact Or.inl hb
  | cons y ys ih =>
    intro b hb
    unfold TaskSorter.insStable at hb
    split at hb
    · rcases List.mem_cons.mp hb with rfl | hb2
      · exact Or.inr (by simp)
      · rcases ih b hb2 with h | h
        · exact Or.inl h
        · exact Or.inr (by simp [h])
    · rcases List.mem_cons.mp hb with rfl | hb2
      · exact Or.inl rfl
      · exact Or.inr hb2

theorem insStable_pairwise (lt : α → α → Bool)
    (hTrans : ∀ a b c, lt b a = false → lt c b = false → lt c a = false)
    (hAsymm : ∀ a b, lt a b = true → lt b a = false)
    (x : α) (ys : List α) (hys : List.Pairwise (fun a b => lt b a = false) ys) :
    List.Pairwise (fun a b => lt b a = false) (TaskSorter.insStable lt x ys) := by
  induction ys with
  | nil => unfold TaskSorter.insStable; simp
  | cons y ys ih =>
    rw [List.pairwise_cons] at hys
    obtain ⟨hy, hys'⟩ := hys
    unfold TaskSorter.insStable
    by_cases hlt : lt y x = true
    · rw [if_pos hlt]
      rw [List.pairwise_cons]
      refine ⟨?_, ih hys'⟩
      intro b hb
      rcases mem_insStable lt x ys b hb with rfl | hbys
      · exact hAsymm y b hlt
      · exact hy b hbys
    · rw [if_neg hlt]
      have hxf : lt y x = false := by
        cases h : lt y x with
        | false => rfl
        | true => exact absurd h hlt
      rw [List.pairwise_cons]
      refine ⟨?_, List.pairwise_cons.mpr ⟨hy, hys'⟩⟩
      intro b hb
      rcases List.mem_cons.mp hb with rfl | hbys
      · exact hxf
      · exact hTrans x y b hxf (hy b hbys)

theorem sortStable_pairwise (lt : α → α → Bool)
    (hTrans : ∀ a b c, lt b a = false → lt c b = false → lt c a = false)
    (hAsymm : ∀ a b, lt a b = true → lt b a = false)
    (xs : List α) :
    List.Pairwise (fun a b => lt b a = false) (TaskSorter.sortStable lt xs) := by
  induction xs with
  | nil => unfold TaskSorter.sortStable; simp
  | cons x xs ih =>
    unfold TaskSorter.sortStable
    exact insStable_pairwise lt hTrans hAsymm x _ ih

/-- C7 (amended): within each of the two sorted regions of `sortContent`'s
output — the incomplete groups region and the `## Completed` section — the
groups are totally ordered by the sort key: whenever group `a` is emitted
before group `b`, `b` is not strictly below `a`, i.e. timed groups appear in
lexicographic `(start, end)` order and every untimed group comes after every
timed one WITHIN its region.  (Taken across the whole output the property
fails — see the counterexample — because untimed incomplete groups are
emitted before the timed groups of the `## Completed` section.) -/
theorem C7_sorted_within_sections (content : Str) :
    List.Pairwise (fun a b => TaskSorter.keyLt b.sortKey a.sortKey = false)
      (TaskSorter.incompleteSortedOf content) ∧
    List.Pairwise (fun a b =>
        TaskSorter.keyLt (TaskUtils.getTaskSortKey b.parent)
          (TaskUtils.getTaskSortKey a.parent) = false)
      (TaskSorter.allCompletedSortedOf content) := by
  constructor
  · exact sortStable_pairwise TaskSorter.groupLt
      (fun a b c hab hbc => keyLt_neg_trans a.sortKey b.sortKey c.sortKey hab hbc)
      (fun a b h => keyLt_asymm a.sortKey b.sortKey h) _
  · exact sortStable_pairwise TaskSorter.compLt
      (fun a b c hab hbc => keyLt_neg_trans _ _ _ hab hbc)
      (fun a b h => keyLt_asymm _ _ h) _

-- ============================================================================
-- C4 amended: archive partition for top-level task lines
-- ============================================================================

/-- A top-level (unindented) task line in an archivable state. -/
def topArch (l : Str) : Bool := TaskUtils.isParentTask l && TaskArchiver.archiveStates l

/-- A top-level task line with marker `' '` or `/` (active, non-calendar). -/
def topActiveSS (l : Str) : Bool :=
  TaskUtils.isParentTask l && (TaskArchiver.activeStates l && !TaskUtils.isCalendarEvent l)

theorem activeStates_false_of_archiveStates (l : Str)
    (h : TaskArchiver.archiveStates l = true) : TaskArchiver.activeStates l = false := by
  unfold TaskArchiver.archiveStates at h
  unfold TaskArchiver.activeStates
  split at h
  · simp only [Bool.or_eq_true, beq_iff_eq] at h
    rcases h with ((h | h) | h) | h <;> subst h <;> decide
  · exact absurd h (by simp)

theorem archiveStates_false_of_cal (l : Str)
    (h : TaskUtils.isCalendarEvent l = true) : TaskArchiver.archiveStates l = false := by
  unfold TaskUtils.isCalendarEvent at h
  unfold TaskArchiver.archiveStates
  split at h
  · rename_i heq
    rw [heq]
    rfl
  · exact absurd h (by simp)

theorem isParentTask_false_of_isSubtask (l : Str)
    (h : TaskUtils.isSubtask l = true) : TaskUtils.isParentTask l = false := by
  unfold TaskUtils.isSubtask at h
  split at h
  · rfl
  · exact absurd h (by simp)

/-- One dispatch step of `archGo` (assuming the mode is not `normT`). -/
def archStepFull (m : TaskArchiver.AMode) (acc : TaskArchiver.AAcc) (l : Str) :
    TaskArchiver.AMode × TaskArchiver.AAcc :=
  match m with
  | .collArch =>
    if TaskUtils.isSubtask l then (.collArch, { acc with archived := acc.archived ++ [l] })
    else TaskArchiver.archStep acc l
  | .collAct =>
    if TaskUtils.isSubtask l then (.collAct, { acc with active := acc.active ++ [l] })
    else TaskArchiver.archStep acc l
  | _ => TaskArchiver.archStep acc l

theorem archGo_cons (m : TaskArchiver.AMode) (acc : TaskArchiver.AAcc) (l : Str)
    (ls : List Str) (hm : m ≠ .normT) :
    TaskArchiver.archGo m acc (l :: ls) =
      TaskArchiver.archGo (archStepFull m acc l).1 (archStepFull m acc l).2 ls := by
  cases m with
  | normT => exact absurd rfl hm
  | normF => rfl
  | collArch =>
    by_cases hs : TaskUtils.isSubtask l = true
    · show (if TaskUtils.isSubtask l = true then _ else _) = _
      rw [if_pos hs]
      dsimp only [archStepFull]
      rw [if_pos hs]
    · show (if TaskUtils.isSubtask l = true then _ else _) = _
      rw [if_neg hs]
      dsimp only [archStepFull]
      rw [if_neg hs]
  | collAct =>
    by_cases hs : TaskUtils.isSubtask l = true
    · show (if TaskUtils.isSubtask l = true then _ else _) = _
      rw [if_pos hs]
      dsimp only [archStepFull]
      rw [if_pos hs]
    · show (if TaskUtils.isSubtask l = true then _ else _) = _
      rw [if_neg hs]
      dsimp only [archStepFull]
      rw [if_neg hs]

theorem archStepFull_ne_normT (m : TaskArchiver.AMode) (acc : TaskArchiver.AAcc) (l : Str)
    (hl : TaskArchiver.calloutStart l = false) (hm : m ≠ .normT) :
    (archStepFull m acc l).1 ≠ .normT := by
  have hstep : (TaskArchiver.archStep acc l).1 ≠ TaskArchiver.AMode.normT := by
    unfold TaskArchiver.archStep
    rw [if_neg (by rw [hl]; simp)]
    split
    · simp
    · split
      · simp
      · split
        · simp
        · split <;> simp
  cases m with
  | normT => exact absurd rfl hm
  | normF => exact hstep
  | collArch =>
    dsimp only [archStepFull]
    split
    · simp
    · exact hstep
  | collAct =>
    dsimp only [archStepFull]
    split
    · simp
    · exact hstep

theorem archStep_spec (acc : TaskArchiver.AAcc) (l : Str)
    (hl : TaskArchiver.calloutStart l = false) :
    ((TaskArchiver.archStep acc l).2.existing = acc.existing) ∧
    ((TaskArchiver.archStep acc l).2.archived.filter TaskUtils.isParentTask
      = acc.archived.filter TaskUtils.isParentTask ++ List.filter topArch [l]) ∧
    ((TaskArchiver.archStep acc l).2.active.filter topActiveSS
      = acc.active.filter topActiveSS ++ List.filter topActiveSS [l]) ∧
    (∀ x ∈ (TaskArchiver.archStep acc l).2.active, x ∈ acc.active ∨ (x = l ∧ topArch x = false)) ∧
    (∀ x ∈ (TaskArchiver.archStep acc l).2.archived, x ∈ acc.archived ∨ x = l) ∧
    (∀ x ∈ (TaskArchiver.archStep acc l).2.cal,
      x ∈ acc.cal ∨ (x = l ∧ TaskUtils.isCalendarEvent x = true)) := by
  unfold TaskArchiver.archStep
  rw [if_neg (by rw [hl]; simp)]
  by_cases hc : TaskUtils.isCalendarEvent l = true
  · rw [if_pos hc]
    have hna : topArch l = false := by
      simp [topArch, archiveStates_false_of_cal l hc]
    have hns : topActiveSS l = false := by
      simp [topActiveSS, hc]
    refine ⟨rfl, by simp [hna], by simp [hns], ?_, ?_, ?_⟩
    · intro x hx; exact Or.inl hx
    · intro x hx; exact Or.inl hx
    · intro x hx
      rcases List.mem_append.mp hx with h | h
      · exact Or.inl h
      · simp only [List.mem_singleton] at h
        subst h
        exact Or.inr ⟨rfl, hc⟩
  · rw [if_neg hc]
    by_cases ha : TaskArchiver.archiveStates l = true
    · rw [if_pos ha]
      have hns : topActiveSS l = false := by
        simp [topActiveSS, activeStates_false_of_archiveStates l ha]
      have harch : List.filter topArch [l] = List.filter TaskUtils.isParentTask [l] := by
        simp [topArch, ha, List.filter]
      refine ⟨rfl, ?_, by simp [hns], ?_, ?_, ?_⟩
      · rw [List.filter_append, harch]
      · intro x hx; exact Or.inl hx
      · intro x hx
        rcases List.mem_append.mp hx with h | h
        · exact Or.inl h
        · simp only [List.mem_singleton] at h
          exact Or.inr h
      · intro x hx; exact Or.inl hx
    · rw [if_neg ha]
      have hna : topArch l = false := by simp [topArch, ha]
      by_cases hact : TaskArchiver.activeStates l = true
      · rw [if_pos hact]
        refine ⟨rfl, by simp [hna], by rw [List.filter_append], ?_, ?_, ?_⟩
        · intro x hx
          rcases List.mem_append.mp hx with h | h
          · exact Or.inl h
          · simp only [List.mem_singleton] at h
            subst h
            exact Or.inr ⟨rfl, hna⟩
        · intro x hx; exact Or.inl hx
        · intro x hx; exact Or.inl hx
      · rw [if_neg hact]
        have hns : topActiveSS l = false := by simp [topActiveSS, hact]
        split
        · refine ⟨rfl, by simp [hna], by simp [hns], ?_, ?_, ?_⟩
          · intro x hx
            rcases List.mem_append.mp hx with h | h
            · exact Or.inl h
            · simp only [List.mem_singleton] at h
              subst h
              exact Or.inr ⟨rfl, hna⟩
          · intro x hx; exact Or.inl hx
          · intro x hx; exact Or.inl hx
        · refine ⟨rfl, by simp [hna], by simp [hns], ?_, ?_, ?_⟩
          · intro x hx; exact Or.inl hx
          · intro x hx; exact Or.inl hx
          · intro x hx; exact Or.inl hx

theorem archStepFull_spec (m : TaskArchiver.AMode) (acc : TaskArchiver.AAcc) (l : Str)
    (hl : TaskArchiver.calloutStart l = false) (hm : m ≠ .normT) :
    ((archStepFull m acc l).2.existing = acc.existing) ∧
    ((archStepFull m acc l).2.archived.filter TaskUtils.isParentTask
      = acc.archived.filter TaskUtils.isParentTask ++ List.filter topArch [l]) ∧
    ((archStepFull m acc l).2.active.filter topActiveSS
      = acc.active.filter topActiveSS ++ List.filter topActiveSS [l]) ∧
    (∀ x ∈ (archStepFull m acc l).2.active, x ∈ acc.active ∨ (x = l ∧ topArch x = false)) ∧
    (∀ x ∈ (archStepFull m acc l).2.archived, x ∈ acc.archived ∨ x = l) ∧
    (∀ x ∈ (archStepFull m acc l).2.cal,
      x ∈ acc.cal ∨ (x = l ∧ TaskUtils.isCalendarEvent x = true)) := by
  cases m with
  | normT => exact absurd rfl hm
  | normF => exact archStep_spec acc l hl
  | collArch =>
    dsimp only [archStepFull]
    by_cases hs : TaskUtils.isSubtask l = true
    · rw [if_pos hs]
      have hp : TaskUtils.isParentTask l = false := isParentTask_false_of_isSubtask l hs
      have hna : topArch l = false := by simp [topArch, hp]
      have hns : topActiveSS l = false := by simp [topActiveSS, hp]
      refine ⟨rfl, by simp [List.filter_append, hp, hna], by simp [hns], ?_, ?_, ?_⟩
      · intro x hx; exact Or.inl hx
      · intro x hx
        rcases List.mem_append.mp hx with h | h
        · exact Or.inl h
        · simp only [List.mem_singleton] at h
          exact Or.inr h
      · intro x hx; exact Or.inl hx
    · rw [if_neg hs]
      exact archStep_spec acc l hl
  | collAct =>
    dsimp only [archStepFull]
    by_cases hs : TaskUtils.isSubtask l = true
    · rw [if_pos hs]
      have hp : TaskUtils.isParentTask l = false := isParentTask_false_of_isSubtask l hs
      have hna : topArch l = false := by simp [topArch, hp]
      have hns : topActiveSS l = false := by simp [topActiveSS, hp]
      refine ⟨rfl, by simp [hna], by simp [List.filter_append, hns], ?_, ?_, ?_⟩
      · intro x hx
        rcases List.mem_append.mp hx with h | h
        · exact Or.inl h
        · simp only [List.mem_singleton] at h
          subst h
          exact Or.inr ⟨rfl, hna⟩
      · intro x hx; exact Or.inl hx
      · intro x hx; exact Or.inl hx
    · rw [if_neg hs]
      exact archStep_spec acc l hl

theorem archGo_nil (m : TaskArchiver.AMode) (acc : TaskArchiver.AAcc) :
    TaskArchiver.archGo m acc [] = acc := by
  cases m <;> rfl

theorem archGo_spec (ls : List Str) : ∀ (m : TaskArchiver.AMode) (acc : TaskArchiver.AAcc),
    (∀ l ∈ ls, TaskArchiver.calloutStart l = false) → m ≠ .normT →
    ((TaskArchiver.archGo m acc ls).existing = acc.existing) ∧
    ((TaskArchiver.archGo m acc ls).archived.filter TaskUtils.isParentTask
      = acc.archived.filter TaskUtils.isParentTask ++ ls.filter topArch) ∧
    ((TaskArchiver.archGo m acc ls).active.filter topActiveSS
      = acc.active.filter topActiveSS ++ ls.filter topActiveSS) ∧
    (∀ x ∈ (TaskArchiver.archGo m acc ls).active,
      x ∈ acc.active ∨ (x ∈ ls ∧ topArch x = false)) ∧
    (∀ x ∈ (TaskArchiver.archGo m acc ls).archived, x ∈ acc.archived ∨ x ∈ ls) ∧
    (∀ x ∈ (TaskArchiver.archGo m acc ls).cal,
      x ∈ acc.cal ∨ (x ∈ ls ∧ TaskUtils.isCalendarEvent x = true)) := by
  induction ls with
  | nil =>
    intro m acc _ _
    rw [archGo_nil]
    refine ⟨rfl, by simp, by simp, ?_, ?_, ?_⟩ <;> (intro x hx; exact Or.inl hx)
  | cons l ls ih =>
    intro m acc hnc hm
    have hl : TaskArchiver.calloutStart l = false := hnc l (by simp)
    have hnc' : ∀ x ∈ ls, TaskArchiver.calloutStart x = false :=
      fun x hx => hnc x (by simp [hx])
    rw [archGo_cons m acc l ls hm]
    have hstep := archStepFull_spec m acc l hl hm
    have hm' := archStepFull_ne_normT m acc l hl hm
    have hih := ih (archStepFull m acc l).1 (archStepFull m acc l).2 hnc' hm'
    obtain ⟨s1, s2, s3, s4, s5, s6⟩ := hstep
    obtain ⟨i1, i2, i3, i4, i5, i6⟩ := hih
    have hfa : List.filter topArch [l] ++ ls.filter topArch = (l :: ls).filter topArch := by
      by_cases h : topArch l = true <;> simp [List.filter_cons, h]
    have hfs : List.filter topActiveSS [l] ++ ls.filter topActiveSS =
        (l :: ls).filter topActiveSS := by
      by_cases h : topActiveSS l = true <;> simp [List.filter_cons, h]
    refine ⟨by rw [i1, s1], ?_, ?_, ?_, ?_, ?_⟩
    · rw [i2, s2, List.append_assoc, hfa]
    · rw [i3, s3, List.append_assoc, hfs]
    · intro x hx
      rcases i4 x hx with h | h
      · rcases s4 x h with h2 | h2
        · exact Or.inl h2
        · exact Or.inr ⟨by simp [h2.1], h2.2⟩
      · exact Or.inr ⟨by simp [h.1], h.2⟩
    · intro x hx
      rcases i5 x hx with h | h
      · rcases s5 x h with h2 | h2
        · exact Or.inl h2
        · exact Or.inr (by simp [h2])
      · exact Or.inr (by simp [h])
    · intro x hx
      rcases i6 x hx with h | h
      · rcases s6 x h with h2 | h2
        · exact Or.inl h2
        · exact Or.inr ⟨by simp [h2.1], h2.2⟩
      · exact Or.inr ⟨by simp [h.1], h.2⟩

theorem takeWhile_append_stop (p : Str → Bool) (xs : List Str) (y : Str) (ys : List Str)
    (hxs : ∀ x ∈ xs, p x = true) (hy : p y = false) :
    (xs ++ y :: ys).takeWhile p = xs := by
  induction xs with
  | nil => simp [List.takeWhile_cons, hy]
  | cons x xs ih =>
    have hx : p x = true := hxs x (by simp)
    simp only [List.cons_append, List.takeWhile_cons, hx, if_true]
    rw [ih (fun z hz => hxs z (by simp [hz]))]

theorem dropWhile_append_stop (p : Str → Bool) (xs : List Str) (y : Str) (ys : List Str)
    (hxs : ∀ x ∈ xs, p x = true) (hy : p y = false) :
    (xs ++ y :: ys).dropWhile p = y :: ys := by
  induction xs with
  | nil => simp [List.dropWhile_cons, hy]
  | cons x xs ih =>
    have hx : p x = true := hxs x (by simp)
    simp only [List.cons_append, List.dropWhile_cons, hx, if_true]
    exact ih (fun z hz => hxs z (by simp [hz]))

theorem dropTrailingEmpties_decomp (ls : List Str) :
    ∃ t, ls = TaskArchiver.dropTrailingEmpties ls ++ t ∧ ∀ x ∈ t, x = ([] : Str) := by
  refine ⟨(ls.reverse.takeWhile (fun l : Str => l.isEmpty)).reverse, ?_, ?_⟩
  · unfold TaskArchiver.dropTrailingEmpties
    rw [← List.reverse_append]
    rw [List.takeWhile_append_dropWhile]
    simp
  · intro x hx
    rw [List.mem_reverse] at hx
    have := List.mem_takeWhile_imp hx
    simpa using this

theorem mem_dropTrailingEmpties (ls : List Str) (x : Str)
    (hx : x ∈ TaskArchiver.dropTrailingEmpties ls) : x ∈ ls := by
  unfold TaskArchiver.dropTrailingEmpties at hx
  rw [List.mem_reverse] at hx
  have := (List.dropWhile_suffix (p := fun l : Str => l.isEmpty) (l := ls.reverse)).subset hx
  simpa using this

theorem filter_dropTrailingEmpties (p : Str → Bool) (hp : p [] = false) (ls : List Str) :
    (TaskArchiver.dropTrailingEmpties ls).filter p = ls.filter p := by
  obtain ⟨t, hdecomp, ht⟩ := dropTrailingEmpties_decomp ls
  conv_rhs => rw [hdecomp]
  rw [List.filter_append]
  have : t.filter p = [] := by
    rw [List.filter_eq_nil]
    intro a ha
    rw [ht a ha, hp]
    simp
  rw [this, List.append_nil]

theorem topActiveSS_false_of_cal (l : Str) (h : TaskUtils.isCalendarEvent l = true) :
    topActiveSS l = false := by simp [topActiveSS, h]

theorem topArch_false_of_cal (l : Str) (h : TaskUtils.isCalendarEvent l = true) :
    topArch l = false := by simp [topArch, archiveStates_false_of_cal l h]

theorem filter_replicate_nil (p : Str → Bool) (hp : p [] = false) (n : Nat) :
    (List.replicate n ([] : Str)).filter p = [] := by
  induction n with
  | zero => rfl
  | succ n ih => simp [List.replicate_succ, List.filter_cons, hp, ih]

/-- C4 (amended): assuming the document has no pre-existing archive callout,
`archiveContent` partitions the TOP-LEVEL (unindented) task lines exactly:
the top-level task lines housed in the trailing `> [!archived]- Archived`
callout are precisely the input's top-level lines with marker
`x`/`X`/`-`/`>` (in order), the region before the callout retains exactly
the input's top-level task lines with marker `' '` or `/`, and no
archivable top-level task line remains outside the callout.  (Subtask lines
travel with their group head regardless of their own marker — see the
counterexample — so the original claim holds only for top-level lines.) -/
theorem C4_archive_partition (content : Str)
    (hnc : ∀ l ∈ splitLines content, TaskArchiver.calloutStart l = false) :
    (TaskArchiver.calloutTasks (splitLines (TaskArchiver.archiveContent content))).filter
        TaskUtils.isParentTask
      = (splitLines content).filter topArch ∧
    ((splitLines (TaskArchiver.archiveContent content)).takeWhile
        (fun l => !TaskArchiver.calloutStart l)).filter topActiveSS
      = (splitLines content).filter topActiveSS ∧
    ((splitLines (TaskArchiver.archiveContent content)).takeWhile
        (fun l => !TaskArchiver.calloutStart l)).filter topArch = [] := by
  have hspec := archGo_spec (splitLines content) TaskArchiver.AMode.normF ⟨[], [], [], []⟩ hnc
    (by intro h; exact TaskArchiver.AMode.noConfusion h)
  obtain ⟨e1, fA, fS, mA, mR, mC⟩ := hspec
  have haccdef : TaskArchiver.archAccOf content =
      TaskArchiver.archGo TaskArchiver.AMode.normF ⟨[], [], [], []⟩ (splitLines content) := rfl
  rw [← haccdef] at e1 fA fS mA mR mC
  simp only [List.filter_nil, List.nil_append] at fA fS
  have mA' : ∀ x ∈ (TaskArchiver.archAccOf content).active,
      x ∈ splitLines content ∧ topArch x = false := by
    intro x hx
    rcases mA x hx with h | h
    · simp at h
    · exact h
  have mR' : ∀ x ∈ (TaskArchiver.archAccOf content).archived, x ∈ splitLines content := by
    intro x hx
    rcases mR x hx with h | h
    · simp at h
    · exact h
  have mC' : ∀ x ∈ (TaskArchiver.archAccOf content).cal,
      x ∈ splitLines content ∧ TaskUtils.isCalendarEvent x = true := by
    intro x hx
    rcases mC x hx with h | h
    · simp at h
    · exact h
  have hcalSS : (TaskArchiver.archAccOf content).cal.filter topActiveSS = [] := by
    rw [List.filter_eq_nil]
    intro a ha
    rw [topActiveSS_false_of_cal a (mC' a ha).2]
    simp
  have hcalArch : (TaskArchiver.archAccOf content).cal.filter topArch = [] := by
    rw [List.filter_eq_nil]
    intro a ha
    rw [topArch_false_of_cal a (mC' a ha).2]
    simp
  have hactArch : (TaskArchiver.archAccOf content).active.filter topArch = [] := by
    rw [List.filter_eq_nil]
    intro a ha
    rw [(mA' a ha).2]
    simp
  have hr0mem : ∀ x ∈ (TaskArchiver.archAccOf content).cal ++
      (TaskArchiver.archAccOf content).active, x ∈ splitLines content := by
    intro x hx
    rcases List.mem_append.mp hx with h | h
    · exact (mC' x h).1
    · exact (mA' x h).1
  have hr0nonl : ∀ x ∈ (TaskArchiver.archAccOf content).cal ++
      (TaskArchiver.archAccOf content).active, ∀ c ∈ x, c ≠ '\n' :=
    fun x hx => mem_splitLines_no_nl content x (hr0mem x hx)
  have hr0call : ∀ x ∈ (TaskArchiver.archAccOf content).cal ++
      (TaskArchiver.archAccOf content).active, (!TaskArchiver.calloutStart x) = true := by
    intro x hx
    rw [hnc x (hr0mem x hx)]
    rfl
  have hr0SS : ((TaskArchiver.archAccOf content).cal ++
      (TaskArchiver.archAccOf content).active).filter topActiveSS =
      (splitLines content).filter topActiveSS := by
    rw [List.filter_append, hcalSS, List.nil_append, fS]
  have hr0Arch : ((TaskArchiver.archAccOf content).cal ++
      (TaskArchiver.archAccOf content).active).filter topArch = [] := by
    rw [List.filter_append, hcalArch, List.nil_append, hactArch]
  have harchout : TaskArchiver.archiveContent content = joinLines
      (if ((TaskArchiver.archAccOf content).archived ++
            (TaskArchiver.archAccOf content).existing).isEmpty then
        (TaskArchiver.archAccOf content).cal ++ (TaskArchiver.archAccOf content).active
      else
        (if ((TaskArchiver.archAccOf content).cal ++
              (TaskArchiver.archAccOf content).active).isEmpty then []
         else TaskArchiver.dropTrailingEmpties
            ((TaskArchiver.archAccOf content).cal ++ (TaskArchiver.archAccOf content).active) ++
              List.replicate 7 []) ++
          strL "> [!archived]- Archived" ::
            ((TaskArchiver.archAccOf content).archived ++
              (TaskArchiver.archAccOf content).existing).map (fun l => strL "> " ++ l)) := rfl
  by_cases hA : (TaskArchiver.archAccOf content).archived = []
  · have hAllEmpty : ((TaskArchiver.archAccOf content).archived ++
        (TaskArchiver.archAccOf content).existing).isEmpty = true := by
      rw [hA, e1]
      rfl
    rw [harchout, if_pos hAllEmpty]
    have hfA0 : (splitLines content).filter topArch = [] := by
      rw [← fA, hA]
      rfl
    by_cases hR : (TaskArchiver.archAccOf content).cal ++
        (TaskArchiver.archAccOf content).active = []
    · rw [hR]
      have hact0 : (TaskArchiver.archAccOf content).active = [] :=
        (List.append_eq_nil.mp hR).2
      have hfS0 : (splitLines content).filter topActiveSS = [] := by
        rw [← fS, hact0]
        rfl
      rw [hfA0, hfS0]
      refine ⟨?_, ?_, ?_⟩ <;> decide
    · rw [splitLines_joinLines _ hr0nonl hR]
      refine ⟨?_, ?_, ?_⟩
      · unfold TaskArchiver.calloutTasks
        rw [List.dropWhile_eq_nil_iff.mpr (fun x hx => hr0call x hx)]
        rw [hfA0]
        rfl
      · rw [List.takeWhile_eq_self_iff.mpr (fun x hx => hr0call x hx)]
        exact hr0SS
      · rw [List.takeWhile_eq_self_iff.mpr (fun x hx => hr0call x hx)]
        exact hr0Arch
  · have hAllEmpty : ((TaskArchiver.archAccOf content).archived ++
        (TaskArchiver.archAccOf content).existing).isEmpty = false := by
      rw [e1, List.append_nil]
      exact List.isEmpty_eq_false_iff_exists_mem.mpr
        (List.exists_mem_of_ne_nil _ hA)
    rw [harchout, if_neg (by rw [hAllEmpty]; simp)]
    rw [e1, List.append_nil]
    set pre := (if ((TaskArchiver.archAccOf content).cal ++
        (TaskArchiver.archAccOf content).active).isEmpty then ([] : List Str)
      else TaskArchiver.dropTrailingEmpties
        ((TaskArchiver.archAccOf content).cal ++ (TaskArchiver.archAccOf content).active) ++
          List.replicate 7 []) with hpre
    have hpre_mem : ∀ x ∈ pre, x ∈ splitLines content ∨ x = [] := by
      intro x hx
      rw [hpre] at hx
      split at hx
      · simp at hx
      · rcases List.mem_append.mp hx with h | h
        · exact Or.inl (hr0mem x (mem_dropTrailingEmpties _ x h))
        · exact Or.inr (by simpa using List.eq_of_mem_replicate h)
    have hpre_call : ∀ x ∈ pre, (!TaskArchiver.calloutStart x) = true := by
      intro x hx
      rcases hpre_mem x hx with h | h
      · rw [hnc x h]; rfl
      · rw [h]; decide
    have hpre_nonl : ∀ x ∈ pre, ∀ c ∈ x, c ≠ '\n' := by
      intro x hx
      rcases hpre_mem x hx with h | h
      · exact mem_splitLines_no_nl content x h
      · rw [h]; intro c hc; simp at hc
    have hpre_SS : pre.filter topActiveSS = (splitLines content).filter topActiveSS := by
      rw [hpre]
      split
      · rename_i hR
        have hact0 : (TaskArchiver.archAccOf content).active = [] :=
          (List.append_eq_nil.mp (by simpa using hR)).2
        rw [← fS, hact0]
      · rw [List.filter_append, filter_dropTrailingEmpties topActiveSS (by decide),
          filter_replicate_nil topActiveSS (by decide), List.append_nil]
        exact hr0SS
    have hpre_Arch : pre.filter topArch = [] := by
      rw [hpre]
      split
      · rfl
      · rw [List.filter_append, filter_dropTrailingEmpties topArch (by decide),
          filter_replicate_nil topArch (by decide), List.append_nil]
        exact hr0Arch
    have htail_nonl : ∀ x ∈ ((TaskArchiver.archAccOf content).archived).map
        (fun l => strL "> " ++ l), ∀ c ∈ x, c ≠ '\n' := by
      intro x hx c hc
      rcases List.mem_map.mp hx with ⟨y, hy, rfl⟩
      rcases List.mem_append.mp hc with h | h
      · intro hEq
        rw [hEq] at h
        exact absurd h (by decide)
      · exact mem_splitLines_no_nl content y (mR' y hy) c h
    have hall_nonl : ∀ x ∈ pre ++ strL "> [!archived]- Archived" ::
        ((TaskArchiver.archAccOf content).archived).map (fun l => strL "> " ++ l),
        ∀ c ∈ x, c ≠ '\n' := by
      intro x hx
      rcases List.mem_append.mp hx with h | h
      · exact hpre_nonl x h
      · rcases List.mem_cons.mp h with rfl | h2
        · intro c hc hEq
          rw [hEq] at hc
          exact absurd hc (by decide)
        · exact htail_nonl x h2
    have hne : pre ++ strL "> [!archived]- Archived" ::
        ((TaskArchiver.archAccOf content).archived).map (fun l => strL "> " ++ l) ≠ [] := by
      simp
    rw [splitLines_joinLines _ hall_nonl hne]
    have hhead : (!TaskArchiver.calloutStart (strL "> [!archived]- Archived")) = false := by
      decide
    refine ⟨?_, ?_, ?_⟩
    · unfold TaskArchiver.calloutTasks
      rw [dropWhile_append_stop _ pre _ _ hpre_call hhead]
      rw [List.drop_one, List.tail_cons, List.map_map]
      have hmapid : ((TaskArchiver.archAccOf content).archived).map
          ((fun l : Str => l.drop 2) ∘ (fun l => strL "> " ++ l)) =
          (TaskArchiver.archAccOf content).archived := by
        rw [show ((fun l : Str => l.drop 2) ∘ (fun l => strL "> " ++ l)) = id from ?_]
        · exact List.map_id _
        · funext l
          rfl
      rw [hmapid, fA]
    · rw [takeWhile_append_stop _ pre _ _ hpre_call hhead]
      exact hpre_SS
    · rw [takeWhile_append_stop _ pre _ _ hpre_call hhead]
      exact hpre_Arch

theorem C4_archive_partition_witness :
    (∀ l ∈ splitLines (strL "- [x] A\n- [ ] B"), TaskArchiver.calloutStart l = false) ∧
    (TaskArchiver.calloutTasks
        (splitLines (TaskArchiver.archiveContent (strL "- [x] A\n- [ ] B")))).filter
        TaskUtils.isParentTask
      = (splitLines (strL "- [x] A\n- [ ] B")).filter topArch :=
  ⟨by decide, (C4_archive_partition (strL "- [x] A\n- [ ] B") (by decide)).1⟩

-- ============================================================================
-- C3 amended: which non-task lines sortContent keeps
-- ============================================================================

theorem isTask_of_isParentTask (l : Str) (h : TaskUtils.isParentTask l = true) :
    TaskUtils.isTask l = true := by
  unfold TaskUtils.isParentTask at h
  split at h
  · rfl
  · exact absurd h (by simp)

theorem isTask_of_isSubtask (l : Str) (h : TaskUtils.isSubtask l = true) :
    TaskUtils.isTask l = true := by
  unfold TaskUtils.isSubtask at h
  split at h
  · exact h
  · exact absurd h (by simp)

theorem isSubtask_false_of_isParentTask (l : Str) (h : TaskUtils.isParentTask l = true) :
    TaskUtils.isSubtask l = false := by
  unfold TaskUtils.isParentTask at h
  split at h
  · rfl
  · exact absurd h (by simp)

theorem isTask_eq_or (l : Str) :
    TaskUtils.isTask l = (TaskUtils.isParentTask l || TaskUtils.isSubtask l) := by
  cases l with
  | nil => rfl
  | cons a r =>
    by_cases ha : a = '\t'
    · subst ha
      have h1 : TaskUtils.isParentTask ('\t' :: r) = false := rfl
      have h2 : TaskUtils.isTask ('\t' :: r) = TaskUtils.isSubtask ('\t' :: r) := rfl
      rw [h1, h2, Bool.false_or]
    · have hsub : TaskUtils.isSubtask (a :: r) = false := by
        unfold TaskUtils.isSubtask
        split
        · rename_i r' heq
          exact absurd (List.cons.inj heq).1 ha
        · rfl
      have hpt : TaskUtils.isTask (a :: r) = TaskUtils.isParentTask (a :: r) := by
        unfold TaskUtils.isTask TaskUtils.isParentTask
        rw [List.dropWhile_cons, if_neg (by simp [ha])]
        rfl
      rw [hpt, hsub, Bool.or_false]

/-- Lines paired with their zero-based indices, starting at `i`. -/
def enumFrom (i : Nat) : List Str → List (Nat × Str)
  | [] => []
  | l :: ls => (i, l) :: enumFrom (i + 1) ls

def olProj (o : TaskSorter.OL) : Nat × Str := (o.idx, o.line)

theorem mem_enumFrom_snd (ls : List Str) : ∀ (i0 : Nat) (e : Nat × Str),
    e ∈ enumFrom i0 ls → e.2 ∈ ls := by
  induction ls with
  | nil => intro i0 e he; simp [enumFrom] at he
  | cons l ls ih =>
    intro i0 e he
    rw [enumFrom] at he
    rcases List.mem_cons.mp he with rfl | h2
    · simp
    · simp [ih (i0 + 1) e h2]

theorem mem_enumFrom_ge (ls : List Str) : ∀ (i0 : Nat) (e : Nat × Str),
    e ∈ enumFrom i0 ls → i0 ≤ e.1 := by
  induction ls with
  | nil => intro i0 e he; simp [enumFrom] at he
  | cons l ls ih =>
    intro i0 e he
    rw [enumFrom] at he
    rcases List.mem_cons.mp he with rfl | h2
    · simp
    · exact Nat.le_of_succ_le (ih (i0 + 1) e h2)

theorem enum_filter_take (p : Str → Bool) : ∀ (ls : List Str) (i0 n : Nat),
    (((enumFrom i0 ls).filter (fun e => p e.2 && decide (e.1 < i0 + n))).map
        (fun e => e.2))
      = (ls.take n).filter p := by
  intro ls
  induction ls with
  | nil => intro i0 n; simp [enumFrom]
  | cons l ls ih =>
    intro i0 n
    rw [enumFrom]
    cases n with
    | zero =>
      have hnone : ((i0, l) :: enumFrom (i0 + 1) ls).filter
          (fun e => p e.2 && decide (e.1 < i0 + 0)) = [] := by
        rw [List.filter_eq_nil]
        intro e he
        rcases List.mem_cons.mp he with rfl | h2
        · simp
        · have hge := mem_enumFrom_ge ls (i0 + 1) e h2
          simp only [Bool.and_eq_true, decide_eq_true_eq, not_and]
          intro _
          omega
      rw [hnone]
      simp
    | succ n =>
      have harith : i0 + (n + 1) = (i0 + 1) + n := by omega
      have hcongr : (enumFrom (i0 + 1) ls).filter
            (fun e => p e.2 && decide (e.1 < i0 + (n + 1)))
          = (enumFrom (i0 + 1) ls).filter
            (fun e => p e.2 && decide (e.1 < (i0 + 1) + n)) :=
        List.filter_congr (fun e _ => by rw [harith])
      by_cases hp : p l = true
      · rw [List.filter_cons]
        rw [if_pos (by simp [hp])]
        rw [List.map_cons, hcongr, ih (i0 + 1) n, List.take_succ_cons,
          List.filter_cons, if_pos (by simp [hp])]
      · have hpf : p l = false := by
          cases h : p l with
          | false => rfl
          | true => exact absurd h hp
        rw [List.filter_cons, if_neg (by simp [hpf])]
        rw [hcongr, ih (i0 + 1) n, List.take_succ_cons, List.filter_cons,
          if_neg (by simp [hpf])]

theorem enum_map_snd : ∀ (ls : List Str) (i0 : Nat),
    ((enumFrom i0 ls).map (fun e => e.2)) = ls := by
  intro ls
  induction ls with
  | nil => intro i0; rfl
  | cons l ls ih =>
    intro i0
    rw [enumFrom, List.map_cons, ih (i0 + 1)]

theorem enum_filter_drop : ∀ (ls : List Str) (i0 n : Nat),
    (((enumFrom i0 ls).filter (fun e => decide (i0 + n ≤ e.1))).map (fun e => e.2))
      = ls.drop n := by
  intro ls
  induction ls with
  | nil => intro i0 n; simp [enumFrom]
  | cons l ls ih =>
    intro i0 n
    rw [enumFrom]
    cases n with
    | zero =>
      have hall : ((i0, l) :: enumFrom (i0 + 1) ls).filter
          (fun e => decide (i0 + 0 ≤ e.1)) = (i0, l) :: enumFrom (i0 + 1) ls := by
        rw [List.filter_eq_self]
        intro e he
        rcases List.mem_cons.mp he with rfl | h2
        · simp
        · have := mem_enumFrom_ge ls (i0 + 1) e h2
          simp
          omega
      rw [hall, List.drop_zero, List.map_cons, enum_map_snd]
    | succ n =>
      rw [List.filter_cons, if_neg (by simp)]
      have hcongr : (enumFrom (i0 + 1) ls).filter (fun e => decide (i0 + (n + 1) ≤ e.1))
          = (enumFrom (i0 + 1) ls).filter (fun e => decide ((i0 + 1) + n ≤ e.1)) :=
        List.filter_congr (fun e _ => by rw [show i0 + (n + 1) = (i0 + 1) + n from by omega])
      rw [hcongr, ih (i0 + 1) n, List.drop_succ_cons]

theorem map_filter_proj (xs : List TaskSorter.OL) (q : Nat × Str → Bool) :
    ((xs.filter (fun o => q (olProj o))).map (fun o => o.line))
      = ((xs.map olProj).filter q).map (fun e => e.2) := by
  induction xs with
  | nil => rfl
  | cons x xs ih =>
    rw [List.map_cons, List.filter_cons, List.filter_cons]
    by_cases hq : q (olProj x) = true
    · rw [if_pos hq, if_pos hq, List.map_cons, List.map_cons, ih]
      rfl
    · rw [if_neg hq, if_neg hq, ih]

theorem pass1_spec (ls : List Str) : ∀ (i0 : Nat) (st : TaskSorter.PassSt),
    (∀ l ∈ ls, TaskSorter.isCompletedHeading l = false) → st.inCompleted = false →
    (TaskSorter.pass1 i0 st ls).completedTasks = st.completedTasks ∧
    (TaskSorter.pass1 i0 st ls).parents = st.parents ++
      ((enumFrom i0 ls).filter (fun e => TaskUtils.isParentTask e.2)).map
        (fun e => ⟨e.1, TaskUtils.extractId e.2, e.2⟩) ∧
    (TaskSorter.pass1 i0 st ls).subs = st.subs ++
      ((enumFrom i0 ls).filter (fun e => TaskUtils.isSubtask e.2)).map
        (fun e => ⟨e.1, TaskUtils.extractParentId e.2, e.2⟩) ∧
    (TaskSorter.pass1 i0 st ls).others.map olProj = st.others.map olProj ++
      (enumFrom i0 ls).filter (fun e => !TaskUtils.isTask e.2) := by
  induction ls with
  | nil =>
    intro i0 st _ _
    refine ⟨rfl, by simp [TaskSorter.pass1, enumFrom], by simp [TaskSorter.pass1, enumFrom],
      by simp [TaskSorter.pass1, enumFrom]⟩
  | cons l ls ih =>
    intro i0 st h2 hst
    have hl2 : TaskSorter.isCompletedHeading l = false := h2 l (by simp)
    have h2' : ∀ x ∈ ls, TaskSorter.isCompletedHeading x = false :=
      fun x hx => h2 x (by simp [hx])
    rw [TaskSorter.pass1, if_neg (by rw [hl2]; simp)]
    simp only []
    rw [if_neg (by rw [hst]; simp)]
    rw [enumFrom]
    by_cases hP : TaskUtils.isParentTask l = true
    · rw [if_pos hP]
      have hS : TaskUtils.isSubtask l = false := isSubtask_false_of_isParentTask l hP
      have hT : TaskUtils.isTask l = true := isTask_of_isParentTask l hP
      obtain ⟨c1, c2, c3, c4⟩ := ih (i0 + 1)
        { st with
            inTaskArea := true,
            parents := st.parents ++ [⟨i0, TaskUtils.extractId l, l⟩] } h2' hst
      refine ⟨c1, ?_, ?_, ?_⟩
      · rw [c2, List.filter_cons, if_pos (by simp [hP]), List.map_cons]
        show st.parents ++ [⟨i0, TaskUtils.extractId l, l⟩] ++ _ = _
        rw [List.append_assoc]
        rfl
      · rw [c3, List.filter_cons, if_neg (by simp [hS])]
      · rw [c4, List.filter_cons, if_neg (by simp [hT])]
    · rw [if_neg hP]
      by_cases hS : TaskUtils.isSubtask l = true
      · rw [if_pos hS]
        have hT : TaskUtils.isTask l = true := isTask_of_isSubtask l hS
        obtain ⟨c1, c2, c3, c4⟩ := ih (i0 + 1)
          { st with subs := st.subs ++ [⟨i0, TaskUtils.extractParentId l, l⟩] } h2' hst
        refine ⟨c1, ?_, ?_, ?_⟩
        · rw [c2, List.filter_cons, if_neg (by simp [hP])]
        · rw [c3, List.filter_cons, if_pos (by simp [hS]), List.map_cons]
          show st.subs ++ [⟨i0, TaskUtils.extractParentId l, l⟩] ++ _ = _
          rw [List.append_assoc]
          rfl
        · rw [c4, List.filter_cons, if_neg (by simp [hT])]
      · rw [if_neg hS]
        have hT : TaskUtils.isTask l = false := by
          rw [isTask_eq_or]
          simp only [Bool.or_eq_true, not_or] at *
          cases hp : TaskUtils.isParentTask l with
          | true => exact absurd hp hP
          | false =>
            cases hs : TaskUtils.isSubtask l with
            | true => exact absurd hs hS
            | false => rfl
        obtain ⟨c1, c2, c3, c4⟩ := ih (i0 + 1)
          { st with
              inTaskArea := if st.inTaskArea && TaskSorter.startsHash l then false
                else st.inTaskArea,
              others := st.others ++
                [⟨i0, l,
                  if st.inTaskArea && TaskSorter.startsHash l then false
                  else st.inTaskArea⟩] } h2' hst
        have hfP : ((i0, l) :: enumFrom (i0 + 1) ls).filter
              (fun e => TaskUtils.isParentTask e.2)
            = (enumFrom (i0 + 1) ls).filter (fun e => TaskUtils.isParentTask e.2) := by
          rw [List.filter_cons]
          simp [hP]
        have hfS : ((i0, l) :: enumFrom (i0 + 1) ls).filter
              (fun e => TaskUtils.isSubtask e.2)
            = (enumFrom (i0 + 1) ls).filter (fun e => TaskUtils.isSubtask e.2) := by
          rw [List.filter_cons]
          simp [hS]
        have hfT : ((i0, l) :: enumFrom (i0 + 1) ls).filter
              (fun e => !TaskUtils.isTask e.2)
            = (i0, l) :: (enumFrom (i0 + 1) ls).filter (fun e => !TaskUtils.isTask e.2) := by
          rw [List.filter_cons]
          simp [hT]
        refine ⟨c1, ?_, ?_, ?_⟩
        · rw [c2, hfP]
        · rw [c3, hfS]
        · rw [c4, hfT, List.map_append, List.append_assoc]
          rfl

theorem foldl_max_le_init : ∀ (xs : List Nat) (a : Nat), a ≤ xs.foldl max a := by
  intro xs
  induction xs with
  | nil => intro a; exact Nat.le_refl a
  | cons y ys ih =>
    intro a
    exact Nat.le_trans (Nat.le_max_left a y) (ih (max a y))

theorem le_foldl_max : ∀ (xs : List Nat) (a x : Nat), x ∈ xs → x ≤ xs.foldl max a := by
  intro xs
  induction xs with
  | nil => intro a x hx; simp at hx
  | cons y ys ih =>
    intro a x hx
    rcases List.mem_cons.mp hx with rfl | h2
    · exact Nat.le_trans (Nat.le_max_right a x) (foldl_max_le_init ys (max a x))
    · exact ih (max a y) x h2

theorem mem_sortStable (lt : α → α → Bool) : ∀ (xs : List α) (b : α),
    b ∈ TaskSorter.sortStable lt xs → b ∈ xs := by
  intro xs
  induction xs with
  | nil => intro b hb; exact hb
  | cons x xs ih =>
    intro b hb
    rw [TaskSorter.sortStable] at hb
    rcases mem_insStable lt x (TaskSorter.sortStable lt xs) b hb with rfl | h2
    · simp
    · simp [ih b h2]

theorem mem_emitGroups : ∀ (gs : List TaskSorter.TGroup) (l : Str),
    l ∈ TaskSorter.emitGroups gs → ∃ g ∈ gs, l = g.parent ∨ l ∈ g.subtasks := by
  intro gs
  induction gs with
  | nil => intro l hl; simp [TaskSorter.emitGroups] at hl
  | cons g gs ih =>
    intro l hl
    have hcons : TaskSorter.emitGroups (g :: gs)
        = g.parent :: (g.subtasks ++ TaskSorter.emitGroups gs) := rfl
    rw [hcons] at hl
    rcases List.mem_cons.mp hl with rfl | h2
    · exact ⟨g, by simp, Or.inl rfl⟩
    · rcases List.mem_append.mp h2 with h3 | h3
      · exact ⟨g, by simp, Or.inr h3⟩
      · obtain ⟨g2, hg2, hc⟩ := ih l h3
        exact ⟨g2, by simp [hg2], hc⟩

theorem addLegacy_mem (parents : List TaskSorter.PT) (pIdx : Nat) :
    ∀ (ss : List TaskSorter.ST) (acc : List Str) (l : Str),
    l ∈ TaskSorter.addLegacy parents pIdx acc ss → l ∈ acc ∨ ∃ s ∈ ss, l = s.line := by
  intro ss
  induction ss with
  | nil => intro acc l hl; exact Or.inl hl
  | cons s ss ih =>
    intro acc l hl
    rw [TaskSorter.addLegacy] at hl
    split at hl
    · rcases ih (acc ++ [s.line]) l hl with h2 | h2
      · rcases List.mem_append.mp h2 with h3 | h3
        · exact Or.inl h3
        · exact Or.inr ⟨s, by simp, by simpa using h3⟩
      · obtain ⟨s2, hs2, hc⟩ := h2
        exact Or.inr ⟨s2, by simp [hs2], hc⟩
    · rcases ih acc l hl with h2 | h2
      · exact Or.inl h2
      · obtain ⟨s2, hs2, hc⟩ := h2
        exact Or.inr ⟨s2, by simp [hs2], hc⟩

/-- C3 (amended): when the document has at least one parent task, no
`## Completed` heading and no completed parent task, `sortContent` keeps the
non-task lines strictly before the first parent task and all lines strictly
after the last task line, and replaces everything in between by the sorted
task groups, which consist of task lines only — so non-task lines that sat
between the first and last task are dropped from the output, not hoisted. -/
theorem C3_sort_nontask_lines (content : Str)
    (hpar : (TaskSorter.pass1Of content).parents ≠ [])
    (hnoCH : ∀ l ∈ splitLines content, TaskSorter.isCompletedHeading l = false)
    (hnoComp : ∀ l ∈ splitLines content,
      TaskUtils.isParentTask l = true → TaskUtils.isCompleted l = false) :
    TaskSorter.sortContent content = joinLines
      (((splitLines content).take (TaskSorter.firstTaskIndexOf content)).filter
          (fun l => !TaskUtils.isTask l)
        ++ TaskSorter.emitGroups (TaskSorter.incompleteSortedOf content)
        ++ (splitLines content).drop (TaskSorter.lastTaskIndexOf content + 1))
    ∧ ∀ l ∈ TaskSorter.emitGroups (TaskSorter.incompleteSortedOf content),
        TaskUtils.isTask l = true := by
  obtain ⟨c1, c2, c3, c4⟩ := pass1_spec (splitLines content) 0 TaskSorter.initSt hnoCH rfl
  have hct : (TaskSorter.pass1Of content).completedTasks = [] := c1
  have hparents : (TaskSorter.pass1Of content).parents
      = ((enumFrom 0 (splitLines content)).filter (fun e => TaskUtils.isParentTask e.2)).map
          (fun e => ⟨e.1, TaskUtils.extractId e.2, e.2⟩) := by
    show (TaskSorter.pass1 0 TaskSorter.initSt (splitLines content)).parents = _
    rw [c2]
    rfl
  have hsubs : (TaskSorter.pass1Of content).subs
      = ((enumFrom 0 (splitLines content)).filter (fun e => TaskUtils.isSubtask e.2)).map
          (fun e => ⟨e.1, TaskUtils.extractParentId e.2, e.2⟩) := by
    show (TaskSorter.pass1 0 TaskSorter.initSt (splitLines content)).subs = _
    rw [c3]
    rfl
  have hothers : (TaskSorter.pass1Of content).others.map olProj
      = (enumFrom 0 (splitLines content)).filter (fun e => !TaskUtils.isTask e.2) := by
    show (TaskSorter.pass1 0 TaskSorter.initSt (splitLines content)).others.map olProj = _
    rw [c4]
    rfl
  have hpln : ∀ p ∈ (TaskSorter.pass1Of content).parents,
      p.line ∈ splitLines content ∧ TaskUtils.isParentTask p.line = true := by
    intro p hp
    rw [hparents] at hp
    obtain ⟨e, he, hpe⟩ := List.mem_map.mp hp
    have h1 : TaskUtils.isParentTask e.2 = true := (List.mem_filter.mp he).2
    have h2 : e.2 ∈ splitLines content := mem_enumFrom_snd _ _ _ (List.mem_of_mem_filter he)
    rw [← hpe]
    exact ⟨h2, h1⟩
  have hsln : ∀ s ∈ (TaskSorter.pass1Of content).subs, TaskUtils.isSubtask s.line = true := by
    intro s hs
    rw [hsubs] at hs
    obtain ⟨e, he, hse⟩ := List.mem_map.mp hs
    have h1 : TaskUtils.isSubtask e.2 = true := (List.mem_filter.mp he).2
    rw [← hse]
    exact h1
  have hgroups : ∀ g ∈ TaskSorter.groupsOf content,
      ∃ p ∈ (TaskSorter.pass1Of content).parents,
        g = TaskSorter.buildGroup (TaskSorter.pass1Of content).parents
              (TaskSorter.pass1Of content).subs p := by
    intro g hg
    have hg2 : g ∈ (TaskSorter.pass1Of content).parents.map
        (TaskSorter.buildGroup (TaskSorter.pass1Of content).parents
          (TaskSorter.pass1Of content).subs) := hg
    obtain ⟨p, hp, hgp⟩ := List.mem_map.mp hg2
    exact ⟨p, hp, hgp.symm⟩
  have hfilterC : (TaskSorter.groupsOf content).filter
      (fun g => TaskUtils.isCompleted g.parent) = [] := by
    rw [List.filter_eq_nil]
    intro g hg
    obtain ⟨p, hp, hgp⟩ := hgroups g hg
    have hpl := hpln p hp
    have hc : TaskUtils.isCompleted p.line = false := hnoComp p.line hpl.1 hpl.2
    rw [hgp]
    show ¬ TaskUtils.isCompleted p.line = true
    simp [hc]
  have hcs : TaskSorter.completedSortedOf content = [] := by
    rw [TaskSorter.completedSortedOf, hfilterC]
    rfl
  have hall : TaskSorter.allCompletedSortedOf content = [] := by
    rw [TaskSorter.allCompletedSortedOf, hcs, hct]
    rfl
  have hne : (TaskSorter.pass1Of content).parents.isEmpty = false := by
    rw [List.isEmpty_eq_false]
    exact hpar
  have hlast : TaskSorter.lastTaskIndexOf content
      = ((TaskSorter.pass1Of content).parents.map (fun p => p.idx)
          ++ (TaskSorter.pass1Of content).subs.map (fun s => s.idx)).foldl max 0 := by
    show (if (TaskSorter.pass1Of content).parents.isEmpty
        then 0
        else ((TaskSorter.pass1Of content).parents.map (fun p => p.idx)
          ++ (TaskSorter.pass1Of content).subs.map (fun s => s.idx)).foldl max 0) = _
    rw [hne, if_neg (by simp)]
  have hbound : ∀ e ∈ enumFrom 0 (splitLines content),
      TaskUtils.isTask e.2 = true → e.1 ≤ TaskSorter.lastTaskIndexOf content := by
    intro e he ht
    rw [isTask_eq_or] at ht
    rw [hlast]
    have ht2 : TaskUtils.isParentTask e.2 = true ∨ TaskUtils.isSubtask e.2 = true := by
      simpa using ht
    rcases ht2 with hp | hs2
    · have hmem : (⟨e.1, TaskUtils.extractId e.2, e.2⟩ : TaskSorter.PT)
          ∈ (TaskSorter.pass1Of content).parents := by
        rw [hparents]
        exact List.mem_map_of_mem _ (List.mem_filter.mpr ⟨he, hp⟩)
      have h2 : e.1 ∈ (TaskSorter.pass1Of content).parents.map (fun p => p.idx) :=
        List.mem_map_of_mem _ hmem
      exact le_foldl_max _ 0 e.1 (List.mem_append_left _ h2)
    · have hmem : (⟨e.1, TaskUtils.extractParentId e.2, e.2⟩ : TaskSorter.ST)
          ∈ (TaskSorter.pass1Of content).subs := by
        rw [hsubs]
        exact List.mem_map_of_mem _ (List.mem_filter.mpr ⟨he, hs2⟩)
      have h2 : e.1 ∈ (TaskSorter.pass1Of content).subs.map (fun s => s.idx) :=
        List.mem_map_of_mem _ hmem
      exact le_foldl_max _ 0 e.1 (List.mem_append_right _ h2)
  have hbefore : ((TaskSorter.pass1Of content).others.filter
        (fun o => decide (o.idx < TaskSorter.firstTaskIndexOf content))).map (fun o => o.line)
      = ((splitLines content).take (TaskSorter.firstTaskIndexOf content)).filter
          (fun l => !TaskUtils.isTask l) := by
    have h0 : ((TaskSorter.pass1Of content).others.filter
          (fun o => decide (o.idx < TaskSorter.firstTaskIndexOf content))).map (fun o => o.line)
        = (((TaskSorter.pass1Of content).others.map olProj).filter
            (fun e => decide (e.1 < TaskSorter.firstTaskIndexOf content))).map (fun e => e.2) :=
      map_filter_proj (TaskSorter.pass1Of content).others
        (fun e => decide (e.1 < TaskSorter.firstTaskIndexOf content))
    rw [h0, hothers, List.filter_filter]
    have hcg : (enumFrom 0 (splitLines content)).filter
          (fun e => decide (e.1 < TaskSorter.firstTaskIndexOf content) && !TaskUtils.isTask e.2)
        = (enumFrom 0 (splitLines content)).filter
          (fun e => (!TaskUtils.isTask e.2)
            && decide (e.1 < 0 + TaskSorter.firstTaskIndexOf content)) :=
      List.filter_congr (fun e _ => by rw [Nat.zero_add, Bool.and_comm])
    rw [hcg]
    exact enum_filter_take (fun l => !TaskUtils.isTask l) (splitLines content) 0
      (TaskSorter.firstTaskIndexOf content)
  have hafter : ((TaskSorter.pass1Of content).others.filter
        (fun o => decide (TaskSorter.lastTaskIndexOf content < o.idx))).map (fun o => o.line)
      = (splitLines content).drop (TaskSorter.lastTaskIndexOf content + 1) := by
    have h0 : ((TaskSorter.pass1Of content).others.filter
          (fun o => decide (TaskSorter.lastTaskIndexOf content < o.idx))).map (fun o => o.line)
        = (((TaskSorter.pass1Of content).others.map olProj).filter
            (fun e => decide (TaskSorter.lastTaskIndexOf content < e.1))).map (fun e => e.2) :=
      map_filter_proj (TaskSorter.pass1Of content).others
        (fun e => decide (TaskSorter.lastTaskIndexOf content < e.1))
    rw [h0, hothers, List.filter_filter]
    have hcg : (enumFrom 0 (splitLines content)).filter
          (fun e => decide (TaskSorter.lastTaskIndexOf content < e.1) && !TaskUtils.isTask e.2)
        = (enumFrom 0 (splitLines content)).filter
          (fun e => decide (0 + (TaskSorter.lastTaskIndexOf content + 1) ≤ e.1)) := by
      refine List.filter_congr (fun e he => ?_)
      by_cases hlt : TaskSorter.lastTaskIndexOf content < e.1
      · have hT : TaskUtils.isTask e.2 = false := by
          cases h : TaskUtils.isTask e.2 with
          | false => rfl
          | true => exact absurd (hbound e he h) (by omega)
        have h2 : decide (TaskSorter.lastTaskIndexOf content < e.1) = true := by simp [hlt]
        have h3 : decide (0 + (TaskSorter.lastTaskIndexOf content + 1) ≤ e.1) = true := by
          simp
          omega
        rw [hT, h2, h3]
        rfl
      · have h2 : decide (TaskSorter.lastTaskIndexOf content < e.1) = false := by simp [hlt]
        have h3 : decide (0 + (TaskSorter.lastTaskIndexOf content + 1) ≤ e.1) = false := by
          simp
          omega
        rw [h2, h3, Bool.false_and]
    rw [hcg]
    exact enum_filter_drop (splitLines content) 0 (TaskSorter.lastTaskIndexOf content + 1)
  refine ⟨?_, ?_⟩
  · rw [TaskSorter.sortContent]
    rw [hall, if_pos (show List.isEmpty ([] : List TaskSorter.TGroup) = true from rfl),
      hbefore, hafter]
  · intro l hl
    obtain ⟨g, hg, hc⟩ := mem_emitGroups _ l hl
    rw [TaskSorter.incompleteSortedOf] at hg
    have hg2 : g ∈ TaskSorter.groupsOf content :=
      List.mem_of_mem_filter (mem_sortStable TaskSorter.groupLt _ g hg)
    obtain ⟨p, hp, hgp⟩ := hgroups g hg2
    rcases hc with rfl | hsub
    · rw [hgp]
      show TaskUtils.isTask p.line = true
      exact isTask_of_isParentTask _ (hpln p hp).2
    · rw [hgp] at hsub
      have hsub2 : l ∈ TaskSorter.addLegacy (TaskSorter.pass1Of content).parents p.idx
          (match p.id with
           | some pid => (((TaskSorter.pass1Of content).subs.filter
               (fun s => s.pid == some pid)).map (fun s => s.line))
           | none => []) (TaskSorter.pass1Of content).subs := hsub
      rcases addLegacy_mem _ _ _ _ l hsub2 with hacc | ⟨s, hs, rfl⟩
      · cases hid : p.id with
        | none =>
          rw [hid] at hacc
          simp at hacc
        | some pid =>
          rw [hid] at hacc
          obtain ⟨s, hs, hsl⟩ := List.mem_map.mp hacc
          have h1 := hsln s (List.mem_of_mem_filter hs)
          rw [← hsl]
          exact isTask_of_isSubtask _ h1
      · exact isTask_of_isSubtask _ (hsln s hs)

theorem C3_sort_nontask_lines_witness :
    TaskSorter.sortContent (strL "intro\n- [ ] B\nmid note\n- [ ] A\ntail") = joinLines
      (((splitLines (strL "intro\n- [ ] B\nmid note\n- [ ] A\ntail")).take
            (TaskSorter.firstTaskIndexOf (strL "intro\n- [ ] B\nmid note\n- [ ] A\ntail"))).filter
          (fun l => !TaskUtils.isTask l)
        ++ TaskSorter.emitGroups
            (TaskSorter.incompleteSortedOf (strL "intro\n- [ ] B\nmid note\n- [ ] A\ntail"))
        ++ (splitLines (strL "intro\n- [ ] B\nmid note\n- [ ] A\ntail")).drop
            (TaskSorter.lastTaskIndexOf (strL "intro\n- [ ] B\nmid note\n- [ ] A\ntail") + 1))
    ∧ ∀ l ∈ TaskSorter.emitGroups
          (TaskSorter.incompleteSortedOf (strL "intro\n- [ ] B\nmid note\n- [ ] A\ntail")),
        TaskUtils.isTask l = true :=
  C3_sort_nontask_lines (strL "intro\n- [ ] B\nmid note\n- [ ] A\ntail")
    (by decide) (by decide) (by decide)

-- ============================================================================
-- SCANNER TOOLKIT: stripAll / findCapture on well-formed rendered lines
-- ============================================================================

/-- `takeWhile` runs through a satisfying prefix and stops at the witness. -/
theorem takeWhileC_append_stop (p : α → Bool) (xs : List α) (y : α) (ys : List α)
    (hxs : ∀ x ∈ xs, p x = true) (hy : p y = false) :
    (xs ++ y :: ys).takeWhile p = xs := by
  induction xs with
  | nil => simp [List.takeWhile_cons, hy]
  | cons x xs ih =>
    rw [List.cons_append, List.takeWhile_cons, if_pos (hxs x (by simp))]
    rw [ih (fun x hx => hxs x (by simp [hx]))]

/-- `dropWhile` drops a satisfying prefix and stops at the witness. -/
theorem dropWhileC_append_stop (p : α → Bool) (xs : List α) (y : α) (ys : List α)
    (hxs : ∀ x ∈ xs, p x = true) (hy : p y = false) :
    (xs ++ y :: ys).dropWhile p = y :: ys := by
  induction xs with
  | nil => simp [List.dropWhile_cons, hy]
  | cons x xs ih =>
    rw [List.cons_append, List.dropWhile_cons, if_pos (hxs x (by simp))]
    exact ih (fun x hx => hxs x (by simp [hx]))

/-- A matcher that always consumes at least one character on success. -/
def shrinks (mm : Str → Option Str) : Prop :=
  ∀ s r, mm s = some r → r.length < s.length

/-- For a shrinking matcher any fuel at least the string length computes the
same result. -/
theorem stripAllF_ge (mm : Str → Option Str) (hm : shrinks mm) :
    ∀ f₁ : Nat, ∀ s : Str, ∀ f₂ : Nat, s.length ≤ f₁ → s.length ≤ f₂ →
    stripAllF mm f₁ s = stripAllF mm f₂ s := by
  intro f₁
  induction f₁ with
  | zero =>
    intro s f₂ h1 _
    have hs : s = [] := List.length_eq_zero.mp (Nat.le_zero.mp h1)
    subst hs
    cases f₂ with
    | zero => rfl
    | succ g => rfl
  | succ f ih =>
    intro s f₂ h1 h2
    cases s with
    | nil =>
      cases f₂ with
      | zero => rfl
      | succ g => rfl
    | cons c s' =>
      cases f₂ with
      | zero => exact absurd h2 (by simp)
      | succ g =>
        rw [stripAllF, stripAllF]
        cases hmc : mm (c :: s') with
        | some r =>
          have hlt := hm (c :: s') r hmc
          simp only [List.length_cons] at hlt h1 h2
          exact ih r g (by omega) (by omega)
        | none =>
          rw [ih s' g (by simp at h1; omega) (by simp at h2; omega)]

theorem stripAll_cons_none (mm : Str → Option Str) (c : Char) (s : Str)
    (h : mm (c :: s) = none) : stripAll mm (c :: s) = c :: stripAll mm s := by
  rw [stripAll, stripAll, List.length_cons, stripAllF, h]

theorem stripAll_cons_some (mm : Str → Option Str) (hm : shrinks mm) (c : Char) (s r : Str)
    (h : mm (c :: s) = some r) : stripAll mm (c :: s) = stripAll mm r := by
  rw [stripAll, stripAll, List.length_cons, stripAllF, h]
  have hlt := hm (c :: s) r h
  simp only [List.length_cons] at hlt
  exact stripAllF_ge mm hm s.length r r.length (by omega) (by omega)

/-- `u <:+ pre` nonempty implies the matcher fails at that position (with the
continuation `s` appended). -/
def failsOn (mm : Str → Option Str) (pre s : Str) : Prop :=
  ∀ u : Str, u ≠ [] → u <:+ pre → mm (u ++ s) = none

theorem suffix_append_cases (u p q : List α) (h : u <:+ p ++ q) :
    u <:+ q ∨ ∃ u', u = u' ++ q ∧ u' ≠ [] ∧ u' <:+ p := by
  induction p with
  | nil => exact Or.inl h
  | cons a p' ih =>
    rcases List.suffix_cons_iff.mp h with h1 | h1
    · exact Or.inr ⟨a :: p', by simpa using h1, by simp, List.suffix_rfl⟩
    · rcases ih h1 with h2 | ⟨u', he, hne, hsuf⟩
      · exact Or.inl h2
      · exact Or.inr ⟨u', he, hne, hsuf.trans (List.suffix_cons a p')⟩

theorem failsOn_append (mm : Str → Option Str) (p q s : Str)
    (hp : failsOn mm p (q ++ s)) (hq : failsOn mm q s) : failsOn mm (p ++ q) s := by
  intro u hne hsuf
  rcases suffix_append_cases u p q hsuf with h1 | ⟨u', rfl, hne', hu'⟩
  · exact hq u hne h1
  · rw [List.append_assoc]
    exact hp u' hne' hu'

theorem dropWhile_length_le (p : α → Bool) : ∀ l : List α, (l.dropWhile p).length ≤ l.length := by
  intro l
  induction l with
  | nil => simp
  | cons a l ih =>
    rw [List.dropWhile_cons]
    split
    · exact Nat.le_trans ih (by simp)
    · exact Nat.le_refl _

/-- Scan past a prefix at which the matcher fails everywhere. -/
theorem stripAll_skip (mm : Str → Option Str) (pre s : Str) (h : failsOn mm pre s) :
    stripAll mm (pre ++ s) = pre ++ stripAll mm s := by
  induction pre with
  | nil => rfl
  | cons c pre' ih =>
    have h1 : mm (c :: (pre' ++ s)) = none := h (c :: pre') (by simp) List.suffix_rfl
    rw [List.cons_append, stripAll_cons_none mm c (pre' ++ s) h1,
      ih (fun u hne hsuf => h u hne (hsuf.trans (List.suffix_cons c pre')))]
    rfl

/-- Characters that cannot take part in the opening of any metadata-tag
match: not `[`, not `]`, not a newline, not the legacy calendar emoji. -/
def cleanChar (c : Char) : Bool :=
  c != '[' && c != ']' && c != '\n' && c != '📅'

/-- The position (after its leading whitespace) cannot open any of the tag
matchers: the first non-whitespace character, if any, is neither `[` nor the
calendar emoji. -/
def noStart (x : Str) : Bool :=
  match x.dropWhile isWs with
  | [] => true
  | c :: _ => c != '[' && c != '📅'

theorem noStart_cons_ws (a : Char) (x : Str) (ha : isWs a = true) :
    noStart (a :: x) = noStart x := by
  rw [noStart, noStart, List.dropWhile_cons, if_pos ha]

theorem noStart_cons_clean (a : Char) (x : Str) (ha : isWs a = false)
    (hc : cleanChar a = true) : noStart (a :: x) = true := by
  rw [noStart, List.dropWhile_cons, if_neg (by simp [ha])]
  simp only [cleanChar, Bool.and_eq_true] at hc ⊢
  exact ⟨hc.1.1.1, hc.2⟩

theorem noStart_append_clean (u w : Str) (hu : u.all cleanChar = true)
    (hw : noStart w = true) : noStart (u ++ w) = true := by
  induction u with
  | nil => exact hw
  | cons a u' ih =>
    have ha : cleanChar a = true := by
      have := List.all_eq_true.mp hu a (by simp)
      exact this
    have hu' : u'.all cleanChar = true :=
      List.all_eq_true.mpr (fun x hx => List.all_eq_true.mp hu x (by simp [hx]))
    cases haw : isWs a with
    | true => rw [List.cons_append, noStart_cons_ws a _ haw]; exact ih hu'
    | false => exact noStart_cons_clean a _ haw ha

theorem noStart_append_endsNonWs (u : Str) (w : Str) (hu : u.all cleanChar = true)
    (hlast : ∃ u' c, u = u' ++ [c] ∧ isWs c = false) : noStart (u ++ w) = true := by
  induction u with
  | nil =>
    obtain ⟨u', c, he, _⟩ := hlast
    exact absurd he (by simp)
  | cons a u' ih =>
    have ha : cleanChar a = true := List.all_eq_true.mp hu a (by simp)
    have hu' : u'.all cleanChar = true :=
      List.all_eq_true.mpr (fun x hx => List.all_eq_true.mp hu x (by simp [hx]))
    cases haw : isWs a with
    | false => exact noStart_cons_clean a _ haw ha
    | true =>
      rw [List.cons_append, noStart_cons_ws a _ haw]
      cases u' with
      | nil =>
        obtain ⟨v, c, he, hc⟩ := hlast
        have : a = c := by
          cases v with
          | nil => simpa using he
          | cons b v' => simp at he
        rw [this] at haw
        rw [haw] at hc
        exact absurd hc (by simp)
      | cons b v' =>
        refine ih hu' ?_
        obtain ⟨v, c, he, hc⟩ := hlast
        cases v with
        | nil => simp at he
        | cons d v2 =>
          refine ⟨v2, c, ?_, hc⟩
          have := (List.cons.inj he).2
          exact this

theorem dropLit_some (l : Str) : ∀ s r : Str, dropLit l s = some r → s = l ++ r := by
  induction l with
  | nil =>
    intro s r h
    rw [dropLit] at h
    simpa using h
  | cons a l' ih =>
    intro s r h
    cases s with
    | nil => exact absurd h (by rw [dropLit]; simp)
    | cons c s' =>
      rw [dropLit] at h
      by_cases hac : (a == c) = true
      · rw [if_pos hac] at h
        have := ih s' r h
        rw [List.cons_append, ← this]
        have : a = c := by simpa using hac
        rw [this]
      · rw [if_neg hac] at h
        exact absurd h (by simp)

theorem dropLit_nil_none (a : Char) (l : Str) : dropLit (a :: l) [] = none := by
  rw [dropLit]

theorem dropLit_cons_neq (a : Char) (l : Str) (c : Char) (s : Str) (h : (a == c) = false) :
    dropLit (a :: l) (c :: s) = none := by
  rw [dropLit, if_neg (by simp_all)]

theorem dropLit_pref (l : Str) : ∀ r : Str, dropLit l (l ++ r) = some r := by
  induction l with
  | nil => intro r; rfl
  | cons a l' ih =>
    intro r
    rw [List.cons_append, dropLit, if_pos (by simp)]
    exact ih r

theorem matchDate_some (s d r : Str) (h : matchDate s = some (d, r)) :
    s = d ++ r ∧ d.length = 10 := by
  unfold matchDate at h
  split at h
  · split at h
    · simp only [Option.some.injEq, Prod.mk.injEq] at h
      obtain ⟨hd, hr⟩ := h
      subst hd
      subst hr
      exact ⟨rfl, rfl⟩
    · exact absurd h (by simp)
  · exact absurd h (by simp)

theorem mColonTag_none_of_noStart (label : Str) (l2 : Str) (hl : label = '[' :: l2)
    (x : Str) (h : noStart x = true) : mColonTag label x = none := by
  have hdrop : dropLit label (x.dropWhile isWs) = none := by
    cases hx : x.dropWhile isWs with
    | nil => rw [hl]; exact dropLit_nil_none _ _
    | cons c r =>
      rw [noStart, hx] at h
      rw [hl]
      refine dropLit_cons_neq _ _ _ _ ?_
      simp only [Bool.and_eq_true] at h
      have : c ≠ '[' := by simpa using h.1
      simp [this.symm]
  rw [mColonTag, hdrop]

theorem mSchedTag_none_of_noStart (o : Char) (x : Str) (h : noStart x = true) :
    mSchedTag o x = none := by
  have hdrop : dropLit ['[', o] (x.dropWhile isWs) = none := by
    cases hx : x.dropWhile isWs with
    | nil => exact dropLit_nil_none _ _
    | cons c r =>
      rw [noStart, hx] at h
      refine dropLit_cons_neq _ _ _ _ ?_
      simp only [Bool.and_eq_true] at h
      have : c ≠ '[' := by simpa using h.1
      simp [this.symm]
  rw [mSchedTag, hdrop]

theorem mEmojiLink_none_of_noStart (x : Str) (h : noStart x = true) :
    mEmojiLink x = none := by
  have hdrop : dropLit ['📅'] (x.dropWhile isWs) = none := by
    cases hx : x.dropWhile isWs with
    | nil => exact dropLit_nil_none _ _
    | cons c r =>
      rw [noStart, hx] at h
      refine dropLit_cons_neq _ _ _ _ ?_
      simp only [Bool.and_eq_true] at h
      have : c ≠ '📅' := by simpa using h.2
      simp [this.symm]
  rw [mEmojiLink, hdrop]

theorem mEmojiDate_none_of_noStart (x : Str) (h : noStart x = true) :
    mEmojiDate x = none := by
  have hdrop : dropLit ['📅'] (x.dropWhile isWs) = none := by
    cases hx : x.dropWhile isWs with
    | nil => exact dropLit_nil_none _ _
    | cons c r =>
      rw [noStart, hx] at h
      refine dropLit_cons_neq _ _ _ _ ?_
      simp only [Bool.and_eq_true] at h
      have : c ≠ '📅' := by simpa using h.2
      simp [this.symm]
  rw [mEmojiDate, hdrop]

theorem dropWhile_ws_cons_ws (a : Char) (x : Str) (ha : isWs a = true) :
    (a :: x).dropWhile isWs = x.dropWhile isWs := by
  rw [List.dropWhile_cons, if_pos ha]

theorem mColonTag_cons_ws (label : Str) (a : Char) (x : Str) (ha : isWs a = true) :
    mColonTag label (a :: x) = mColonTag label x := by
  rw [mColonTag, mColonTag, dropWhile_ws_cons_ws a x ha]

theorem mSchedTag_cons_ws (o : Char) (a : Char) (x : Str) (ha : isWs a = true) :
    mSchedTag o (a :: x) = mSchedTag o x := by
  rw [mSchedTag, mSchedTag, dropWhile_ws_cons_ws a x ha]

theorem mEmojiLink_cons_ws (a : Char) (x : Str) (ha : isWs a = true) :
    mEmojiLink (a :: x) = mEmojiLink x := by
  rw [mEmojiLink, mEmojiLink, dropWhile_ws_cons_ws a x ha]

theorem mEmojiDate_cons_ws (a : Char) (x : Str) (ha : isWs a = true) :
    mEmojiDate (a :: x) = mEmojiDate x := by
  rw [mEmojiDate, mEmojiDate, dropWhile_ws_cons_ws a x ha]

theorem mColonTag_shrinks (label : Str) : shrinks (mColonTag label) := by
  intro s r h
  unfold mColonTag at h
  cases h1 : dropLit label (s.dropWhile isWs) with
  | none => rw [h1] at h; exact absurd h (by simp)
  | some r1 =>
    rw [h1] at h
    simp only [] at h
    split at h
    · rename_i r2 heq
      split at h
      · exact absurd h (by simp)
      · have hr : r2 = r := by simpa using h
        subst hr
        have e1 := dropLit_some label _ r1 h1
        have l1 : (s.dropWhile isWs).length = label.length + r1.length := by rw [e1]; simp
        have l2 : (s.dropWhile isWs).length ≤ s.length := dropWhile_length_le _ _
        have l3 : (r1.dropWhile (fun c => c != ']')).length ≤ r1.length :=
          dropWhile_length_le _ _
        rw [heq] at l3
        simp at l3
        omega
    · exact absurd h (by simp)

theorem mSchedTag_shrinks (o : Char) : shrinks (mSchedTag o) := by
  intro s r h
  unfold mSchedTag at h
  cases h1 : dropLit ['[', o] (s.dropWhile isWs) with
  | none => rw [h1] at h; exact absurd h (by simp)
  | some r1 =>
    rw [h1] at h
    simp only [] at h
    cases h2 : matchDate (r1.dropWhile isWs) with
    | none => rw [h2] at h; exact absurd h (by simp)
    | some dr =>
      rw [h2] at h
      obtain ⟨d, r2⟩ := dr
      simp only [] at h
      split at h
      · rename_i r3
        have hr : r.length = r3.length := by
          have h' : r3 = r := by simpa using h
          rw [h']
        have e1 := dropLit_some ['[', o] _ r1 h1
        have l1 : (s.dropWhile isWs).length = 2 + r1.length := by
          rw [e1]
          simp only [List.length_append, List.length_cons, List.length_nil]
        have l2 : (s.dropWhile isWs).length ≤ s.length := dropWhile_length_le _ _
        obtain ⟨e2, e3⟩ := matchDate_some _ _ _ h2
        have l3 : (r1.dropWhile isWs).length = d.length + (r3.length + 1) := by
          rw [e2]
          simp only [List.length_append, List.length_cons]
        have l4 : (r1.dropWhile isWs).length ≤ r1.length := dropWhile_length_le _ _
        omega
      · exact absurd h (by simp)

theorem mEmojiLink_shrinks : shrinks mEmojiLink := by
  intro s r h
  unfold mEmojiLink at h
  cases h1 : dropLit ['📅'] (s.dropWhile isWs) with
  | none => rw [h1] at h; exact absurd h (by simp)
  | some r1 =>
    rw [h1] at h
    simp only [] at h
    cases h2 : dropLit ['[', '['] (r1.dropWhile isWs) with
    | none => rw [h2] at h; exact absurd h (by simp)
    | some r2 =>
      rw [h2] at h
      simp only [] at h
      split at h
      · rename_i r3 heq
        split at h
        · exact absurd h (by simp)
        · have hr : r3 = r := by simpa using h
          subst hr
          have e1 := dropLit_some ['📅'] _ r1 h1
          have l1 : (s.dropWhile isWs).length = 1 + r1.length := by
            rw [e1]
            simp only [List.length_append, List.length_cons, List.length_nil]
          have l2 : (s.dropWhile isWs).length ≤ s.length := dropWhile_length_le _ _
          have e2 := dropLit_some ['[', '['] _ r2 h2
          have l3 : (r1.dropWhile isWs).length = 2 + r2.length := by
            rw [e2]
            simp only [List.length_append, List.length_cons, List.length_nil]
          have l4 : (r1.dropWhile isWs).length ≤ r1.length := dropWhile_length_le _ _
          have l5 : (r2.dropWhile (fun c => c != ']')).length ≤ r2.length :=
            dropWhile_length_le _ _
          rw [heq] at l5
          simp at l5
          omega
      · exact absurd h (by simp)

theorem mEmojiDate_shrinks : shrinks mEmojiDate := by
  intro s r h
  unfold mEmojiDate at h
  cases h1 : dropLit ['📅'] (s.dropWhile isWs) with
  | none => rw [h1] at h; exact absurd h (by simp)
  | some r1 =>
    rw [h1] at h
    simp only [] at h
    cases h2 : matchDate (r1.dropWhile isWs) with
    | none => rw [h2] at h; exact absurd h (by simp)
    | some dr =>
      rw [h2] at h
      obtain ⟨d, r2⟩ := dr
      have hr : r.length = r2.length := by
        have h' : r2 = r := by simpa using h
        rw [h']
      have e1 := dropLit_some ['📅'] _ r1 h1
      have l1 : (s.dropWhile isWs).length = 1 + r1.length := by
        rw [e1]
        simp only [List.length_append, List.length_cons, List.length_nil]
      have l2 : (s.dropWhile isWs).length ≤ s.length := dropWhile_length_le _ _
      obtain ⟨e2, e3⟩ := matchDate_some _ _ _ h2
      have l3 : (r1.dropWhile isWs).length = d.length + r2.length := by
        rw [e2]
        simp only [List.length_append]
      have l4 : (r1.dropWhile isWs).length ≤ r1.length := dropWhile_length_le _ _
      omega

/-- A metadata tag of `normalizeMetadataOrder`'s five known kinds. -/
inductive MTag where
  | idT (v : Str)
  | parentT (v : Str)
  | uidT (v : Str)
  | fromT (d : Str)
  | toT (d : Str)
deriving Repr, DecidableEq

def tagKind : MTag → Nat
  | .idT _ => 0
  | .parentT _ => 1
  | .uidT _ => 2
  | .fromT _ => 3
  | .toT _ => 4

def tagVal : MTag → Str
  | .idT v => v
  | .parentT v => v
  | .uidT v => v
  | .fromT d => d
  | .toT d => d

def renderTag : MTag → Str
  | .idT v => strL "[id::" ++ v ++ [']']
  | .parentT v => strL "[parent::" ++ v ++ [']']
  | .uidT v => strL "[uid::" ++ v ++ [']']
  | .fromT d => strL "[< " ++ d ++ [']']
  | .toT d => strL "[> " ++ d ++ [']']

/-- A ten-character `\d{4}-\d{2}-\d{2}` date. -/
def wfDate (d : Str) : Bool :=
  match d with
  | [a, b, c, d1, '-', e, f, '-', g, h] =>
    isDig a && isDig b && isDig c && isDig d1 && isDig e && isDig f && isDig g && isDig h
  | _ => false

/-- A well-formed tag value: nonempty and free of `[`, `]`, newline, emoji. -/
def wfVal (v : Str) : Bool := !v.isEmpty && v.all cleanChar

def wfTag : MTag → Bool
  | .idT v => wfVal v
  | .parentT v => wfVal v
  | .uidT v => wfVal v
  | .fromT d => wfDate d
  | .toT d => wfDate d

/-- A well-formed text chunk: nonempty, clean characters, and neither
starting nor ending with whitespace. -/
def wfText (t : Str) : Bool :=
  !t.isEmpty && t.all cleanChar && !isWs (t.headD ' ') && !isWs (t.getLastD ' ')

/-- One space-separated item of a task line's content: a text chunk or a
metadata tag. -/
inductive MItem where
  | tag (t : MTag)
  | txt (s : Str)
deriving Repr, DecidableEq

def renderMItem : MItem → Str
  | .tag t => renderTag t
  | .txt s => s

/-- Content items after a first text chunk, each preceded by one space. -/
def renderItems (items : List MItem) : Str :=
  items.foldr (fun it acc => ' ' :: renderMItem it ++ acc) []

def wfItem : MItem → Bool
  | .tag t => wfTag t
  | .txt s => wfText s

def isTxtItem : MItem → Bool
  | .txt _ => true
  | .tag _ => false

def itemsTags : List MItem → List MTag
  | [] => []
  | .tag t :: its => t :: itemsTags its
  | .txt _ :: its => itemsTags its

def renderTags (ts : List MTag) : Str :=
  ts.foldr (fun t acc => ' ' :: renderTag t ++ acc) []

/-- The first tag of each kind, in the fixed canonical order
id, parent, uid, scheduleFrom, scheduleTo. -/
def canonicalTags (ts : List MTag) : List MTag :=
  (ts.find? (fun t => tagKind t == 0)).toList ++
    (ts.find? (fun t => tagKind t == 1)).toList ++
    (ts.find? (fun t => tagKind t == 2)).toList ++
    (ts.find? (fun t => tagKind t == 3)).toList ++
    (ts.find? (fun t => tagKind t == 4)).toList

theorem cleanChar_of_isDig (c : Char) (h : isDig c = true) : cleanChar c = true := by
  have h1 : c ≠ '[' := fun he => by rw [he] at h; exact absurd h (by decide)
  have h2 : c ≠ ']' := fun he => by rw [he] at h; exact absurd h (by decide)
  have h3 : c ≠ '\n' := fun he => by rw [he] at h; exact absurd h (by decide)
  have h4 : c ≠ '📅' := fun he => by rw [he] at h; exact absurd h (by decide)
  simp [cleanChar, h1, h2, h3, h4]

theorem wfDate_parts (d : Str) (h : wfDate d = true) :
    ∃ a b c d1 e f g h', d = [a, b, c, d1, '-', e, f, '-', g, h'] ∧
      isDig a = true ∧ isDig b = true ∧ isDig c = true ∧ isDig d1 = true ∧
      isDig e = true ∧ isDig f = true ∧ isDig g = true ∧ isDig h' = true := by
  unfold wfDate at h
  split at h
  · rename_i a b c d1 e f g h'
    simp only [Bool.and_eq_true] at h
    exact ⟨a, b, c, d1, e, f, g, h', rfl,
      h.1.1.1.1.1.1.1, h.1.1.1.1.1.1.2, h.1.1.1.1.1.2, h.1.1.1.1.2,
      h.1.1.1.2, h.1.1.2, h.1.2, h.2⟩
  · exact absurd h (by simp)

theorem wfDate_all_clean (d : Str) (h : wfDate d = true) : d.all cleanChar = true := by
  obtain ⟨a, b, c, d1, e, f, g, h', rfl, p1, p2, p3, p4, p5, p6, p7, p8⟩ := wfDate_parts d h
  simp only [List.all_cons, List.all_nil, Bool.and_eq_true]
  refine ⟨cleanChar_of_isDig _ p1, cleanChar_of_isDig _ p2, cleanChar_of_isDig _ p3,
    cleanChar_of_isDig _ p4, by decide, cleanChar_of_isDig _ p5, cleanChar_of_isDig _ p6,
    by decide, cleanChar_of_isDig _ p7, ⟨cleanChar_of_isDig _ p8, trivial⟩⟩

/-- Every well-formed rendered tag is `[` + clean middle + `]`. -/
theorem renderTag_shape (t : MTag) (h : wfTag t = true) :
    ∃ mid, renderTag t = '[' :: mid ++ [']'] ∧ mid.all cleanChar = true := by
  cases t with
  | idT v =>
    refine ⟨strL "id::" ++ v, by simp [renderTag, strL], ?_⟩
    rw [List.all_append]
    have hv : v.all cleanChar = true := by
      unfold wfTag wfVal at h
      exact (Bool.and_eq_true _ _ |>.mp h).2
    rw [hv]
    decide
  | parentT v =>
    refine ⟨strL "parent::" ++ v, by simp [renderTag, strL], ?_⟩
    rw [List.all_append]
    have hv : v.all cleanChar = true := by
      unfold wfTag wfVal at h
      exact (Bool.and_eq_true _ _ |>.mp h).2
    rw [hv]
    decide
  | uidT v =>
    refine ⟨strL "uid::" ++ v, by simp [renderTag, strL], ?_⟩
    rw [List.all_append]
    have hv : v.all cleanChar = true := by
      unfold wfTag wfVal at h
      exact (Bool.and_eq_true _ _ |>.mp h).2
    rw [hv]
    decide
  | fromT d =>
    refine ⟨'<' :: ' ' :: d, by simp [renderTag, strL], ?_⟩
    have hd : d.all cleanChar = true := wfDate_all_clean d h
    simp [hd]
    exact ⟨by decide, by decide⟩
  | toT d =>
    refine ⟨'>' :: ' ' :: d, by simp [renderTag, strL], ?_⟩
    have hd : d.all cleanChar = true := wfDate_all_clean d h
    simp [hd]
    exact ⟨by decide, by decide⟩

theorem all_of_suffix (p : α → Bool) (u v : List α) (hsuf : u <:+ v)
    (hv : v.all p = true) : u.all p = true :=
  List.all_eq_true.mpr (fun x hx => List.all_eq_true.mp hv x (hsuf.subset hx))

theorem not_ws_of_isDig (c : Char) (h : isDig c = true) : isWs c = false := by
  cases hw : isWs c with
  | false => rfl
  | true =>
    have : c = ' ' ∨ c = '\t' ∨ c = '\n' ∨ c = '\r' ∨ c = '\x0b' ∨ c = '\x0c' := by
      simp only [isWs, Bool.or_eq_true, beq_iff_eq] at hw
      tauto
    rcases this with rfl | rfl | rfl | rfl | rfl | rfl <;> exact absurd h (by decide)

theorem wfText_parts (s : Str) (h : wfText s = true) :
    ∃ u c, s = u ++ [c] ∧ isWs c = false ∧ s.all cleanChar = true ∧
      (∀ a x, s = a :: x → isWs a = false) := by
  simp only [wfText, Bool.and_eq_true] at h
  obtain ⟨⟨⟨hne, hclean⟩, hhead⟩, hlast⟩ := h
  have hne' : s ≠ [] := by
    cases s with
    | nil => exact absurd hne (by simp)
    | cons a x => simp
  obtain ⟨u, c, he⟩ : ∃ u c, s = u ++ [c] := by
    cases hrev : s.reverse with
    | nil => exact absurd (by rw [← List.reverse_reverse s, hrev]; rfl) hne'
    | cons c t =>
      exact ⟨t.reverse, c, by rw [← List.reverse_reverse s, hrev]; simp⟩
  refine ⟨u, c, he, ?_, hclean, ?_⟩
  · have : s.getLastD ' ' = c := by rw [he]; simp
    rw [this] at hlast
    simpa using hlast
  · intro a x hax
    have : s.headD ' ' = a := by rw [hax]; rfl
    rw [this] at hhead
    simpa using hhead

/-- The matcher fails at every position of a space-prefixed well-formed text
chunk. -/
theorem failsOn_textSeg (mm : Str → Option Str)
    (hnoStart : ∀ x, noStart x = true → mm x = none)
    (hws : ∀ a x, isWs a = true → mm (a :: x) = mm x)
    (s rest : Str) (hs : wfText s = true) : failsOn mm (' ' :: s) rest := by
  obtain ⟨u0, c0, he, hc0, hclean, hhead⟩ := wfText_parts s hs
  have hfail : ∀ u : Str, u ≠ [] → u <:+ s → mm (u ++ rest) = none := by
    intro u hne hsuf
    refine hnoStart _ ?_
    have hall : u.all cleanChar = true := all_of_suffix _ u s hsuf hclean
    rcases suffix_append_cases u u0 [c0] (by rw [← he]; exact hsuf) with h1 | ⟨u', rfl, _, _⟩
    · have hu : u = [c0] := by
        cases u with
        | nil => exact absurd rfl hne
        | cons a t =>
          rcases List.suffix_cons_iff.mp h1 with h2 | h2
          · exact h2
          · have := h2.length_le
            simp at this
      rw [hu] at hall ⊢
      exact noStart_append_endsNonWs [c0] rest hall ⟨[], c0, rfl, hc0⟩
    · exact noStart_append_endsNonWs (u' ++ [c0]) rest hall ⟨u', c0, rfl, hc0⟩
  intro u hne hsuf
  rcases List.suffix_cons_iff.mp hsuf with h1 | h1
  · rw [h1, List.cons_append, hws ' ' _ (by decide)]
    refine hnoStart _ ?_
    cases s with
    | nil => simp at he
    | cons a x =>
      rw [List.cons_append]
      exact noStart_cons_clean a _ (hhead a x rfl)
        (List.all_eq_true.mp hclean a (by simp))
  · exact hfail u hne h1

/-- The matcher fails at every position of a bare well-formed text chunk. -/
theorem failsOn_text0 (mm : Str → Option Str)
    (hnoStart : ∀ x, noStart x = true → mm x = none)
    (s rest : Str) (hs : wfText s = true) : failsOn mm s rest := by
  obtain ⟨u0, c0, he, hc0, hclean, _⟩ := wfText_parts s hs
  intro u hne hsuf
  refine hnoStart _ ?_
  have hall : u.all cleanChar = true := all_of_suffix _ u s hsuf hclean
  rcases suffix_append_cases u u0 [c0] (by rw [← he]; exact hsuf) with h1 | ⟨u', rfl, _, _⟩
  · have hu : u = [c0] := by
      cases u with
      | nil => exact absurd rfl hne
      | cons a t =>
        rcases List.suffix_cons_iff.mp h1 with h2 | h2
        · exact h2
        · have := h2.length_le
          simp at this
    rw [hu] at hall ⊢
    exact noStart_append_endsNonWs [c0] rest hall ⟨[], c0, rfl, hc0⟩
  · exact noStart_append_endsNonWs (u' ++ [c0]) rest hall ⟨u', c0, rfl, hc0⟩

/-- The matcher fails at every position of a space-prefixed rendered tag it
does not match at the bracket. -/
theorem failsOn_tagSeg (mm : Str → Option Str)
    (hnoStart : ∀ x, noStart x = true → mm x = none)
    (hws : ∀ a x, isWs a = true → mm (a :: x) = mm x)
    (mid rest : Str) (hmid : mid.all cleanChar = true)
    (hbr : mm ('[' :: (mid ++ ']' :: rest)) = none) :
    failsOn mm (' ' :: '[' :: mid ++ [']']) rest := by
  have hrb : ∀ w : Str, noStart (']' :: w) = true := fun w => rfl
  intro u hne hsuf
  rcases List.suffix_cons_iff.mp hsuf with h1 | h1
  · rw [h1]
    simp only [List.append_eq, List.cons_append, List.append_assoc, List.singleton_append]
    rw [hws ' ' _ (by decide)]
    simpa using hbr
  · rcases List.suffix_cons_iff.mp h1 with h2 | h2
    · rw [h2]
      simp only [List.append_eq, List.cons_append, List.append_assoc, List.singleton_append]
      simpa using hbr
    · refine hnoStart _ ?_
      rcases suffix_append_cases u mid [']'] h2 with h3 | ⟨u', rfl, _, hu'⟩
      · have hu : u = [']'] := by
          cases u with
          | nil => exact absurd rfl hne
          | cons a t =>
            rcases List.suffix_cons_iff.mp h3 with h4 | h4
            · exact h4
            · have := h4.length_le
              simp at this
        rw [hu]
        exact hrb rest
      · have he : (u' ++ [']']) ++ rest = u' ++ (']' :: rest) := by simp
        rw [he]
        exact noStart_append_clean u' (']' :: rest)
          (all_of_suffix _ u' mid hu' hmid) (hrb rest)

theorem bne_true_of_clean (c : Char) (h : cleanChar c = true) : (c != ']') = true := by
  simp only [cleanChar, Bool.and_eq_true] at h
  exact h.1.1.2

/-- The colon-tag matcher consumes exactly its own rendered tag. -/
theorem mColonTag_match (l2 v rest : Str) (hv : wfVal v = true) :
    mColonTag ('[' :: l2) ((('[' :: l2) ++ v ++ [']']) ++ rest) = some rest := by
  have hdw : ((('[' :: l2) ++ v ++ [']']) ++ rest).dropWhile isWs
      = ('[' :: l2) ++ v ++ [']'] ++ rest := by
    simp only [List.cons_append, List.dropWhile_cons]
    rw [if_neg (by decide)]
  rw [mColonTag, hdw]
  have he : ('[' :: l2) ++ v ++ [']'] ++ rest = ('[' :: l2) ++ (v ++ ']' :: rest) := by simp
  rw [he, dropLit_pref]
  simp only [wfVal, Bool.and_eq_true] at hv
  have htake : (v ++ ']' :: rest).takeWhile (fun c => c != ']') = v :=
    takeWhileC_append_stop _ v ']' rest
      (fun c hc => bne_true_of_clean c (List.all_eq_true.mp hv.2 c hc)) (by decide)
  have hdrop : (v ++ ']' :: rest).dropWhile (fun c => c != ']') = ']' :: rest :=
    dropWhileC_append_stop _ v ']' rest
      (fun c hc => bne_true_of_clean c (List.all_eq_true.mp hv.2 c hc)) (by decide)
  simp only []
  rw [hdrop, htake]
  show (if List.isEmpty v = true then none else some rest) = some rest
  rw [if_neg (by simpa using hv.1)]

/-- The schedule-tag matcher consumes exactly its own rendered tag. -/
theorem mSchedTag_match (o : Char) (d rest : Str) (hd : wfDate d = true) :
    mSchedTag o (('[' :: o :: ' ' :: d ++ [']']) ++ rest) = some rest := by
  obtain ⟨a, b, c, d1, e, f, g, h', rfl, p1, p2, p3, p4, p5, p6, p7, p8⟩ := wfDate_parts d hd
  have hform : (('[' :: o :: ' ' :: [a, b, c, d1, '-', e, f, '-', g, h'] ++ [']']) ++ rest)
      = '[' :: o :: ' ' :: a :: b :: c :: d1 :: '-' :: e :: f :: '-' :: g :: h' ::
        ']' :: rest := by simp
  rw [hform, mSchedTag]
  have hdw : List.dropWhile isWs ('[' :: o :: ' ' :: a :: b :: c :: d1 :: '-' :: e :: f ::
        '-' :: g :: h' :: ']' :: rest)
      = '[' :: o :: ' ' :: a :: b :: c :: d1 :: '-' :: e :: f :: '-' :: g :: h' ::
        ']' :: rest := by
    rw [List.dropWhile_cons, if_neg (by decide)]
  rw [hdw]
  have hdl : dropLit ['[', o] ('[' :: o :: ' ' :: a :: b :: c :: d1 :: '-' :: e :: f ::
        '-' :: g :: h' :: ']' :: rest)
      = some (' ' :: a :: b :: c :: d1 :: '-' :: e :: f :: '-' :: g :: h' :: ']' :: rest) :=
    dropLit_pref ['[', o] _
  rw [hdl]
  simp only []
  have hdw2 : List.dropWhile isWs (' ' :: a :: b :: c :: d1 :: '-' :: e :: f :: '-' ::
        g :: h' :: ']' :: rest)
      = a :: b :: c :: d1 :: '-' :: e :: f :: '-' :: g :: h' :: ']' :: rest := by
    rw [List.dropWhile_cons, if_pos (by decide), List.dropWhile_cons,
      if_neg (by simp [not_ws_of_isDig a p1])]
  rw [hdw2]
  have hmd : matchDate (a :: b :: c :: d1 :: '-' :: e :: f :: '-' :: g :: h' :: ']' :: rest)
      = some ([a, b, c, d1, '-', e, f, '-', g, h'], ']' :: rest) := by
    rw [matchDate]
    rw [if_pos (by simp [p1, p2, p3, p4, p5, p6, p7, p8])]
  rw [hmd]
  rfl

theorem mColonTag_none_mismatch2 (lc : Char) (l' : Str) (mc : Char) (x : Str)
    (h : (lc == mc) = false) : mColonTag ('[' :: lc :: l') ('[' :: mc :: x) = none := by
  rw [mColonTag]
  have hdw : List.dropWhile isWs ('[' :: mc :: x) = '[' :: mc :: x := by
    rw [List.dropWhile_cons, if_neg (by decide)]
  rw [hdw]
  have hdl : dropLit ('[' :: lc :: l') ('[' :: mc :: x) = none := by
    rw [dropLit, if_pos (by decide)]
    exact dropLit_cons_neq lc l' mc x h
  rw [hdl]

theorem mSchedTag_none_mismatch2 (o mc : Char) (x : Str) (h : (o == mc) = false) :
    mSchedTag o ('[' :: mc :: x) = none := by
  rw [mSchedTag]
  have hdw : List.dropWhile isWs ('[' :: mc :: x) = '[' :: mc :: x := by
    rw [List.dropWhile_cons, if_neg (by decide)]
  rw [hdw]
  have hdl : dropLit ['[', o] ('[' :: mc :: x) = none := by
    rw [dropLit, if_pos (by decide)]
    exact dropLit_cons_neq o [] mc x h
  rw [hdl]

theorem mEmojiLink_none_bracket (x : Str) : mEmojiLink ('[' :: x) = none := by
  rw [mEmojiLink]
  have hdw : List.dropWhile isWs ('[' :: x) = '[' :: x := by
    rw [List.dropWhile_cons, if_neg (by decide)]
  rw [hdw]
  have hdl : dropLit ['📅'] ('[' :: x) = none := dropLit_cons_neq '📅' [] '[' x (by decide)
  rw [hdl]

theorem mEmojiDate_none_bracket (x : Str) : mEmojiDate ('[' :: x) = none := by
  rw [mEmojiDate]
  have hdw : List.dropWhile isWs ('[' :: x) = '[' :: x := by
    rw [List.dropWhile_cons, if_neg (by decide)]
  rw [hdw]
  have hdl : dropLit ['📅'] ('[' :: x) = none := dropLit_cons_neq '📅' [] '[' x (by decide)
  rw [hdl]

/-- The distinguishing second character of each rendered tag. -/
def tagChar2 : MTag → Char
  | .idT _ => 'i'
  | .parentT _ => 'p'
  | .uidT _ => 'u'
  | .fromT _ => '<'
  | .toT _ => '>'

theorem renderTag_shape2 (t : MTag) (h : wfTag t = true) :
    ∃ mid2, renderTag t = '[' :: tagChar2 t :: mid2 ++ [']'] ∧
      (tagChar2 t :: mid2).all cleanChar = true := by
  cases t with
  | idT v =>
    refine ⟨strL "d::" ++ v, by simp [renderTag, tagChar2, strL], ?_⟩
    have hv : v.all cleanChar = true := by
      unfold wfTag wfVal at h
      exact (Bool.and_eq_true _ _ |>.mp h).2
    show (('i' :: strL "d::") ++ v).all cleanChar = true
    rw [List.all_append, hv]
    decide
  | parentT v =>
    refine ⟨strL "arent::" ++ v, by simp [renderTag, tagChar2, strL], ?_⟩
    have hv : v.all cleanChar = true := by
      unfold wfTag wfVal at h
      exact (Bool.and_eq_true _ _ |>.mp h).2
    show (('p' :: strL "arent::") ++ v).all cleanChar = true
    rw [List.all_append, hv]
    decide
  | uidT v =>
    refine ⟨strL "id::" ++ v, by simp [renderTag, tagChar2, strL], ?_⟩
    have hv : v.all cleanChar = true := by
      unfold wfTag wfVal at h
      exact (Bool.and_eq_true _ _ |>.mp h).2
    show (('u' :: strL "id::") ++ v).all cleanChar = true
    rw [List.all_append, hv]
    decide
  | fromT d =>
    refine ⟨' ' :: d, by simp [renderTag, tagChar2, strL], ?_⟩
    have hd : d.all cleanChar = true := wfDate_all_clean d h
    show ((['<', ' '] : Str) ++ d).all cleanChar = true
    rw [List.all_append, hd]
    decide
  | toT d =>
    refine ⟨' ' :: d, by simp [renderTag, tagChar2, strL], ?_⟩
    have hd : d.all cleanChar = true := wfDate_all_clean d h
    show ((['>', ' '] : Str) ++ d).all cleanChar = true
    rw [List.all_append, hd]
    decide

theorem failsOn_mColonTag_other (lc : Char) (l' : Str) (t : MTag) (rest : Str)
    (hwf : wfTag t = true) (hneq : (lc == tagChar2 t) = false) :
    failsOn (mColonTag ('[' :: lc :: l')) (' ' :: renderTag t) rest := by
  obtain ⟨mid2, hshape, hclean2⟩ := renderTag_shape2 t hwf
  rw [hshape]
  exact failsOn_tagSeg _ (fun x hx => mColonTag_none_of_noStart _ _ rfl x hx)
    (fun a x ha => mColonTag_cons_ws _ a x ha)
    (tagChar2 t :: mid2) rest hclean2
    (mColonTag_none_mismatch2 lc l' (tagChar2 t) _ hneq)

theorem failsOn_mSchedTag_other (o : Char) (t : MTag) (rest : Str)
    (hwf : wfTag t = true) (hneq : (o == tagChar2 t) = false) :
    failsOn (mSchedTag o) (' ' :: renderTag t) rest := by
  obtain ⟨mid2, hshape, hclean2⟩ := renderTag_shape2 t hwf
  rw [hshape]
  exact failsOn_tagSeg _ (fun x hx => mSchedTag_none_of_noStart _ x hx)
    (fun a x ha => mSchedTag_cons_ws _ a x ha)
    (tagChar2 t :: mid2) rest hclean2
    (mSchedTag_none_mismatch2 o (tagChar2 t) _ hneq)

theorem failsOn_mEmojiLink_tag (t : MTag) (rest : Str) (hwf : wfTag t = true) :
    failsOn mEmojiLink (' ' :: renderTag t) rest := by
  obtain ⟨mid2, hshape, hclean2⟩ := renderTag_shape2 t hwf
  rw [hshape]
  exact failsOn_tagSeg _ (fun x hx => mEmojiLink_none_of_noStart x hx)
    (fun a x ha => mEmojiLink_cons_ws a x ha)
    (tagChar2 t :: mid2) rest hclean2 (mEmojiLink_none_bracket _)

theorem failsOn_mEmojiDate_tag (t : MTag) (rest : Str) (hwf : wfTag t = true) :
    failsOn mEmojiDate (' ' :: renderTag t) rest := by
  obtain ⟨mid2, hshape, hclean2⟩ := renderTag_shape2 t hwf
  rw [hshape]
  exact failsOn_tagSeg _ (fun x hx => mEmojiDate_none_of_noStart x hx)
    (fun a x ha => mEmojiDate_cons_ws a x ha)
    (tagChar2 t :: mid2) rest hclean2 (mEmojiDate_none_bracket _)

def selTag (sel : MTag → Bool) : MItem → Bool
  | .tag t => sel t
  | .txt _ => false

/-- One global-replace pass over rendered content items: the tags selected by
`sel` are removed (with their leading space), everything else is kept. -/
theorem stripAll_items (mm : Str → Option Str) (hshr : shrinks mm)
    (hnoStart : ∀ x, noStart x = true → mm x = none)
    (hws : ∀ a x, isWs a = true → mm (a :: x) = mm x)
    (sel : MTag → Bool)
    (hmatch : ∀ t rest, wfTag t = true → sel t = true →
      mm ((' ' :: renderTag t) ++ rest) = some rest)
    (hfail : ∀ t rest, wfTag t = true → sel t = false →
      failsOn mm (' ' :: renderTag t) rest) :
    ∀ items : List MItem, (∀ it ∈ items, wfItem it = true) →
    stripAll mm (renderItems items) =
      renderItems (items.filter (fun it => !selTag sel it)) := by
  intro items
  induction items with
  | nil => intro _; rfl
  | cons it its ih =>
    intro hwf
    have hwit : wfItem it = true := hwf it (by simp)
    have hwits : ∀ x ∈ its, wfItem x = true := fun x hx => hwf x (by simp [hx])
    have hr : renderItems (it :: its) = (' ' :: renderMItem it) ++ renderItems its := rfl
    cases it with
    | txt s =>
      rw [hr]
      simp only [renderMItem]
      rw [stripAll_skip mm (' ' :: s) (renderItems its)
        (failsOn_textSeg mm hnoStart hws s (renderItems its) hwit)]
      rw [ih hwits]
      rfl
    | tag t =>
      cases hsel : sel t with
      | true =>
        rw [hr]
        simp only [renderMItem]
        have hm := hmatch t (renderItems its) hwit hsel
        rw [List.cons_append] at hm
        rw [List.cons_append, stripAll_cons_some mm hshr ' ' _ _ hm]
        rw [ih hwits]
        have : selTag sel (MItem.tag t) = true := hsel
        rw [List.filter_cons, if_neg (by simp [this])]
      | false =>
        rw [hr]
        simp only [renderMItem]
        rw [stripAll_skip mm (' ' :: renderTag t) (renderItems its)
          (hfail t (renderItems its) hwit hsel)]
        rw [ih hwits]
        have : selTag sel (MItem.tag t) = false := hsel
        rw [List.filter_cons, if_pos (by simp [this])]
        rfl

/-- One global-replace pass over a full rendered content string. -/
theorem stripAll_content (mm : Str → Option Str) (hshr : shrinks mm)
    (hnoStart : ∀ x, noStart x = true → mm x = none)
    (hws : ∀ a x, isWs a = true → mm (a :: x) = mm x)
    (sel : MTag → Bool)
    (hmatch : ∀ t rest, wfTag t = true → sel t = true →
      mm ((' ' :: renderTag t) ++ rest) = some rest)
    (hfail : ∀ t rest, wfTag t = true → sel t = false →
      failsOn mm (' ' :: renderTag t) rest)
    (t0 : Str) (h0 : wfText t0 = true)
    (items : List MItem) (hits : ∀ it ∈ items, wfItem it = true) :
    stripAll mm (t0 ++ renderItems items) =
      t0 ++ renderItems (items.filter (fun it => !selTag sel it)) := by
  rw [stripAll_skip mm t0 (renderItems items)
    (failsOn_text0 mm hnoStart t0 (renderItems items) h0)]
  rw [stripAll_items mm hshr hnoStart hws sel hmatch hfail items hits]

theorem findCapture_cons_skip (l2 : Str) (c : Char) (w : Str) (hc : (c == '[') = false) :
    TaskUtils.findCapture ('[' :: l2) (c :: w) = TaskUtils.findCapture ('[' :: l2) w := by
  rw [TaskUtils.findCapture]
  have hm : TaskUtils.mCapture ('[' :: l2) (c :: w) = none := by
    rw [TaskUtils.mCapture, dropLit_cons_neq '[' l2 c w (by simp_all; tauto)]
  rw [hm]

theorem findCapture_append_clean (l2 : Str) (u w : Str) (hu : u.all cleanChar = true) :
    TaskUtils.findCapture ('[' :: l2) (u ++ w) = TaskUtils.findCapture ('[' :: l2) w := by
  induction u with
  | nil => rfl
  | cons c u' ih =>
    have hc : cleanChar c = true := List.all_eq_true.mp hu c (by simp)
    have hu' : u'.all cleanChar = true :=
      List.all_eq_true.mpr (fun x hx => List.all_eq_true.mp hu x (by simp [hx]))
    rw [List.cons_append, findCapture_cons_skip l2 c _ (by
      simp only [cleanChar, Bool.and_eq_true] at hc
      simpa using hc.1.1.1)]
    exact ih hu'

theorem mCapture_own (l2 v rest : Str) (hv : wfVal v = true) :
    TaskUtils.mCapture ('[' :: l2) ((('[' :: l2) ++ v ++ [']']) ++ rest) = some v := by
  rw [TaskUtils.mCapture]
  have he : (('[' :: l2) ++ v ++ [']']) ++ rest = ('[' :: l2) ++ (v ++ ']' :: rest) := by simp
  rw [he, dropLit_pref]
  simp only [wfVal, Bool.and_eq_true] at hv
  have htake : (v ++ ']' :: rest).takeWhile (fun c => c != ']') = v :=
    takeWhileC_append_stop _ v ']' rest
      (fun c hc => bne_true_of_clean c (List.all_eq_true.mp hv.2 c hc)) (by decide)
  have hdrop : (v ++ ']' :: rest).dropWhile (fun c => c != ']') = ']' :: rest :=
    dropWhileC_append_stop _ v ']' rest
      (fun c hc => bne_true_of_clean c (List.all_eq_true.mp hv.2 c hc)) (by decide)
  simp only []
  rw [hdrop, htake]
  show (if List.isEmpty v = true then none else some v) = some v
  rw [if_neg (by simpa using hv.1)]

theorem findCapture_own (l2 v rest : Str) (hv : wfVal v = true) :
    TaskUtils.findCapture ('[' :: l2) ((('[' :: l2) ++ v ++ [']']) ++ rest) = some v := by
  have he : (('[' :: l2) ++ v ++ [']']) ++ rest = '[' :: (l2 ++ (v ++ ']' :: rest)) := by simp
  rw [he, TaskUtils.findCapture]
  have hm := mCapture_own l2 v rest hv
  rw [he] at hm
  rw [hm]

theorem findCapture_foreign (lc : Char) (l' : Str) (t : MTag) (rest : Str)
    (hwf : wfTag t = true) (hneq : (lc == tagChar2 t) = false) :
    TaskUtils.findCapture ('[' :: lc :: l') (renderTag t ++ rest)
      = TaskUtils.findCapture ('[' :: lc :: l') rest := by
  obtain ⟨mid2, hshape, hclean2⟩ := renderTag_shape2 t hwf
  rw [hshape]
  have he : ('[' :: tagChar2 t :: mid2 ++ [']']) ++ rest
      = '[' :: ((tagChar2 t :: mid2) ++ (']' :: rest)) := by simp
  rw [he]
  rw [TaskUtils.findCapture]
  have hm : TaskUtils.mCapture ('[' :: lc :: l')
      ('[' :: ((tagChar2 t :: mid2) ++ (']' :: rest))) = none := by
    rw [TaskUtils.mCapture]
    have hdl : dropLit ('[' :: lc :: l') ('[' :: ((tagChar2 t :: mid2) ++ (']' :: rest)))
        = none := by
      rw [dropLit, if_pos (by decide), List.cons_append]
      exact dropLit_cons_neq lc l' (tagChar2 t) _ hneq
    rw [hdl]
  rw [hm]
  rw [findCapture_append_clean (lc :: l') (tagChar2 t :: mid2) (']' :: rest) hclean2]
  rw [findCapture_cons_skip (lc :: l') ']' rest (by decide)]

theorem findSchedCapture_cons_skip (o c : Char) (w : Str) (hc : (c == '[') = false) :
    findSchedCapture o (c :: w) = findSchedCapture o w := by
  rw [findSchedCapture]
  have hdl : dropLit ['[', o] (c :: w) = none :=
    dropLit_cons_neq '[' [o] c w (by simp_all; tauto)
  rw [hdl]

theorem findSchedCapture_append_clean (o : Char) (u w : Str) (hu : u.all cleanChar = true) :
    findSchedCapture o (u ++ w) = findSchedCapture o w := by
  induction u with
  | nil => rfl
  | cons c u' ih =>
    have hc : cleanChar c = true := List.all_eq_true.mp hu c (by simp)
    have hu' : u'.all cleanChar = true :=
      List.all_eq_true.mpr (fun x hx => List.all_eq_true.mp hu x (by simp [hx]))
    rw [List.cons_append, findSchedCapture_cons_skip o c _ (by
      simp only [cleanChar, Bool.and_eq_true] at hc
      simpa using hc.1.1.1)]
    exact ih hu'

theorem findSchedCapture_own (o : Char) (d rest : Str) (hd : wfDate d = true) :
    findSchedCapture o (('[' :: o :: ' ' :: d ++ [']']) ++ rest) = some d := by
  obtain ⟨a, b, c, d1, e, f, g, h', rfl, p1, p2, p3, p4, p5, p6, p7, p8⟩ := wfDate_parts d hd
  have hform : (('[' :: o :: ' ' :: [a, b, c, d1, '-', e, f, '-', g, h'] ++ [']']) ++ rest)
      = '[' :: o :: ' ' :: a :: b :: c :: d1 :: '-' :: e :: f :: '-' :: g :: h' ::
        ']' :: rest := by simp
  rw [hform, findSchedCapture]
  have hdl : dropLit ['[', o] ('[' :: o :: ' ' :: a :: b :: c :: d1 :: '-' :: e :: f ::
        '-' :: g :: h' :: ']' :: rest)
      = some (' ' :: a :: b :: c :: d1 :: '-' :: e :: f :: '-' :: g :: h' :: ']' :: rest) :=
    dropLit_pref ['[', o] _
  rw [hdl]
  simp only []
  have hdw2 : List.dropWhile isWs (' ' :: a :: b :: c :: d1 :: '-' :: e :: f :: '-' ::
        g :: h' :: ']' :: rest)
      = a :: b :: c :: d1 :: '-' :: e :: f :: '-' :: g :: h' :: ']' :: rest := by
    rw [List.dropWhile_cons, if_pos (by decide), List.dropWhile_cons,
      if_neg (by simp [not_ws_of_isDig a p1])]
  rw [hdw2]
  have hmd : matchDate (a :: b :: c :: d1 :: '-' :: e :: f :: '-' :: g :: h' :: ']' :: rest)
      = some ([a, b, c, d1, '-', e, f, '-', g, h'], ']' :: rest) := by
    rw [matchDate]
    rw [if_pos (by simp [p1, p2, p3, p4, p5, p6, p7, p8])]
  rw [hmd]
  rfl

theorem findSchedCapture_foreign (o : Char) (t : MTag) (rest : Str)
    (hwf : wfTag t = true) (hneq : (o == tagChar2 t) = false) :
    findSchedCapture o (renderTag t ++ rest) = findSchedCapture o rest := by
  obtain ⟨mid2, hshape, hclean2⟩ := renderTag_shape2 t hwf
  rw [hshape]
  have he : ('[' :: tagChar2 t :: mid2 ++ [']']) ++ rest
      = '[' :: ((tagChar2 t :: mid2) ++ (']' :: rest)) := by simp
  rw [he, findSchedCapture]
  have hdl : dropLit ['[', o] ('[' :: ((tagChar2 t :: mid2) ++ (']' :: rest))) = none := by
    rw [dropLit, if_pos (by decide), List.cons_append]
    exact dropLit_cons_neq o [] (tagChar2 t) _ hneq
  rw [hdl]
  rw [findSchedCapture_append_clean o (tagChar2 t :: mid2) (']' :: rest) hclean2]
  rw [findSchedCapture_cons_skip o ']' rest (by decide)]

theorem wfText_all_clean (s : Str) (h : wfText s = true) : s.all cleanChar = true := by
  simp only [wfText, Bool.and_eq_true] at h
  exact h.1.1.2

/-- `findCapture` over rendered items returns the first tag of its kind. -/
theorem findCapture_items (lc : Char) (l' : Str) (k : Nat)
    (hown : ∀ t, wfTag t = true → tagKind t = k →
      renderTag t = ('[' :: lc :: l') ++ tagVal t ++ [']'] ∧ wfVal (tagVal t) = true)
    (hother : ∀ t, ¬ tagKind t = k → (lc == tagChar2 t) = false) :
    ∀ items : List MItem, (∀ it ∈ items, wfItem it = true) →
    TaskUtils.findCapture ('[' :: lc :: l') (renderItems items)
      = ((itemsTags items).find? (fun t => tagKind t == k)).map tagVal := by
  intro items
  induction items with
  | nil => intro _; rfl
  | cons it its ih =>
    intro hwf
    have hwit : wfItem it = true := hwf it (by simp)
    have hwits : ∀ x ∈ its, wfItem x = true := fun x hx => hwf x (by simp [hx])
    cases it with
    | txt s =>
      show TaskUtils.findCapture ('[' :: lc :: l') ((' ' :: s) ++ renderItems its) = _
      rw [List.cons_append, findCapture_cons_skip (lc :: l') ' ' _ (by decide)]
      rw [findCapture_append_clean (lc :: l') s _ (wfText_all_clean s hwit)]
      rw [ih hwits]
      rfl
    | tag t =>
      have hwt : wfTag t = true := hwit
      by_cases hk : tagKind t = k
      · obtain ⟨hren, hvv⟩ := hown t hwt hk
        show TaskUtils.findCapture ('[' :: lc :: l')
          ((' ' :: renderTag t) ++ renderItems its) = _
        rw [List.cons_append, findCapture_cons_skip (lc :: l') ' ' _ (by decide)]
        have hro : renderTag t ++ renderItems its
            = ((('[' :: lc :: l') ++ tagVal t ++ [']']) ++ renderItems its) := by rw [hren]
        rw [hro, findCapture_own (lc :: l') (tagVal t) _ hvv]
        have hfind : (itemsTags (MItem.tag t :: its)).find? (fun t => tagKind t == k)
            = some t := by
          show (t :: itemsTags its).find? (fun t => tagKind t == k) = some t
          exact List.find?_cons_of_pos _ (by simp [hk])
        rw [hfind]
        rfl
      · show TaskUtils.findCapture ('[' :: lc :: l')
          ((' ' :: renderTag t) ++ renderItems its) = _
        rw [List.cons_append, findCapture_cons_skip (lc :: l') ' ' _ (by decide)]
        rw [findCapture_foreign lc l' t _ hwt (hother t hk)]
        rw [ih hwits]
        have hfind : (itemsTags (MItem.tag t :: its)).find? (fun t => tagKind t == k)
            = (itemsTags its).find? (fun t => tagKind t == k) := by
          show (t :: itemsTags its).find? (fun t => tagKind t == k) = _
          exact List.find?_cons_of_neg _ (by simp [hk])
        rw [hfind]

/-- `findSchedCapture` over rendered items returns the first date tag of its
direction. -/
theorem findSchedCapture_items (o : Char) (k : Nat)
    (hown : ∀ t, wfTag t = true → tagKind t = k →
      renderTag t = '[' :: o :: ' ' :: tagVal t ++ [']'] ∧ wfDate (tagVal t) = true)
    (hother : ∀ t, ¬ tagKind t = k → (o == tagChar2 t) = false) :
    ∀ items : List MItem, (∀ it ∈ items, wfItem it = true) →
    findSchedCapture o (renderItems items)
      = ((itemsTags items).find? (fun t => tagKind t == k)).map tagVal := by
  intro items
  induction items with
  | nil => intro _; rfl
  | cons it its ih =>
    intro hwf
    have hwit : wfItem it = true := hwf it (by simp)
    have hwits : ∀ x ∈ its, wfItem x = true := fun x hx => hwf x (by simp [hx])
    cases it with
    | txt s =>
      show findSchedCapture o ((' ' :: s) ++ renderItems its) = _
      rw [List.cons_append, findSchedCapture_cons_skip o ' ' _ (by decide)]
      rw [findSchedCapture_append_clean o s _ (wfText_all_clean s hwit)]
      rw [ih hwits]
      rfl
    | tag t =>
      have hwt : wfTag t = true := hwit
      by_cases hk : tagKind t = k
      · obtain ⟨hren, hvv⟩ := hown t hwt hk
        show findSchedCapture o ((' ' :: renderTag t) ++ renderItems its) = _
        rw [List.cons_append, findSchedCapture_cons_skip o ' ' _ (by decide)]
        have hro : renderTag t ++ renderItems its
            = (('[' :: o :: ' ' :: tagVal t ++ [']']) ++ renderItems its) := by rw [hren]
        rw [hro, findSchedCapture_own o (tagVal t) _ hvv]
        have hfind : (itemsTags (MItem.tag t :: its)).find? (fun t => tagKind t == k)
            = some t := by
          show (t :: itemsTags its).find? (fun t => tagKind t == k) = some t
          exact List.find?_cons_of_pos _ (by simp [hk])
        rw [hfind]
        rfl
      · show findSchedCapture o ((' ' :: renderTag t) ++ renderItems its) = _
        rw [List.cons_append, findSchedCapture_cons_skip o ' ' _ (by decide)]
        rw [findSchedCapture_foreign o t _ hwt (hother t hk)]
        rw [ih hwits]
        have hfind : (itemsTags (MItem.tag t :: its)).find? (fun t => tagKind t == k)
            = (itemsTags its).find? (fun t => tagKind t == k) := by
          show (t :: itemsTags its).find? (fun t => tagKind t == k) = _
          exact List.find?_cons_of_neg _ (by simp [hk])
        rw [hfind]

theorem trimEndStr_append_nonws (u : Str) (c : Char) (hc : isWs c = false) :
    trimEndStr (u ++ [c]) = u ++ [c] := by
  unfold trimEndStr
  rw [List.reverse_append]
  show ((c :: u.reverse).dropWhile isWs).reverse = u ++ [c]
  rw [List.dropWhile_cons, if_neg (by simp [hc])]
  simp

theorem renderItems_ends_nonws (its : List MItem) (h : ∀ it ∈ its, wfItem it = true)
    (hne : its ≠ []) : ∃ u c, renderItems its = u ++ [c] ∧ isWs c = false := by
  induction its with
  | nil => exact absurd rfl hne
  | cons it its ih =>
    have hwit : wfItem it = true := h it (by simp)
    have hseg : ∃ u c, renderMItem it = u ++ [c] ∧ isWs c = false := by
      cases it with
      | txt s =>
        obtain ⟨u, c, he, hc, _, _⟩ := wfText_parts s hwit
        exact ⟨u, c, he, hc⟩
      | tag t =>
        obtain ⟨mid, hshape, _⟩ := renderTag_shape t hwit
        exact ⟨'[' :: mid, ']', hshape, by decide⟩
    cases its with
    | nil =>
      obtain ⟨u, c, he, hc⟩ := hseg
      refine ⟨' ' :: u, c, ?_, hc⟩
      show ' ' :: renderMItem it ++ [] = ' ' :: u ++ [c]
      rw [he]
      simp
    | cons it2 its2 =>
      obtain ⟨u, c, he, hc⟩ :=
        ih (fun x hx => h x (by simp [List.mem_cons.mp hx])) (by simp)
      refine ⟨(' ' :: renderMItem it) ++ u, c, ?_, hc⟩
      show ' ' :: renderMItem it ++ renderItems (it2 :: its2) = _
      rw [he]
      simp

theorem joinSp_eq (p0 : Str) (ss : List (List Char)) :
    TaskUtils.joinSp (p0 :: ss) = p0 ++ (ss.foldr (fun p acc => ' ' :: p ++ acc) []) := by
  induction ss generalizing p0 with
  | nil => simp [TaskUtils.joinSp]
  | cons p1 ss ih =>
    show p0 ++ ' ' :: TaskUtils.joinSp (p1 :: ss) = _
    rw [ih p1]
    rfl

theorem foldr_sp_map_renderTag (ts : List MTag) :
    (ts.map renderTag).foldr (fun p acc => ' ' :: p ++ acc) [] = renderTags ts := by
  induction ts with
  | nil => rfl
  | cons t ts ih =>
    rw [List.map_cons, List.foldr_cons, ih]
    rfl

theorem renderTags_append (l1 l2 : List MTag) :
    renderTags (l1 ++ l2) = renderTags l1 ++ renderTags l2 := by
  induction l1 with
  | nil => rfl
  | cons t l1 ih =>
    show ' ' :: renderTag t ++ renderTags (l1 ++ l2) = (' ' :: renderTag t ++ renderTags l1) ++ _
    rw [ih]
    simp

theorem filter_five (items : List MItem) :
    (((((items.filter (fun it => !selTag (fun t => tagKind t == 0) it)).filter
          (fun it => !selTag (fun t => tagKind t == 1) it)).filter
          (fun it => !selTag (fun t => tagKind t == 2) it)).filter
          (fun it => !selTag (fun t => tagKind t == 4) it)).filter
          (fun it => !selTag (fun t => tagKind t == 3) it))
      = items.filter isTxtItem := by
  induction items with
  | nil => rfl
  | cons it its ih =>
    have hkeep : ∀ (k : Nat) (t : MTag) (l : List MItem), (tagKind t == k) = false →
        (MItem.tag t :: l).filter (fun it => !selTag (fun t => tagKind t == k) it)
          = MItem.tag t :: l.filter (fun it => !selTag (fun t => tagKind t == k) it) := by
      intro k t l h
      rw [List.filter_cons, if_pos (by simp [selTag, h])]
    have hdrop : ∀ (k : Nat) (t : MTag) (l : List MItem), (tagKind t == k) = true →
        (MItem.tag t :: l).filter (fun it => !selTag (fun t => tagKind t == k) it)
          = l.filter (fun it => !selTag (fun t => tagKind t == k) it) := by
      intro k t l h
      rw [List.filter_cons, if_neg (by simp [selTag, h])]
    have hkeepT : ∀ (k : Nat) (s : Str) (l : List MItem),
        (MItem.txt s :: l).filter (fun it => !selTag (fun t => tagKind t == k) it)
          = MItem.txt s :: l.filter (fun it => !selTag (fun t => tagKind t == k) it) := by
      intro k s l
      rw [List.filter_cons, if_pos (by simp [selTag])]
    cases it with
    | txt s =>
      rw [hkeepT 0, hkeepT 1, hkeepT 2, hkeepT 4, hkeepT 3, ih]
      rw [List.filter_cons, if_pos (by rfl)]
    | tag t =>
      cases t with
      | idT v =>
        rw [hdrop 0 _ _ (by rfl)]
        rw [List.filter_cons, if_neg (by simp [isTxtItem])]
        exact ih
      | parentT v =>
        rw [hkeep 0 _ _ (by rfl), hdrop 1 _ _ (by rfl)]
        rw [List.filter_cons, if_neg (by simp [isTxtItem])]
        exact ih
      | uidT v =>
        rw [hkeep 0 _ _ (by rfl), hkeep 1 _ _ (by rfl), hdrop 2 _ _ (by rfl)]
        rw [List.filter_cons, if_neg (by simp [isTxtItem])]
        exact ih
      | toT d =>
        rw [hkeep 0 _ _ (by rfl), hkeep 1 _ _ (by rfl), hkeep 2 _ _ (by rfl),
          hdrop 4 _ _ (by rfl)]
        rw [List.filter_cons, if_neg (by simp [isTxtItem])]
        exact ih
      | fromT d =>
        rw [hkeep 0 _ _ (by rfl), hkeep 1 _ _ (by rfl), hkeep 2 _ _ (by rfl),
          hkeep 4 _ _ (by rfl), hdrop 3 _ _ (by rfl)]
        rw [List.filter_cons, if_neg (by simp [isTxtItem])]
        exact ih

theorem findCap_id (t0 : Str) (items : List MItem) (h0 : wfText t0 = true)
    (hits : ∀ it ∈ items, wfItem it = true) :
    TaskUtils.findCapture (strL "[id::") (t0 ++ renderItems items)
      = ((itemsTags items).find? (fun t => tagKind t == 0)).map tagVal := by
  show TaskUtils.findCapture ('[' :: 'i' :: strL "d::") (t0 ++ renderItems items) = _
  rw [findCapture_append_clean _ _ _ (wfText_all_clean _ h0)]
  refine findCapture_items 'i' (strL "d::") 0 ?_ ?_ items hits
  · intro t hwf hk
    cases t with
    | idT v => exact ⟨rfl, hwf⟩
    | parentT v => simp [tagKind] at hk
    | uidT v => simp [tagKind] at hk
    | fromT d => simp [tagKind] at hk
    | toT d => simp [tagKind] at hk
  · intro t hk
    cases t with
    | idT v => simp [tagKind] at hk
    | parentT v => rfl
    | uidT v => rfl
    | fromT d => rfl
    | toT d => rfl

theorem strip_id (t0 : Str) (items : List MItem) (h0 : wfText t0 = true)
    (hits : ∀ it ∈ items, wfItem it = true) :
    stripAll (mColonTag (strL "[id::")) (t0 ++ renderItems items)
      = t0 ++ renderItems (items.filter (fun it => !selTag (fun t => tagKind t == 0) it)) := by
  refine stripAll_content (mColonTag (strL "[id::")) (mColonTag_shrinks _)
    (fun x hx => mColonTag_none_of_noStart (strL "[id::") ('i' :: strL "d::") rfl x hx)
    (fun a x ha => mColonTag_cons_ws _ a x ha)
    (fun t => tagKind t == 0) ?_ ?_ t0 h0 items hits
  · intro t rest hwf hsel
    cases t with
    | idT v =>
      show mColonTag (strL "[id::") (' ' :: (renderTag (MTag.idT v) ++ rest)) = some rest
      rw [mColonTag_cons_ws _ ' ' _ (by decide)]
      exact mColonTag_match ('i' :: strL "d::") v rest hwf
    | parentT v => simp [tagKind] at hsel
    | uidT v => simp [tagKind] at hsel
    | fromT d => simp [tagKind] at hsel
    | toT d => simp [tagKind] at hsel
  · intro t rest hwf hsel
    refine failsOn_mColonTag_other 'i' (strL "d::") t rest hwf ?_
    cases t with
    | idT v => simp [tagKind] at hsel
    | parentT v => rfl
    | uidT v => rfl
    | fromT d => rfl
    | toT d => rfl

theorem optPart_id (ts : List MTag) :
    TaskUtils.optTagStr (strL "[id::") ((ts.find? (fun t => tagKind t == 0)).map tagVal)
      = ((ts.find? (fun t => tagKind t == 0)).toList).map renderTag := by
  cases hf : ts.find? (fun t => tagKind t == 0) with
  | none => rfl
  | some t =>
    have hp : (tagKind t == 0) = true := by
      have h2 := List.find?_some hf
      exact h2
    cases t with
    | idT v => rfl
    | parentT v => simp [tagKind] at hp
    | uidT v => simp [tagKind] at hp
    | fromT d => simp [tagKind] at hp
    | toT d => simp [tagKind] at hp

theorem findCap_parent (t0 : Str) (items : List MItem) (h0 : wfText t0 = true)
    (hits : ∀ it ∈ items, wfItem it = true) :
    TaskUtils.findCapture (strL "[parent::") (t0 ++ renderItems items)
      = ((itemsTags items).find? (fun t => tagKind t == 1)).map tagVal := by
  show TaskUtils.findCapture ('[' :: 'p' :: strL "arent::") (t0 ++ renderItems items) = _
  rw [findCapture_append_clean _ _ _ (wfText_all_clean _ h0)]
  refine findCapture_items 'p' (strL "arent::") 1 ?_ ?_ items hits
  · intro t hwf hk
    cases t with
    | idT v => simp [tagKind] at hk
    | parentT v => exact ⟨rfl, hwf⟩
    | uidT v => simp [tagKind] at hk
    | fromT d => simp [tagKind] at hk
    | toT d => simp [tagKind] at hk
  · intro t hk
    cases t with
    | idT v => rfl
    | parentT v => simp [tagKind] at hk
    | uidT v => rfl
    | fromT d => rfl
    | toT d => rfl

theorem strip_parent (t0 : Str) (items : List MItem) (h0 : wfText t0 = true)
    (hits : ∀ it ∈ items, wfItem it = true) :
    stripAll (mColonTag (strL "[parent::")) (t0 ++ renderItems items)
      = t0 ++ renderItems (items.filter (fun it => !selTag (fun t => tagKind t == 1) it)) := by
  refine stripAll_content (mColonTag (strL "[parent::")) (mColonTag_shrinks _)
    (fun x hx => mColonTag_none_of_noStart (strL "[parent::") ('p' :: strL "arent::") rfl x hx)
    (fun a x ha => mColonTag_cons_ws _ a x ha)
    (fun t => tagKind t == 1) ?_ ?_ t0 h0 items hits
  · intro t rest hwf hsel
    cases t with
    | idT v => simp [tagKind] at hsel
    | parentT v =>
      show mColonTag (strL "[parent::") (' ' :: (renderTag (MTag.parentT v) ++ rest)) = some rest
      rw [mColonTag_cons_ws _ ' ' _ (by decide)]
      exact mColonTag_match ('p' :: strL "arent::") v rest hwf
    | uidT v => simp [tagKind] at hsel
    | fromT d => simp [tagKind] at hsel
    | toT d => simp [tagKind] at hsel
  · intro t rest hwf hsel
    refine failsOn_mColonTag_other 'p' (strL "arent::") t rest hwf ?_
    cases t with
    | idT v => rfl
    | parentT v => simp [tagKind] at hsel
    | uidT v => rfl
    | fromT d => rfl
    | toT d => rfl

theorem optPart_parent (ts : List MTag) :
    TaskUtils.optTagStr (strL "[parent::") ((ts.find? (fun t => tagKind t == 1)).map tagVal)
      = ((ts.find? (fun t => tagKind t == 1)).toList).map renderTag := by
  cases hf : ts.find? (fun t => tagKind t == 1) with
  | none => rfl
  | some t =>
    have hp : (tagKind t == 1) = true := by
      have h2 := List.find?_some hf
      exact h2
    cases t with
    | idT v => simp [tagKind] at hp
    | parentT v => rfl
    | uidT v => simp [tagKind] at hp
    | fromT d => simp [tagKind] at hp
    | toT d => simp [tagKind] at hp

theorem findCap_uid (t0 : Str) (items : List MItem) (h0 : wfText t0 = true)
    (hits : ∀ it ∈ items, wfItem it = true) :
    TaskUtils.findCapture (strL "[uid::") (t0 ++ renderItems items)
      = ((itemsTags items).find? (fun t => tagKind t == 2)).map tagVal := by
  show TaskUtils.findCapture ('[' :: 'u' :: strL "id::") (t0 ++ renderItems items) = _
  rw [findCapture_append_clean _ _ _ (wfText_all_clean _ h0)]
  refine findCapture_items 'u' (strL "id::") 2 ?_ ?_ items hits
  · intro t hwf hk
    cases t with
    | idT v => simp [tagKind] at hk
    | parentT v => simp [tagKind] at hk
    | uidT v => exact ⟨rfl, hwf⟩
    | fromT d => simp [tagKind] at hk
    | toT d => simp [tagKind] at hk
  · intro t hk
    cases t with
    | idT v => rfl
    | parentT v => rfl
    | uidT v => simp [tagKind] at hk
    | fromT d => rfl
    | toT d => rfl

theorem strip_uid (t0 : Str) (items : List MItem) (h0 : wfText t0 = true)
    (hits : ∀ it ∈ items, wfItem it = true) :
    stripAll (mColonTag (strL "[uid::")) (t0 ++ renderItems items)
      = t0 ++ renderItems (items.filter (fun it => !selTag (fun t => tagKind t == 2) it)) := by
  refine stripAll_content (mColonTag (strL "[uid::")) (mColonTag_shrinks _)
    (fun x hx => mColonTag_none_of_noStart (strL "[uid::") ('u' :: strL "id::") rfl x hx)
    (fun a x ha => mColonTag_cons_ws _ a x ha)
    (fun t => tagKind t == 2) ?_ ?_ t0 h0 items hits
  · intro t rest hwf hsel
    cases t with
    | idT v => simp [tagKind] at hsel
    | parentT v => simp [tagKind] at hsel
    | uidT v =>
      show mColonTag (strL "[uid::") (' ' :: (renderTag (MTag.uidT v) ++ rest)) = some rest
      rw [mColonTag_cons_ws _ ' ' _ (by decide)]
      exact mColonTag_match ('u' :: strL "id::") v rest hwf
    | fromT d => simp [tagKind] at hsel
    | toT d => simp [tagKind] at hsel
  · intro t rest hwf hsel
    refine failsOn_mColonTag_other 'u' (strL "id::") t rest hwf ?_
    cases t with
    | idT v => rfl
    | parentT v => rfl
    | uidT v => simp [tagKind] at hsel
    | fromT d => rfl
    | toT d => rfl

theorem optPart_uid (ts : List MTag) :
    TaskUtils.optTagStr (strL "[uid::") ((ts.find? (fun t => tagKind t == 2)).map tagVal)
      = ((ts.find? (fun t => tagKind t == 2)).toList).map renderTag := by
  cases hf : ts.find? (fun t => tagKind t == 2) with
  | none => rfl
  | some t =>
    have hp : (tagKind t == 2) = true := by
      have h2 := List.find?_some hf
      exact h2
    cases t with
    | idT v => simp [tagKind] at hp
    | parentT v => simp [tagKind] at hp
    | uidT v => rfl
    | fromT d => simp [tagKind] at hp
    | toT d => simp [tagKind] at hp

theorem findCap_from (t0 : Str) (items : List MItem) (h0 : wfText t0 = true)
    (hits : ∀ it ∈ items, wfItem it = true) :
    findSchedCapture '<' (t0 ++ renderItems items)
      = ((itemsTags items).find? (fun t => tagKind t == 3)).map tagVal := by
  rw [findSchedCapture_append_clean _ _ _ (wfText_all_clean _ h0)]
  refine findSchedCapture_items '<' 3 ?_ ?_ items hits
  · intro t hwf hk
    cases t with
    | idT v => simp [tagKind] at hk
    | parentT v => simp [tagKind] at hk
    | uidT v => simp [tagKind] at hk
    | fromT d => exact ⟨rfl, hwf⟩
    | toT d => simp [tagKind] at hk
  · intro t hk
    cases t with
    | idT v => rfl
    | parentT v => rfl
    | uidT v => rfl
    | fromT d => simp [tagKind] at hk
    | toT d => rfl

theorem strip_from (t0 : Str) (items : List MItem) (h0 : wfText t0 = true)
    (hits : ∀ it ∈ items, wfItem it = true) :
    stripAll (mSchedTag '<') (t0 ++ renderItems items)
      = t0 ++ renderItems (items.filter (fun it => !selTag (fun t => tagKind t == 3) it)) := by
  refine stripAll_content (mSchedTag '<') (mSchedTag_shrinks _)
    (fun x hx => mSchedTag_none_of_noStart '<' x hx)
    (fun a x ha => mSchedTag_cons_ws '<' a x ha)
    (fun t => tagKind t == 3) ?_ ?_ t0 h0 items hits
  · intro t rest hwf hsel
    cases t with
    | idT v => simp [tagKind] at hsel
    | parentT v => simp [tagKind] at hsel
    | uidT v => simp [tagKind] at hsel
    | fromT d =>
      show mSchedTag '<' (' ' :: (renderTag (MTag.fromT d) ++ rest)) = some rest
      rw [mSchedTag_cons_ws '<' ' ' _ (by decide)]
      exact mSchedTag_match '<' d rest hwf
    | toT d => simp [tagKind] at hsel
  · intro t rest hwf hsel
    refine failsOn_mSchedTag_other '<' t rest hwf ?_
    cases t with
    | idT v => rfl
    | parentT v => rfl
    | uidT v => rfl
    | fromT d => simp [tagKind] at hsel
    | toT d => rfl

theorem optPart_from (ts : List MTag) :
    TaskUtils.optTagStr (strL "[< ") ((ts.find? (fun t => tagKind t == 3)).map tagVal)
      = ((ts.find? (fun t => tagKind t == 3)).toList).map renderTag := by
  cases hf : ts.find? (fun t => tagKind t == 3) with
  | none => rfl
  | some t =>
    have hp : (tagKind t == 3) = true := by
      have h2 := List.find?_some hf
      exact h2
    cases t with
    | idT v => simp [tagKind] at hp
    | parentT v => simp [tagKind] at hp
    | uidT v => simp [tagKind] at hp
    | fromT d => rfl
    | toT d => simp [tagKind] at hp

theorem findCap_to (t0 : Str) (items : List MItem) (h0 : wfText t0 = true)
    (hits : ∀ it ∈ items, wfItem it = true) :
    findSchedCapture '>' (t0 ++ renderItems items)
      = ((itemsTags items).find? (fun t => tagKind t == 4)).map tagVal := by
  rw [findSchedCapture_append_clean _ _ _ (wfText_all_clean _ h0)]
  refine findSchedCapture_items '>' 4 ?_ ?_ items hits
  · intro t hwf hk
    cases t with
    | idT v => simp [tagKind] at hk
    | parentT v => simp [tagKind] at hk
    | uidT v => simp [tagKind] at hk
    | fromT d => simp [tagKind] at hk
    | toT d => exact ⟨rfl, hwf⟩
  · intro t hk
    cases t with
    | idT v => rfl
    | parentT v => rfl
    | uidT v => rfl
    | fromT d => rfl
    | toT d => simp [tagKind] at hk

theorem strip_to (t0 : Str) (items : List MItem) (h0 : wfText t0 = true)
    (hits : ∀ it ∈ items, wfItem it = true) :
    stripAll (mSchedTag '>') (t0 ++ renderItems items)
      = t0 ++ renderItems (items.filter (fun it => !selTag (fun t => tagKind t == 4) it)) := by
  refine stripAll_content (mSchedTag '>') (mSchedTag_shrinks _)
    (fun x hx => mSchedTag_none_of_noStart '>' x hx)
    (fun a x ha => mSchedTag_cons_ws '>' a x ha)
    (fun t => tagKind t == 4) ?_ ?_ t0 h0 items hits
  · intro t rest hwf hsel
    cases t with
    | idT v => simp [tagKind] at hsel
    | parentT v => simp [tagKind] at hsel
    | uidT v => simp [tagKind] at hsel
    | fromT d => simp [tagKind] at hsel
    | toT d =>
      show mSchedTag '>' (' ' :: (renderTag (MTag.toT d) ++ rest)) = some rest
      rw [mSchedTag_cons_ws '>' ' ' _ (by decide)]
      exact mSchedTag_match '>' d rest hwf
  · intro t rest hwf hsel
    refine failsOn_mSchedTag_other '>' t rest hwf ?_
    cases t with
    | idT v => rfl
    | parentT v => rfl
    | uidT v => rfl
    | fromT d => rfl
    | toT d => simp [tagKind] at hsel

theorem optPart_to (ts : List MTag) :
    TaskUtils.optTagStr (strL "[> ") ((ts.find? (fun t => tagKind t == 4)).map tagVal)
      = ((ts.find? (fun t => tagKind t == 4)).toList).map renderTag := by
  cases hf : ts.find? (fun t => tagKind t == 4) with
  | none => rfl
  | some t =>
    have hp : (tagKind t == 4) = true := by
      have h2 := List.find?_some hf
      exact h2
    cases t with
    | idT v => simp [tagKind] at hp
    | parentT v => simp [tagKind] at hp
    | uidT v => simp [tagKind] at hp
    | fromT d => simp [tagKind] at hp
    | toT d => rfl

theorem foldr_sp_append (xs ys : List (List Char)) :
    (xs ++ ys).foldr (fun p acc => ' ' :: p ++ acc) []
      = xs.foldr (fun p acc => ' ' :: p ++ acc) []
        ++ ys.foldr (fun p acc => ' ' :: p ++ acc) [] := by
  induction xs with
  | nil => rfl
  | cons x xs ih =>
    rw [List.cons_append, List.foldr_cons, List.foldr_cons, ih]
    simp

/-- C6: `normalizeMetadataOrder` strips the five known metadata tags
(`[id::..]`, `[parent::..]`, `[uid::..]`, `[< DATE]`, `[> DATE]`) from
anywhere in a task line's content — here an arbitrary interleaving of
well-formed text chunks and tags — and re-appends the first tag of each kind
present at the end of the line in the fixed canonical order: task text,
then id, then parent, then uid, then scheduleFrom, then scheduleTo. -/
theorem C6_normalize_canonical (m : Char) (a : Char) (t0' : Str) (items : List MItem)
    (h0 : wfText (a :: t0') = true) (hits : ∀ it ∈ items, wfItem it = true) :
    TaskUtils.normalizeMetadataOrder
        (strL "- [" ++ m :: strL "] " ++ ((a :: t0') ++ renderItems items))
      = (strL "- [" ++ m :: strL "] " ++ ((a :: t0') ++ renderItems (items.filter isTxtItem)))
          ++ renderTags (canonicalTags (itemsTags items)) := by
  have hha : isWs a = false := by
    obtain ⟨_, _, _, _, _, hh⟩ := wfText_parts _ h0
    exact hh a t0' rfl
  have hTask : TaskUtils.isTask
      (strL "- [" ++ m :: strL "] " ++ ((a :: t0') ++ renderItems items)) = true := rfl
  have hsplit : taskPrefixSplit
      (strL "- [" ++ m :: strL "] " ++ ((a :: t0') ++ renderItems items))
      = some (['-', ' ', '[', m, ']', ' '], (a :: t0') ++ renderItems items) := by
    have h1 : List.takeWhile isWs (a :: (t0' ++ renderItems items)) = [] := by
      rw [List.takeWhile_cons, if_neg (by simp [hha])]
    have h2 : List.dropWhile isWs (a :: (t0' ++ renderItems items))
        = a :: (t0' ++ renderItems items) := by
      rw [List.dropWhile_cons, if_neg (by simp [hha])]
    show some (('-' :: ' ' :: '[' :: m :: ']' :: ' ' ::
        List.takeWhile isWs (a :: (t0' ++ renderItems items)), 
        List.dropWhile isWs (a :: (t0' ++ renderItems items))) : Str × Str) = _
    rw [h1, h2]
    rfl
  rw [TaskUtils.normalizeMetadataOrder]
  rw [hTask]
  rw [if_neg (by simp)]
  rw [hsplit]
  simp only []
  rw [findCap_id _ _ h0 hits, findCap_parent _ _ h0 hits, findCap_uid _ _ h0 hits,
    findCap_from _ _ h0 hits, findCap_to _ _ h0 hits]
  rw [strip_id _ _ h0 hits]
  have hits1 : ∀ it ∈ items.filter (fun it => !selTag (fun t => tagKind t == 0) it),
      wfItem it = true := fun it hx => hits it (List.mem_of_mem_filter hx)
  rw [strip_parent _ _ h0 hits1]
  have hits2 : ∀ it ∈ (items.filter (fun it => !selTag (fun t => tagKind t == 0) it)).filter
      (fun it => !selTag (fun t => tagKind t == 1) it),
      wfItem it = true := fun it hx => hits1 it (List.mem_of_mem_filter hx)
  rw [strip_uid _ _ h0 hits2]
  have hits3 : ∀ it ∈ ((items.filter (fun it => !selTag (fun t => tagKind t == 0) it)).filter
      (fun it => !selTag (fun t => tagKind t == 1) it)).filter
      (fun it => !selTag (fun t => tagKind t == 2) it),
      wfItem it = true := fun it hx => hits2 it (List.mem_of_mem_filter hx)
  rw [strip_to _ _ h0 hits3]
  have hits4 : ∀ it ∈ (((items.filter (fun it => !selTag (fun t => tagKind t == 0) it)).filter
      (fun it => !selTag (fun t => tagKind t == 1) it)).filter
      (fun it => !selTag (fun t => tagKind t == 2) it)).filter
      (fun it => !selTag (fun t => tagKind t == 4) it),
      wfItem it = true := fun it hx => hits3 it (List.mem_of_mem_filter hx)
  rw [strip_from _ _ h0 hits4]
  rw [filter_five]
  have hends : ∃ u c, ((a :: t0') ++ renderItems (items.filter isTxtItem)) = u ++ [c] ∧
      isWs c = false := by
    cases hf : items.filter isTxtItem with
    | nil =>
      obtain ⟨u, c, he, hc, _, _⟩ := wfText_parts _ h0
      refine ⟨u, c, ?_, hc⟩
      show (a :: t0') ++ [] = u ++ [c]
      rw [List.append_nil, he]
    | cons i1 i2 =>
      obtain ⟨u, c, he, hc⟩ := renderItems_ends_nonws (i1 :: i2)
        (by
          intro x hx
          exact hits x (List.mem_of_mem_filter (by rw [hf]; exact hx)))
        (by simp)
      exact ⟨(a :: t0') ++ u, c, by rw [he]; simp, hc⟩
  have htrim : trimEndStr ((a :: t0') ++ renderItems (items.filter isTxtItem))
      = (a :: t0') ++ renderItems (items.filter isTxtItem) := by
    obtain ⟨u, c, he, hc⟩ := hends
    rw [he, trimEndStr_append_nonws u c hc]
  rw [htrim]
  rw [optPart_id, optPart_parent, optPart_uid, optPart_from, optPart_to]
  have hL : ∀ L0 L1 L2 L3 L4 : List (List Char), ∀ p0 : List Char,
      TaskUtils.joinSp (([p0] ++ L0) ++ L1 ++ L2 ++ L3 ++ L4)
        = p0 ++ ((((L0 ++ L1) ++ L2) ++ L3) ++ L4).foldr
            (fun p acc => ' ' :: p ++ acc) [] := by
    intro L0 L1 L2 L3 L4 p0
    exact joinSp_eq p0 _
  rw [hL]
  rw [← List.map_append, ← List.map_append, ← List.map_append, ← List.map_append]
  rw [foldr_sp_map_renderTag]
  rfl

theorem C6_normalize_canonical_witness :
    TaskUtils.normalizeMetadataOrder
        (strL "- [" ++ ' ' :: strL "] " ++ (('C' :: strL "all dentist") ++
          renderItems [MItem.tag (MTag.toT (strL "2025-01-12")), MItem.txt (strL "urgent"),
            MItem.tag (MTag.idT (strL "t-1"))]))
      = (strL "- [" ++ ' ' :: strL "] " ++ (('C' :: strL "all dentist") ++
          renderItems ([MItem.tag (MTag.toT (strL "2025-01-12")), MItem.txt (strL "urgent"),
            MItem.tag (MTag.idT (strL "t-1"))].filter isTxtItem)))
        ++ renderTags (canonicalTags (itemsTags
            [MItem.tag (MTag.toT (strL "2025-01-12")), MItem.txt (strL "urgent"),
              MItem.tag (MTag.idT (strL "t-1"))])) :=
  C6_normalize_canonical ' ' 'C' (strL "all dentist")
    [MItem.tag (MTag.toT (strL "2025-01-12")), MItem.txt (strL "urgent"),
      MItem.tag (MTag.idT (strL "t-1"))] (by decide) (by decide)

theorem renderItems_append (xs ys : List MItem) :
    renderItems (xs ++ ys) = renderItems xs ++ renderItems ys := by
  induction xs with
  | nil => rfl
  | cons x xs ih =>
    show ' ' :: renderMItem x ++ renderItems (xs ++ ys) = _
    rw [ih]
    show ' ' :: (renderMItem x ++ (renderItems xs ++ renderItems ys))
      = (' ' :: renderMItem x ++ renderItems xs) ++ renderItems ys
    simp

theorem matchDate_digits (s d r : Str) (h : matchDate s = some (d, r)) :
    ∃ a x, s = a :: x ∧ isDig a = true := by
  unfold matchDate at h
  split at h
  · rename_i a b c d1 e f g h' r'
    split at h
    · rename_i hdig
      simp only [Bool.and_eq_true] at hdig
      exact ⟨a, _, rfl, hdig.1.1.1.1.1.1.1⟩
    · exact absurd h (by simp)
  · exact absurd h (by simp)

theorem matchDate_none_head (c : Char) (x : Str) (h : isDig c = false) :
    matchDate (c :: x) = none := by
  cases hm : matchDate (c :: x) with
  | none => rfl
  | some dr =>
    obtain ⟨d, r⟩ := dr
    obtain ⟨a, y, he, ha⟩ := matchDate_digits _ _ _ hm
    have : a = c := (List.cons.inj he).1.symm
    rw [this] at ha
    rw [ha] at h
    exact absurd h (by simp)

/-- The schedule matcher fails when no date follows its opener. -/
theorem mSchedTag_none_nondate (o : Char) (r : Str)
    (hmd : matchDate (r.dropWhile isWs) = none) :
    mSchedTag o ('[' :: o :: r) = none := by
  rw [mSchedTag]
  have hdw : List.dropWhile isWs ('[' :: o :: r) = '[' :: o :: r := by
    rw [List.dropWhile_cons, if_neg (by decide)]
  rw [hdw]
  have hdl : dropLit ['[', o] ('[' :: o :: r) = some r := dropLit_pref ['[', o] r
  rw [hdl]
  simp only []
  rw [hmd]

theorem filter_notSel_eq_self (sel : MTag → Bool) (items : List MItem)
    (h : ∀ t, MItem.tag t ∈ items → sel t = false) :
    items.filter (fun it => !selTag sel it) = items := by
  rw [List.filter_eq_self]
  intro it hit
  cases it with
  | txt s => rfl
  | tag t => simp [selTag, h t hit]

theorem no_nl_renderTag (t : MTag) (h : wfTag t = true) : ∀ c ∈ renderTag t, c ≠ '\n' := by
  obtain ⟨mid, hshape, hclean⟩ := renderTag_shape t h
  rw [hshape]
  intro c hc
  rcases List.mem_cons.mp hc with rfl | h2
  · decide
  · rcases List.mem_append.mp h2 with h3 | h3
    · have := List.all_eq_true.mp hclean c h3
      simp only [cleanChar, Bool.and_eq_true] at this
      simpa using this.1.2
    · have : c = ']' := by simpa using h3
      rw [this]
      decide

theorem no_nl_renderItems (items : List MItem) (h : ∀ it ∈ items, wfItem it = true) :
    ∀ c ∈ renderItems items, c ≠ '\n' := by
  induction items with
  | nil => intro c hc; simp [renderItems] at hc
  | cons it its ih =>
    intro c hc
    have hwit := h it (by simp)
    have hc2 : c ∈ ' ' :: (renderMItem it ++ renderItems its) := hc
    rcases List.mem_cons.mp hc2 with rfl | h2
    · decide
    · rcases List.mem_append.mp h2 with h3 | h3
      · cases it with
        | txt s =>
          have := List.all_eq_true.mp (wfText_all_clean s hwit) c h3
          simp only [cleanChar, Bool.and_eq_true] at this
          simpa using this.1.2
        | tag t => exact no_nl_renderTag t hwit c h3
      · exact ih (fun x hx => h x (by simp [hx])) c h3

theorem splitLines_append_nl (a b : Str) :
    splitLines (a ++ '\n' :: b) = splitLines a ++ splitLines b := by
  have key : ∀ (x : Str) (cur : Str),
      splitLinesGo cur (x ++ '\n' :: b) = splitLinesGo cur x ++ splitLines b := by
    intro x
    induction x with
    | nil =>
      intro cur
      rfl
    | cons c x ih =>
      intro cur
      rw [List.cons_append, splitLinesGo, splitLinesGo]
      by_cases hc : (c == '\n') = true
      · rw [if_pos hc, if_pos hc, ih []]
        rfl
      · rw [if_neg hc, if_neg hc, ih (c :: cur)]
  exact key a []

theorem splitLines_no_nl (x : Str) (h : ∀ c ∈ x, c ≠ '\n') : splitLines x = [x] := by
  have : splitLinesGo [] (x ++ []) = splitLinesGo (x.reverse ++ []) [] :=
    splitLinesGo_append_no_nl x h [] []
  simp only [List.append_nil] at this
  rw [splitLines, this, splitLinesGo]
  simp

theorem findIdx?_append_singleton (p : Str → Bool) (xs : List Str) (y : Str)
    (hxs : ∀ x ∈ xs, p x = false) (hy : p y = true) :
    ∀ i, List.findIdx? p (xs ++ [y]) i = some (i + xs.length) := by
  induction xs with
  | nil =>
    intro i
    rw [List.nil_append, List.findIdx?_cons, if_pos hy]
    simp
  | cons x xs ih =>
    intro i
    rw [List.cons_append, List.findIdx?_cons, if_neg (by simp [hxs x (by simp)])]
    rw [ih (fun z hz => hxs z (by simp [hz])) (i + 1)]
    simp
    omega

theorem hasIdTag_append_right (tid u w : Str) (h : hasIdTag tid w = true) :
    hasIdTag tid (u ++ w) = true := by
  induction u with
  | nil => exact h
  | cons c u ih =>
    rw [List.cons_append]
    cases hw : u ++ w with
    | nil =>
      rw [hw] at ih
      cases w with
      | nil => exact absurd h (by rw [hasIdTag]; simp)
      | cons a b => simp at hw
    | cons a b =>
      rw [hw] at ih
      rw [hasIdTag]
      simp [ih]

/-- The matcher fails at every position of a `- [m] ` task prefix. -/
theorem failsOn_taskPrefix (mm : Str → Option Str)
    (hnoStart : ∀ x, noStart x = true → mm x = none)
    (hws : ∀ a x, isWs a = true → mm (a :: x) = mm x)
    (m : Char) (hm : m = ' ' ∨ (isWs m = false ∧ cleanChar m = true))
    (rest : Str) (hbr : mm ('[' :: m :: ']' :: ' ' :: rest) = none)
    (hrest : noStart rest = true) :
    failsOn mm ['-', ' ', '[', m, ']', ' '] rest := by
  have hsp : noStart (' ' :: rest) = true := by
    rw [noStart_cons_ws ' ' rest (by decide)]
    exact hrest
  have hrb : noStart (']' :: ' ' :: rest) = true := rfl
  have hmrb : noStart (m :: ']' :: ' ' :: rest) = true := by
    rcases hm with rfl | ⟨hw, hc⟩
    · rw [noStart_cons_ws ' ' _ (by decide)]
      exact hrb
    · exact noStart_cons_clean m _ hw hc
  intro u hne hsuf
  rcases List.suffix_cons_iff.mp hsuf with h1 | h1
  · rw [h1]
    refine hnoStart _ ?_
    exact noStart_cons_clean '-' _ (by decide) (by decide)
  rcases List.suffix_cons_iff.mp h1 with h2 | h2
  · rw [h2, List.cons_append, hws ' ' _ (by decide)]
    exact hbr
  rcases List.suffix_cons_iff.mp h2 with h3 | h3
  · rw [h3]
    exact hbr
  rcases List.suffix_cons_iff.mp h3 with h4 | h4
  · rw [h4]
    exact hnoStart _ hmrb
  rcases List.suffix_cons_iff.mp h4 with h5 | h5
  · rw [h5]
    exact hnoStart _ hrb
  rcases List.suffix_cons_iff.mp h5 with h6 | h6
  · rw [h6]
    exact hnoStart _ hsp
  have h7 : u = [] := List.suffix_nil.mp h6
  exact absurd h7 hne

theorem findCapture_taskPrefix (lc : Char) (l' : Str) (m : Char)
    (hneq : (lc == m) = false) (hm : (m == '[') = false) (w : Str) :
    TaskUtils.findCapture ('[' :: lc :: l') (['-', ' ', '[', m, ']', ' '] ++ w)
      = TaskUtils.findCapture ('[' :: lc :: l') w := by
  show TaskUtils.findCapture ('[' :: lc :: l') ('-' :: ' ' :: '[' :: m :: ']' :: ' ' :: w) = _
  rw [findCapture_cons_skip _ '-' _ (by decide), findCapture_cons_skip _ ' ' _ (by decide)]
  rw [TaskUtils.findCapture]
  have hmc : TaskUtils.mCapture ('[' :: lc :: l') ('[' :: m :: ']' :: ' ' :: w) = none := by
    rw [TaskUtils.mCapture]
    have hdl : dropLit ('[' :: lc :: l') ('[' :: m :: ']' :: ' ' :: w) = none := by
      rw [dropLit, if_pos (by decide)]
      exact dropLit_cons_neq lc l' m _ hneq
    rw [hdl]
  rw [hmc]
  rw [findCapture_cons_skip _ m _ hm, findCapture_cons_skip _ ']' _ (by decide),
    findCapture_cons_skip _ ' ' _ (by decide)]

theorem findSchedCapture_taskPrefix_neq (o m : Char)
    (hneq : (o == m) = false) (hm : (m == '[') = false) (w : Str) :
    findSchedCapture o (['-', ' ', '[', m, ']', ' '] ++ w) = findSchedCapture o w := by
  show findSchedCapture o ('-' :: ' ' :: '[' :: m :: ']' :: ' ' :: w) = _
  rw [findSchedCapture_cons_skip _ '-' _ (by decide),
    findSchedCapture_cons_skip _ ' ' _ (by decide)]
  rw [findSchedCapture]
  have hdl : dropLit ['[', o] ('[' :: m :: ']' :: ' ' :: w) = none := by
    rw [dropLit, if_pos (by decide)]
    exact dropLit_cons_neq o [] m _ hneq
  rw [hdl]
  rw [findSchedCapture_cons_skip _ m _ hm, findSchedCapture_cons_skip _ ']' _ (by decide),
    findSchedCapture_cons_skip _ ' ' _ (by decide)]

theorem findSchedCapture_taskPrefix_eq (o : Char) (ho : (o == '[') = false) (w : Str) :
    findSchedCapture o (['-', ' ', '[', o, ']', ' '] ++ w) = findSchedCapture o w := by
  show findSchedCapture o ('-' :: ' ' :: '[' :: o :: ']' :: ' ' :: w) = _
  rw [findSchedCapture_cons_skip _ '-' _ (by decide),
    findSchedCapture_cons_skip _ ' ' _ (by decide)]
  rw [findSchedCapture]
  have hdl : dropLit ['[', o] ('[' :: o :: ']' :: ' ' :: w) = some (']' :: ' ' :: w) :=
    dropLit_pref ['[', o] _
  rw [hdl]
  have hmd : matchDate (List.dropWhile isWs (']' :: ' ' :: w)) = none := by
    rw [List.dropWhile_cons, if_neg (by decide)]
    exact matchDate_none_head ']' _ (by decide)
  simp only []
  rw [hmd]
  rw [findSchedCapture_cons_skip _ o _ ho, findSchedCapture_cons_skip _ ']' _ (by decide),
    findSchedCapture_cons_skip _ ' ' _ (by decide)]

/-- A well-formed single task line: `- [m] ` followed by rendered content. -/
def taskLine (m : Char) (t0 : Str) (items : List MItem) : Str :=
  '-' :: ' ' :: '[' :: m :: ']' :: ' ' :: (t0 ++ renderItems items)

theorem isTask_taskLine (m : Char) (t0 : Str) (items : List MItem) :
    TaskUtils.isTask (taskLine m t0 items) = true := rfl

theorem setMarkerAny_taskLine (nm m : Char) (t0 : Str) (items : List MItem)
    (hm : (m == ']') = false) :
    setMarkerAny nm (taskLine m t0 items) = taskLine nm t0 items := by
  show (if (m == ']') = true then taskLine m t0 items else _) = _
  rw [if_neg (by simp_all)]
  rfl

theorem setMarkerFrom_taskLine_eq (old nm : Char) (t0 : Str) (items : List MItem) :
    setMarkerFrom old nm (taskLine old t0 items) = taskLine nm t0 items := by
  show (if (old == old) = true then _ else taskLine old t0 items) = _
  rw [if_pos (by simp)]
  rfl

theorem wfText_head (t0 : Str) (h0 : wfText t0 = true) :
    ∃ a t0', t0 = a :: t0' ∧ isWs a = false ∧ cleanChar a = true := by
  obtain ⟨u, c, he, hc, hclean, hhead⟩ := wfText_parts t0 h0
  cases ht : t0 with
  | nil => rw [ht] at he; simp at he
  | cons a t0' =>
    refine ⟨a, t0', rfl, hhead a t0' ht, ?_⟩
    exact List.all_eq_true.mp hclean a (by rw [ht]; simp)

theorem noStart_content (t0 : Str) (items : List MItem) (h0 : wfText t0 = true) :
    noStart (t0 ++ renderItems items) = true := by
  obtain ⟨a, t0', rfl, hw, hc⟩ := wfText_head t0 h0
  exact noStart_cons_clean a _ hw hc

theorem taskPrefixSplit_taskLine (m : Char) (t0 : Str) (items : List MItem)
    (h0 : wfText t0 = true) :
    taskPrefixSplit (taskLine m t0 items)
      = some (['-', ' ', '[', m, ']', ' '], t0 ++ renderItems items) := by
  obtain ⟨a, t0', he, hw, hc⟩ := wfText_head t0 h0
  subst he
  have h1 : List.takeWhile isWs ((a :: t0') ++ renderItems items) = [] := by
    rw [List.cons_append, List.takeWhile_cons, if_neg (by simp [hw])]
  have h2 : List.dropWhile isWs ((a :: t0') ++ renderItems items)
      = (a :: t0') ++ renderItems items := by
    rw [List.cons_append, List.dropWhile_cons, if_neg (by simp [hw])]
  show some ((('-' :: ' ' :: '[' :: m :: ']' :: ' ' ::
      List.takeWhile isWs ((a :: t0') ++ renderItems items),
      List.dropWhile isWs ((a :: t0') ++ renderItems items)) : Str × Str)) = _
  rw [h1, h2]

theorem matchHM_none_head (a : Char) (x : Str) (ha : isDig a = false) :
    matchHM (a :: x) = none := by
  cases hm : matchHM (a :: x) with
  | none => rfl
  | some r =>
    unfold matchHM at hm
    split at hm
    · split at hm
      · split at hm
        · exfalso
          simp_all
        · exact absurd hm (by simp)
      · split at hm
        · split at hm
          · exfalso
            simp_all
          · exact absurd hm (by simp)
        · exact absurd hm (by simp)
    · exact absurd hm (by simp)

theorem stripTimeBlock_taskLine (m : Char) (t0 : Str) (items : List MItem)
    (h0 : wfText t0 = true) (hnd : isDig (t0.headD ' ') = false) :
    TaskScheduler.stripTimeBlock (taskLine m t0 items) = taskLine m t0 items := by
  obtain ⟨a, t0', he, hw, hc⟩ := wfText_head t0 h0
  rw [TaskScheduler.stripTimeBlock, taskPrefixSplit_taskLine m t0 items h0]
  have hnd' : isDig a = false := by
    rw [he] at hnd
    simpa using hnd
  have hhm : matchHM (t0 ++ renderItems items) = none := by
    rw [he, List.cons_append]
    exact matchHM_none_head a _ hnd'
  simp only []
  rw [hhm]

theorem taskLine_ends (m : Char) (t0 : Str) (items : List MItem)
    (h0 : wfText t0 = true) (hits : ∀ it ∈ items, wfItem it = true) :
    ∃ u c, taskLine m t0 items = u ++ [c] ∧ isWs c = false := by
  cases hi : items with
  | nil =>
    obtain ⟨u, c, he, hcw, _, _⟩ := wfText_parts t0 h0
    refine ⟨'-' :: ' ' :: '[' :: m :: ']' :: ' ' :: u, c, ?_, hcw⟩
    show '-' :: ' ' :: '[' :: m :: ']' :: ' ' :: (t0 ++ renderItems []) = _
    rw [he]
    simp [renderItems]
  | cons i1 i2 =>
    obtain ⟨u, c, he, hcw⟩ := renderItems_ends_nonws (i1 :: i2)
      (by
        intro x hx
        exact hits x (by rw [hi]; exact hx)) (by simp)
    refine ⟨'-' :: ' ' :: '[' :: m :: ']' :: ' ' :: (t0 ++ u), c, ?_, hcw⟩
    show '-' :: ' ' :: '[' :: m :: ']' :: ' ' :: (t0 ++ renderItems (i1 :: i2)) = _
    rw [he]
    simp

theorem trimEndStr_taskLine (m : Char) (t0 : Str) (items : List MItem)
    (h0 : wfText t0 = true) (hits : ∀ it ∈ items, wfItem it = true) :
    trimEndStr (taskLine m t0 items) = taskLine m t0 items := by
  obtain ⟨u, c, he, hcw⟩ := taskLine_ends m t0 items h0 hits
  rw [he, trimEndStr_append_nonws u c hcw]

theorem taskLine_snoc_tag (m : Char) (t0 : Str) (items : List MItem) (t : MTag) :
    taskLine m t0 (items ++ [MItem.tag t]) = taskLine m t0 items ++ ' ' :: renderTag t := by
  show '-' :: ' ' :: '[' :: m :: ']' :: ' ' :: (t0 ++ renderItems (items ++ [MItem.tag t]))
    = ('-' :: ' ' :: '[' :: m :: ']' :: ' ' :: (t0 ++ renderItems items)) ++ ' ' :: renderTag t
  rw [renderItems_append]
  show _ = '-' :: ' ' :: '[' :: m :: ']' :: ' ' ::
    ((t0 ++ renderItems items) ++ ' ' :: renderTag t)
  have : renderItems [MItem.tag t] = ' ' :: renderTag t ++ [] := rfl
  rw [this]
  simp

theorem stripAll_taskLine (mm : Str → Option Str) (hshr : shrinks mm)
    (hnoStart : ∀ x, noStart x = true → mm x = none)
    (hws : ∀ a x, isWs a = true → mm (a :: x) = mm x)
    (sel : MTag → Bool)
    (hmatch : ∀ t rest, wfTag t = true → sel t = true →
      mm ((' ' :: renderTag t) ++ rest) = some rest)
    (hfail : ∀ t rest, wfTag t = true → sel t = false →
      failsOn mm (' ' :: renderTag t) rest)
    (m : Char) (hm : m = ' ' ∨ (isWs m = false ∧ cleanChar m = true))
    (t0 : Str) (h0 : wfText t0 = true)
    (items : List MItem) (hits : ∀ it ∈ items, wfItem it = true)
    (hbr : mm ('[' :: m :: ']' :: ' ' :: (t0 ++ renderItems items)) = none) :
    stripAll mm (taskLine m t0 items)
      = taskLine m t0 (items.filter (fun it => !selTag sel it)) := by
  show stripAll mm (['-', ' ', '[', m, ']', ' '] ++ (t0 ++ renderItems items)) = _
  rw [stripAll_skip mm _ _
    (failsOn_taskPrefix mm hnoStart hws m hm _ hbr (noStart_content t0 items h0))]
  rw [stripAll_content mm hshr hnoStart hws sel hmatch hfail t0 h0 items hits]
  rfl

theorem filter_constFalse (items : List MItem) :
    items.filter (fun it => !selTag (fun _ => false) it) = items := by
  rw [List.filter_eq_self]
  intro it _
  cases it with
  | txt s => rfl
  | tag t => rfl

theorem removeSchedulingTags_taskLine (m : Char) (hm : m = ' ' ∨ m = '>')
    (t0 : Str) (h0 : wfText t0 = true) (items : List MItem)
    (hits : ∀ it ∈ items, wfItem it = true) :
    TaskScheduler.removeSchedulingTags (taskLine m t0 items)
      = taskLine m t0 ((items.filter (fun it => !selTag (fun t => tagKind t == 3) it)).filter
          (fun it => !selTag (fun t => tagKind t == 4) it)) := by
  have hm' : m = ' ' ∨ (isWs m = false ∧ cleanChar m = true) := by
    rcases hm with rfl | rfl
    · exact Or.inl rfl
    · exact Or.inr ⟨by decide, by decide⟩
  have hmatch3 : ∀ t rest, wfTag t = true → (tagKind t == 3) = true →
      mSchedTag '<' ((' ' :: renderTag t) ++ rest) = some rest := by
    intro t rest hwf hsel
    cases t with
    | fromT d =>
      show mSchedTag '<' (' ' :: (renderTag (MTag.fromT d) ++ rest)) = some rest
      rw [mSchedTag_cons_ws '<' ' ' _ (by decide)]
      exact mSchedTag_match '<' d rest hwf
    | idT v => simp [tagKind] at hsel
    | parentT v => simp [tagKind] at hsel
    | uidT v => simp [tagKind] at hsel
    | toT d => simp [tagKind] at hsel
  have hfail3 : ∀ t rest, wfTag t = true → (tagKind t == 3) = false →
      failsOn (mSchedTag '<') (' ' :: renderTag t) rest := by
    intro t rest hwf hsel
    refine failsOn_mSchedTag_other '<' t rest hwf ?_
    cases t with
    | fromT d => simp [tagKind] at hsel
    | idT v => rfl
    | parentT v => rfl
    | uidT v => rfl
    | toT d => rfl
  have hmatch4 : ∀ t rest, wfTag t = true → (tagKind t == 4) = true →
      mSchedTag '>' ((' ' :: renderTag t) ++ rest) = some rest := by
    intro t rest hwf hsel
    cases t with
    | toT d =>
      show mSchedTag '>' (' ' :: (renderTag (MTag.toT d) ++ rest)) = some rest
      rw [mSchedTag_cons_ws '>' ' ' _ (by decide)]
      exact mSchedTag_match '>' d rest hwf
    | idT v => simp [tagKind] at hsel
    | parentT v => simp [tagKind] at hsel
    | uidT v => simp [tagKind] at hsel
    | fromT d => simp [tagKind] at hsel
  have hfail4 : ∀ t rest, wfTag t = true → (tagKind t == 4) = false →
      failsOn (mSchedTag '>') (' ' :: renderTag t) rest := by
    intro t rest hwf hsel
    refine failsOn_mSchedTag_other '>' t rest hwf ?_
    cases t with
    | toT d => simp [tagKind] at hsel
    | idT v => rfl
    | parentT v => rfl
    | uidT v => rfl
    | fromT d => rfl
  have hfailColon : ∀ (lc : Char) (l' : Str), (∀ t : MTag, (lc == tagChar2 t) = false) →
      ∀ t rest, wfTag t = true → (false : Bool) = false →
      failsOn (mColonTag ('[' :: lc :: l')) (' ' :: renderTag t) rest := by
    intro lc l' hlc t rest hwf _
    exact failsOn_mColonTag_other lc l' t rest hwf (hlc t)
  have hs : ∀ t : MTag, (('s' : Char) == tagChar2 t) = false := by
    intro t
    cases t with
    | idT v => rfl
    | parentT v => rfl
    | uidT v => rfl
    | fromT d => rfl
    | toT d => rfl
  have hbrSched : ∀ (o : Char) (w : Str), (o == m) = false →
      mSchedTag o ('[' :: m :: ']' :: ' ' :: w) = none :=
    fun o w hne => mSchedTag_none_mismatch2 o m _ hne
  have hbrSchedEq : ∀ w : Str, mSchedTag m ('[' :: m :: ']' :: ' ' :: w) = none := by
    intro w
    refine mSchedTag_none_nondate m (']' :: ' ' :: w) ?_
    rw [List.dropWhile_cons, if_neg (by decide)]
    exact matchDate_none_head ']' _ (by decide)
  have hbrColon : ∀ (lc : Char) (l' w : Str), (lc == m) = false →
      mColonTag ('[' :: lc :: l') ('[' :: m :: ']' :: ' ' :: w) = none :=
    fun lc l' w hne => mColonTag_none_mismatch2 lc l' m _ hne
  rw [TaskScheduler.removeSchedulingTags]
  have hits3 : ∀ it ∈ items.filter (fun it => !selTag (fun t => tagKind t == 3) it),
      wfItem it = true := fun it hx => hits it (List.mem_of_mem_filter hx)
  have hits4 : ∀ it ∈ (items.filter (fun it => !selTag (fun t => tagKind t == 3) it)).filter
      (fun it => !selTag (fun t => tagKind t == 4) it),
      wfItem it = true := fun it hx => hits3 it (List.mem_of_mem_filter hx)
  have hpass1 : stripAll (mSchedTag '<') (taskLine m t0 items)
      = taskLine m t0 (items.filter (fun it => !selTag (fun t => tagKind t == 3) it)) := by
    refine stripAll_taskLine (mSchedTag '<') (mSchedTag_shrinks _)
      (fun x hx => mSchedTag_none_of_noStart '<' x hx)
      (fun a x ha => mSchedTag_cons_ws '<' a x ha)
      (fun t => tagKind t == 3) hmatch3 hfail3 m hm' t0 h0 items hits ?_
    refine hbrSched '<' _ ?_
    rcases hm with rfl | rfl
    · rfl
    · rfl
  rw [hpass1]
  have hpass2 : stripAll (mSchedTag '>')
      (taskLine m t0 (items.filter (fun it => !selTag (fun t => tagKind t == 3) it)))
      = taskLine m t0
          ((items.filter (fun it => !selTag (fun t => tagKind t == 3) it)).filter
            (fun it => !selTag (fun t => tagKind t == 4) it)) := by
    refine stripAll_taskLine (mSchedTag '>') (mSchedTag_shrinks _)
      (fun x hx => mSchedTag_none_of_noStart '>' x hx)
      (fun a x ha => mSchedTag_cons_ws '>' a x ha)
      (fun t => tagKind t == 4) hmatch4 hfail4 m hm' t0 h0 _ hits3 ?_
    rcases hm with rfl | rfl
    · exact hbrSched '>' _ rfl
    · exact hbrSchedEq _
  rw [hpass2]
  have hpass3 : stripAll (mColonTag (strL "[sch_from::"))
      (taskLine m t0 ((items.filter (fun it => !selTag (fun t => tagKind t == 3) it)).filter
        (fun it => !selTag (fun t => tagKind t == 4) it)))
      = taskLine m t0
          ((items.filter (fun it => !selTag (fun t => tagKind t == 3) it)).filter
            (fun it => !selTag (fun t => tagKind t == 4) it)) := by
    have h1 := stripAll_taskLine (mColonTag (strL "[sch_from::")) (mColonTag_shrinks _)
      (fun x hx => mColonTag_none_of_noStart (strL "[sch_from::") ('s' :: strL "ch_from::")
        rfl x hx)
      (fun a x ha => mColonTag_cons_ws _ a x ha)
      (fun _ => false) (fun t rest _ hsel => by simp at hsel)
      (fun t rest hwf _ => hfailColon 's' (strL "ch_from::") hs t rest hwf rfl)
      m hm' t0 h0 _ hits4
      (hbrColon 's' (strL "ch_from::") _ (by rcases hm with rfl | rfl <;> rfl))
    rw [h1, filter_constFalse]
  rw [hpass3]
  have hpass4 : stripAll (mColonTag (strL "[sch_to::"))
      (taskLine m t0 ((items.filter (fun it => !selTag (fun t => tagKind t == 3) it)).filter
        (fun it => !selTag (fun t => tagKind t == 4) it)))
      = taskLine m t0
          ((items.filter (fun it => !selTag (fun t => tagKind t == 3) it)).filter
            (fun it => !selTag (fun t => tagKind t == 4) it)) := by
    have h1 := stripAll_taskLine (mColonTag (strL "[sch_to::")) (mColonTag_shrinks _)
      (fun x hx => mColonTag_none_of_noStart (strL "[sch_to::") ('s' :: strL "ch_to::")
        rfl x hx)
      (fun a x ha => mColonTag_cons_ws _ a x ha)
      (fun _ => false) (fun t rest _ hsel => by simp at hsel)
      (fun t rest hwf _ => hfailColon 's' (strL "ch_to::") hs t rest hwf rfl)
      m hm' t0 h0 _ hits4
      (hbrColon 's' (strL "ch_to::") _ (by rcases hm with rfl | rfl <;> rfl))
    rw [h1, filter_constFalse]
  rw [hpass4]
  have hpass5 : stripAll mEmojiLink
      (taskLine m t0 ((items.filter (fun it => !selTag (fun t => tagKind t == 3) it)).filter
        (fun it => !selTag (fun t => tagKind t == 4) it)))
      = taskLine m t0
          ((items.filter (fun it => !selTag (fun t => tagKind t == 3) it)).filter
            (fun it => !selTag (fun t => tagKind t == 4) it)) := by
    have h1 := stripAll_taskLine mEmojiLink mEmojiLink_shrinks
      (fun x hx => mEmojiLink_none_of_noStart x hx)
      (fun a x ha => mEmojiLink_cons_ws a x ha)
      (fun _ => false) (fun t rest _ hsel => by simp at hsel)
      (fun t rest hwf _ => failsOn_mEmojiLink_tag t rest hwf)
      m hm' t0 h0 _ hits4 (mEmojiLink_none_bracket _)
    rw [h1, filter_constFalse]
  rw [hpass5]
  have hpass6 : stripAll mEmojiDate
      (taskLine m t0 ((items.filter (fun it => !selTag (fun t => tagKind t == 3) it)).filter
        (fun it => !selTag (fun t => tagKind t == 4) it)))
      = taskLine m t0
          ((items.filter (fun it => !selTag (fun t => tagKind t == 3) it)).filter
            (fun it => !selTag (fun t => tagKind t == 4) it)) := by
    have h1 := stripAll_taskLine mEmojiDate mEmojiDate_shrinks
      (fun x hx => mEmojiDate_none_of_noStart x hx)
      (fun a x ha => mEmojiDate_cons_ws a x ha)
      (fun _ => false) (fun t rest _ hsel => by simp at hsel)
      (fun t rest hwf _ => failsOn_mEmojiDate_tag t rest hwf)
      m hm' t0 h0 _ hits4 (mEmojiDate_none_bracket _)
    rw [h1, filter_constFalse]
  rw [hpass6]

theorem extractId_taskLine (m : Char) (hneq : (('i' : Char) == m) = false)
    (hm : (m == '[') = false) (t0 : Str) (items : List MItem)
    (h0 : wfText t0 = true) (hits : ∀ it ∈ items, wfItem it = true) :
    TaskUtils.extractId (taskLine m t0 items)
      = (((itemsTags items).find? (fun t => tagKind t == 0)).map tagVal).map trimStr := by
  rw [TaskUtils.extractId]
  have h1 : TaskUtils.findCapture (strL "[id::") (taskLine m t0 items)
      = ((itemsTags items).find? (fun t => tagKind t == 0)).map tagVal := by
    show TaskUtils.findCapture ('[' :: 'i' :: strL "d::")
      (['-', ' ', '[', m, ']', ' '] ++ (t0 ++ renderItems items)) = _
    rw [findCapture_taskPrefix 'i' (strL "d::") m hneq hm]
    exact findCap_id t0 items h0 hits
  rw [h1]

theorem extractSchedTo_taskLine (m : Char) (hm : m = ' ' ∨ m = '>')
    (t0 : Str) (items : List MItem)
    (h0 : wfText t0 = true) (hits : ∀ it ∈ items, wfItem it = true) :
    TaskScheduler.extractScheduledToDate (taskLine m t0 items)
      = ((itemsTags items).find? (fun t => tagKind t == 4)).map tagVal := by
  rw [TaskScheduler.extractScheduledToDate]
  have h1 : findSchedCapture '>' (taskLine m t0 items)
      = findSchedCapture '>' (t0 ++ renderItems items) := by
    show findSchedCapture '>' (['-', ' ', '[', m, ']', ' ']
      ++ (t0 ++ renderItems items)) = _
    rcases hm with rfl | rfl
    · exact findSchedCapture_taskPrefix_neq '>' ' ' (by decide) (by decide) _
    · exact findSchedCapture_taskPrefix_eq '>' (by decide) _
  rw [h1]
  exact findCap_to t0 items h0 hits

theorem strip_parent_taskLine (m : Char) (hm : m = ' ' ∨ m = '>')
    (t0 : Str) (h0 : wfText t0 = true) (items : List MItem)
    (hits : ∀ it ∈ items, wfItem it = true) :
    stripAll (mColonTag (strL "[parent::")) (taskLine m t0 items)
      = taskLine m t0 (items.filter (fun it => !selTag (fun t => tagKind t == 1) it)) := by
  have hm' : m = ' ' ∨ (isWs m = false ∧ cleanChar m = true) := by
    rcases hm with rfl | rfl
    · exact Or.inl rfl
    · exact Or.inr ⟨by decide, by decide⟩
  refine stripAll_taskLine (mColonTag (strL "[parent::")) (mColonTag_shrinks _)
    (fun x hx => mColonTag_none_of_noStart (strL "[parent::") ('p' :: strL "arent::") rfl x hx)
    (fun a x ha => mColonTag_cons_ws _ a x ha)
    (fun t => tagKind t == 1) ?_ ?_ m hm' t0 h0 items hits ?_
  · intro t rest hwf hsel
    cases t with
    | parentT v =>
      show mColonTag (strL "[parent::") (' ' :: (renderTag (MTag.parentT v) ++ rest))
        = some rest
      rw [mColonTag_cons_ws _ ' ' _ (by decide)]
      exact mColonTag_match ('p' :: strL "arent::") v rest hwf
    | idT v => simp [tagKind] at hsel
    | uidT v => simp [tagKind] at hsel
    | fromT d => simp [tagKind] at hsel
    | toT d => simp [tagKind] at hsel
  · intro t rest hwf hsel
    refine failsOn_mColonTag_other 'p' (strL "arent::") t rest hwf ?_
    cases t with
    | parentT v => simp [tagKind] at hsel
    | idT v => rfl
    | uidT v => rfl
    | fromT d => rfl
    | toT d => rfl
  · refine mColonTag_none_mismatch2 'p' (strL "arent::") m _ ?_
    rcases hm with rfl | rfl
    · rfl
    · rfl

theorem markTaskAsScheduled_taskLine (t0 : Str) (items : List MItem) (toDate : Str)
    (h0 : wfText t0 = true) (hits : ∀ it ∈ items, wfItem it = true)
    (hnd : isDig (t0.headD ' ') = false) :
    TaskScheduler.markTaskAsScheduled (taskLine ' ' t0 items) toDate
      = taskLine '>' t0
          (((items.filter (fun it => !selTag (fun t => tagKind t == 3) it)).filter
              (fun it => !selTag (fun t => tagKind t == 4) it))
            ++ [MItem.tag (MTag.toT toDate)]) := by
  rw [TaskScheduler.markTaskAsScheduled]
  rw [setMarkerAny_taskLine '>' ' ' t0 items (by decide)]
  rw [stripTimeBlock_taskLine '>' t0 items h0 hnd]
  rw [removeSchedulingTags_taskLine '>' (Or.inr rfl) t0 h0 items hits]
  have hits34 : ∀ it ∈ (items.filter (fun it => !selTag (fun t => tagKind t == 3) it)).filter
      (fun it => !selTag (fun t => tagKind t == 4) it), wfItem it = true :=
    fun it hx => hits it (List.mem_of_mem_filter (List.mem_of_mem_filter hx))
  rw [trimEndStr_taskLine '>' t0 _ h0 hits34]
  rw [taskLine_snoc_tag]
  simp [renderTag, List.append_assoc, strL]

theorem createScheduledTaskCopy_taskLine (t0 : Str) (items : List MItem) (fromDate : Str)
    (h0 : wfText t0 = true) (hits : ∀ it ∈ items, wfItem it = true) :
    TaskScheduler.createScheduledTaskCopy (taskLine ' ' t0 items) fromDate
      = taskLine ' ' t0
          ((((items.filter (fun it => !selTag (fun t => tagKind t == 3) it)).filter
              (fun it => !selTag (fun t => tagKind t == 4) it)).filter
              (fun it => !selTag (fun t => tagKind t == 1) it))
            ++ [MItem.tag (MTag.fromT fromDate)]) := by
  rw [TaskScheduler.createScheduledTaskCopy]
  rw [setMarkerAny_taskLine ' ' ' ' t0 items (by decide)]
  rw [removeSchedulingTags_taskLine ' ' (Or.inl rfl) t0 h0 items hits]
  have hits34 : ∀ it ∈ (items.filter (fun it => !selTag (fun t => tagKind t == 3) it)).filter
      (fun it => !selTag (fun t => tagKind t == 4) it), wfItem it = true :=
    fun it hx => hits it (List.mem_of_mem_filter (List.mem_of_mem_filter hx))
  rw [strip_parent_taskLine ' ' (Or.inl rfl) t0 h0 _ hits34]
  have hits341 : ∀ it ∈ ((items.filter (fun it => !selTag (fun t => tagKind t == 3) it)).filter
      (fun it => !selTag (fun t => tagKind t == 4) it)).filter
      (fun it => !selTag (fun t => tagKind t == 1) it), wfItem it = true :=
    fun it hx => hits34 it (List.mem_of_mem_filter hx)
  rw [trimEndStr_taskLine ' ' t0 _ h0 hits341]
  rw [taskLine_snoc_tag]
  simp [renderTag, List.append_assoc, strL]

theorem resetScheduledTask_taskLine (t0 : Str) (items : List MItem)
    (h0 : wfText t0 = true) (hits : ∀ it ∈ items, wfItem it = true) :
    TaskScheduler.resetScheduledTask (taskLine '>' t0 items)
      = taskLine ' ' t0
          ((items.filter (fun it => !selTag (fun t => tagKind t == 3) it)).filter
            (fun it => !selTag (fun t => tagKind t == 4) it)) := by
  rw [TaskScheduler.resetScheduledTask]
  rw [setMarkerFrom_taskLine_eq '>' ' ' t0 items]
  exact removeSchedulingTags_taskLine ' ' (Or.inl rfl) t0 h0 items hits

theorem splitLinesGo_shape (s : Str) : ∀ cur, ∃ h t, splitLinesGo cur s = h :: t := by
  induction s with
  | nil => intro cur; exact ⟨cur.reverse, [], rfl⟩
  | cons c s ih =>
    intro cur
    rw [splitLinesGo]
    by_cases hc : (c == '\n') = true
    · rw [if_pos hc]
      exact ⟨cur.reverse, splitLinesGo [] s, rfl⟩
    · rw [if_neg hc]
      exact ih (c :: cur)

theorem joinLines_splitLinesGo (s : Str) : ∀ cur, joinLines (splitLinesGo cur s) = cur.reverse ++ s := by
  induction s with
  | nil =>
    intro cur
    show joinLines [cur.reverse] = _
    simp [joinLines]
  | cons c s ih =>
    intro cur
    rw [splitLinesGo]
    by_cases hc : (c == '\n') = true
    · rw [if_pos hc]
      obtain ⟨h, t, hs⟩ := splitLinesGo_shape s []
      rw [hs]
      show cur.reverse ++ '\n' :: joinLines (h :: t) = _
      rw [← hs, ih []]
      have : c = '\n' := by simpa using hc
      simp [this]
    · rw [if_neg hc, ih (c :: cur)]
      simp

theorem joinLines_splitLines (s : Str) : joinLines (splitLines s) = s := by
  rw [splitLines, joinLines_splitLinesGo]
  rfl

theorem itemsTags_append (xs ys : List MItem) :
    itemsTags (xs ++ ys) = itemsTags xs ++ itemsTags ys := by
  induction xs with
  | nil => rfl
  | cons it its ih =>
    cases it with
    | tag t => rw [List.cons_append, itemsTags, itemsTags, ih]; rfl
    | txt s => rw [List.cons_append, itemsTags, itemsTags, ih]

theorem mem_of_mem_itemsTags (t : MTag) : ∀ xs : List MItem,
    t ∈ itemsTags xs → MItem.tag t ∈ xs := by
  intro xs
  induction xs with
  | nil => intro h; exact absurd h (by simp [itemsTags])
  | cons it its ih =>
    intro h
    cases it with
    | tag u =>
      rw [itemsTags] at h
      rcases List.mem_cons.mp h with rfl | h2
      · exact List.mem_cons_self _ _
      · exact List.mem_cons_of_mem _ (ih h2)
    | txt s =>
      rw [itemsTags] at h
      exact List.mem_cons_of_mem _ (ih h)

theorem find?_append_none (p : α → Bool) (l1 l2 : List α)
    (h : ∀ x ∈ l1, p x = false) : (l1 ++ l2).find? p = l2.find? p := by
  induction l1 with
  | nil => rfl
  | cons x xs ih =>
    rw [List.cons_append, List.find?_cons, h x (by simp)]
    exact ih (fun y hy => h y (List.mem_cons_of_mem _ hy))

theorem take_append_length (pre post : List Str) :
    (pre ++ post).take pre.length = pre := by
  induction pre with
  | nil => rfl
  | cons p pre ih => simpa using ih

theorem trimEndStr_length_le (s : Str) : (trimEndStr s).length ≤ s.length := by
  rw [trimEndStr, List.length_reverse]
  calc (List.dropWhile isWs s.reverse).length ≤ s.reverse.length := dropWhile_length_le _ _
    _ = s.length := List.length_reverse s

theorem trimStr_head_nonws (c : Char) (r : Str) (h : trimStr (c :: r) = c :: r) :
    isWs c = false := by
  by_contra hc
  have hc' : isWs c = true := by simpa using hc
  have h1 : List.dropWhile isWs (c :: r) = List.dropWhile isWs r := by
    rw [List.dropWhile_cons, if_pos hc']
  have h2 : (trimStr (c :: r)).length ≤ r.length := by
    rw [trimStr, h1]
    calc (trimEndStr (List.dropWhile isWs r)).length
        ≤ (List.dropWhile isWs r).length := trimEndStr_length_le _
      _ ≤ r.length := dropWhile_length_le _ _
  rw [h] at h2
  simp at h2

theorem hasIdTag_own (tid w : Str) (c : Char) (r : Str) (htid : tid = c :: r)
    (hc : isWs c = false) : hasIdTag tid (strL "[id::" ++ (tid ++ ']' :: w)) = true := by
  show hasIdTag tid ('[' :: strL "id::" ++ (tid ++ ']' :: w)) = true
  rw [List.cons_append, hasIdTag]
  have h1 : mIdTagAt tid ('[' :: (strL "id::" ++ (tid ++ ']' :: w))) = some w := by
    have hd : dropLit (strL "[id::") ('[' :: (strL "id::" ++ (tid ++ ']' :: w)))
        = some (tid ++ ']' :: w) := dropLit_pref _ _
    have hdw : List.dropWhile isWs (tid ++ ']' :: w) = tid ++ ']' :: w := by
      rw [htid, List.cons_append, List.dropWhile_cons, if_neg (by simp [hc])]
    have hd2 : dropLit tid (List.dropWhile isWs (tid ++ ']' :: w)) = some (']' :: w) := by
      rw [hdw]; exact dropLit_pref _ _
    rw [mIdTagAt, hd]
    simp only []
    rw [hd2]
    simp only []
  rw [h1]
  simp

theorem hasIdTag_taskLine (m : Char) (t0 tid : Str) (items : List MItem)
    (hmem : MItem.tag (MTag.idT tid) ∈ items) (c : Char) (r : Str)
    (htid : tid = c :: r) (hc : isWs c = false) :
    hasIdTag tid (taskLine m t0 items) = true := by
  obtain ⟨u', v', he⟩ := List.append_of_mem hmem
  subst he
  rw [taskLine]
  have h2 : renderItems (u' ++ MItem.tag (MTag.idT tid) :: v')
      = renderItems u' ++ (' ' :: (strL "[id::" ++ (tid ++ ']' :: renderItems v'))) := by
    have h3 : MItem.tag (MTag.idT tid) :: v' = [MItem.tag (MTag.idT tid)] ++ v' := rfl
    rw [h3, renderItems_append, renderItems_append]
    simp [renderItems, renderMItem, renderTag, List.append_assoc]
  rw [h2]
  have hgoal : hasIdTag tid (strL "[id::" ++ (tid ++ ']' :: renderItems v')) = true :=
    hasIdTag_own tid (renderItems v') c r htid hc
  have := hasIdTag_append_right tid
    ('-' :: ' ' :: '[' :: m :: ']' :: ' ' :: (t0 ++ (renderItems u' ++ [' '])))
    (strL "[id::" ++ (tid ++ ']' :: renderItems v')) hgoal
  simpa [List.append_assoc] using this

theorem no_nl_taskLine (m : Char) (t0 : Str) (items : List MItem)
    (hmnl : m ≠ '\n') (h0 : wfText t0 = true) (hits : ∀ it ∈ items, wfItem it = true) :
    ∀ c ∈ taskLine m t0 items, c ≠ '\n' := by
  intro c hc
  rw [taskLine] at hc
  simp only [List.mem_cons] at hc
  rcases hc with rfl | rfl | rfl | rfl | rfl | rfl | hc
  · decide
  · decide
  · decide
  · exact hmnl
  · decide
  · decide
  · rcases List.mem_append.mp hc with h1 | h1
    · have hall : t0.all cleanChar = true := by
        rw [wfText] at h0
        simp only [Bool.and_eq_true] at h0
        exact h0.1.1.2
      have := List.all_eq_true.mp hall c h1
      intro he
      rw [he] at this
      exact absurd this (by decide)
    · exact no_nl_renderItems items hits c h1

theorem markTail_not_sub (f : Str → Str) (post : List Str)
    (hpost : ∀ l ls, post = l :: ls → TaskUtils.isSubtask l = false) :
    TaskScheduler.markTail f post = post := by
  cases post with
  | nil => rfl
  | cons l ls =>
    rw [TaskScheduler.markTail, if_neg (by simp [hpost l ls rfl])]

/-- C1 (amended): scheduling a task line with an id from date D1 to D2 and
then unscheduling the resulting marked line restores the source document
exactly, provided the line carries no leading time block, no pre-existing
scheduling tags, and the following line is not a subtask; the copy appended
to D2's document is removed again, leaving D2 equal to its original content
up to end-trimming and blank-run collapsing.  (The original claim's
time-block preservation fails: see the counterexample.) -/
theorem C1_roundtrip_amended
    (pre post : List Str) (t0 tid : Str) (preI postI : List MItem)
    (items : List MItem) (hitems : items = preI ++ MItem.tag (MTag.idT tid) :: postI)
    (fromDate targetDate c2 : Str)
    (h0 : wfText t0 = true)
    (hnd : isDig (t0.headD ' ') = false)
    (hits : ∀ it ∈ items, wfItem it = true)
    (hpre0 : ∀ t, MItem.tag t ∈ preI → (tagKind t == 0) = false)
    (hno34 : ∀ t, MItem.tag t ∈ items →
      (tagKind t == 3) = false ∧ (tagKind t == 4) = false)
    (htid : trimStr tid = tid) (c : Char) (r : Str) (htc : tid = c :: r)
    (hpost : ∀ l ls, post = l :: ls → TaskUtils.isSubtask l = false)
    (hdup : containsSub (strL "[> " ++ targetDate ++ [']'])
      (taskLine ' ' t0 items) = false)
    (hc2 : hasIdTag tid c2 = false)
    (hlines : ∀ l ∈ splitLines (trimEndStr c2), hasIdTag tid l = false)
    (htd : wfDate targetDate = true) (hfd : wfDate fromDate = true) :
    TaskScheduler.scheduleTask (pre ++ taskLine ' ' t0 items :: post) pre.length
        fromDate targetDate c2
      = some (pre ++ taskLine '>' t0 (items ++ [MItem.tag (MTag.toT targetDate)]) :: post,
          trimEndStr c2 ++ '\n' ::
            taskLine ' ' t0 (items.filter (fun it => !selTag (fun t => tagKind t == 1) it)
              ++ [MItem.tag (MTag.fromT fromDate)]))
    ∧ ∀ lookup : Str → Option Str,
        lookup targetDate = some (trimEndStr c2 ++ '\n' ::
          taskLine ' ' t0 (items.filter (fun it => !selTag (fun t => tagKind t == 1) it)
            ++ [MItem.tag (MTag.fromT fromDate)])) →
        TaskScheduler.unscheduleTask
            (pre ++ taskLine '>' t0 (items ++ [MItem.tag (MTag.toT targetDate)]) :: post)
            pre.length lookup
          = some (pre ++ taskLine ' ' t0 items :: post,
              some (targetDate, trimEndStr (TaskScheduler.collapseBlankRuns (trimEndStr c2)))) := by
  subst hitems
  have hc : isWs c = false := by
    refine trimStr_head_nonws c r ?_
    rw [← htc]
    exact htid
  have hpreTags : ∀ x ∈ itemsTags preI, (fun t => tagKind t == 0) x = false :=
    fun x hx => hpre0 x (mem_of_mem_itemsTags x preI hx)
  have hiT : (itemsTags (preI ++ MItem.tag (MTag.idT tid) :: postI)).find?
      (fun t => tagKind t == 0) = some (MTag.idT tid) := by
    rw [itemsTags_append, find?_append_none _ _ _ hpreTags]
    show (MTag.idT tid :: itemsTags postI).find? (fun t => tagKind t == 0) = _
    exact List.find?_cons_of_pos _ rfl
  have hEid : TaskUtils.extractId (taskLine ' ' t0 (preI ++ MItem.tag (MTag.idT tid) :: postI))
      = some tid := by
    rw [extractId_taskLine ' ' (by decide) (by decide) t0 _ h0 hits, hiT]
    simp [tagVal, htid]
  have hf3 : (preI ++ MItem.tag (MTag.idT tid) :: postI).filter
      (fun it => !selTag (fun t => tagKind t == 3) it)
      = preI ++ MItem.tag (MTag.idT tid) :: postI :=
    filter_notSel_eq_self _ _ (fun t ht => (hno34 t ht).1)
  have hf4 : (preI ++ MItem.tag (MTag.idT tid) :: postI).filter
      (fun it => !selTag (fun t => tagKind t == 4) it)
      = preI ++ MItem.tag (MTag.idT tid) :: postI :=
    filter_notSel_eq_self _ _ (fun t ht => (hno34 t ht).2)
  have hmark : TaskScheduler.markTaskAsScheduled
      (taskLine ' ' t0 (preI ++ MItem.tag (MTag.idT tid) :: postI)) targetDate
      = taskLine '>' t0 ((preI ++ MItem.tag (MTag.idT tid) :: postI)
          ++ [MItem.tag (MTag.toT targetDate)]) := by
    rw [markTaskAsScheduled_taskLine t0 _ targetDate h0 hits hnd, hf3, hf4]
  have hcopy : TaskScheduler.createScheduledTaskCopy
      (taskLine ' ' t0 (preI ++ MItem.tag (MTag.idT tid) :: postI)) fromDate
      = taskLine ' ' t0 ((preI ++ MItem.tag (MTag.idT tid) :: postI).filter
          (fun it => !selTag (fun t => tagKind t == 1) it)
          ++ [MItem.tag (MTag.fromT fromDate)]) := by
    rw [createScheduledTaskCopy_taskLine t0 _ fromDate h0 hits, hf3, hf4]
  constructor
  · rw [TaskScheduler.scheduleTask]
    simp only [getD_append_length]
    rw [isTask_taskLine, hdup, hEid]
    simp only []
    rw [hc2]
    simp only [Bool.not_true, Bool.false_eq_true, if_false]
    rw [hmark, set_append_length, TaskScheduler.appendScheduledCopy, hcopy]
    rw [take_append_length_succ, drop_append_length_succ, markTail_not_sub _ post hpost]
    rw [List.append_assoc]
    rfl
  · intro lookup hlk
    have hitsM : ∀ it ∈ (preI ++ MItem.tag (MTag.idT tid) :: postI)
        ++ [MItem.tag (MTag.toT targetDate)], wfItem it = true := by
      intro it hit
      rcases List.mem_append.mp hit with h1 | h1
      · exact hits it h1
      · simp at h1; subst h1; exact htd
    have hfail4 : ∀ x ∈ itemsTags (preI ++ MItem.tag (MTag.idT tid) :: postI),
        (fun t => tagKind t == 4) x = false :=
      fun x hx => (hno34 x (mem_of_mem_itemsTags x _ hx)).2
    have hto : TaskScheduler.extractScheduledToDate
        (taskLine '>' t0 ((preI ++ MItem.tag (MTag.idT tid) :: postI)
          ++ [MItem.tag (MTag.toT targetDate)])) = some targetDate := by
      rw [extractSchedTo_taskLine '>' (Or.inr rfl) t0 _ h0 hitsM, itemsTags_append,
        find?_append_none _ _ _ hfail4]
      show (((MTag.toT targetDate :: itemsTags []).find?
        (fun t => tagKind t == 4)).map tagVal) = some targetDate
      rw [List.find?_cons_of_pos _ rfl]
      rfl
    have hiT2 : (itemsTags ((preI ++ MItem.tag (MTag.idT tid) :: postI)
        ++ [MItem.tag (MTag.toT targetDate)])).find?
        (fun t => tagKind t == 0) = some (MTag.idT tid) := by
      rw [itemsTags_append, itemsTags_append, List.append_assoc,
        find?_append_none _ _ _ hpreTags]
      show (MTag.idT tid :: (itemsTags postI
        ++ itemsTags [MItem.tag (MTag.toT targetDate)])).find? (fun t => tagKind t == 0) = _
      exact List.find?_cons_of_pos _ rfl
    have hEid2 : TaskUtils.extractId
        (taskLine '>' t0 ((preI ++ MItem.tag (MTag.idT tid) :: postI)
          ++ [MItem.tag (MTag.toT targetDate)])) = some tid := by
      rw [extractId_taskLine '>' (by decide) (by decide) t0 _ h0 hitsM, hiT2]
      simp [tagVal, htid]
    have hreset : TaskScheduler.resetScheduledTask
        (taskLine '>' t0 ((preI ++ MItem.tag (MTag.idT tid) :: postI)
          ++ [MItem.tag (MTag.toT targetDate)]))
        = taskLine ' ' t0 (preI ++ MItem.tag (MTag.idT tid) :: postI) := by
      rw [resetScheduledTask_taskLine t0 _ h0 hitsM]
      rw [List.filter_append, hf3, List.filter_append, hf4]
      simp [selTag, tagKind]
    have hitsC : ∀ it ∈ (preI ++ MItem.tag (MTag.idT tid) :: postI).filter
        (fun it => !selTag (fun t => tagKind t == 1) it)
        ++ [MItem.tag (MTag.fromT fromDate)], wfItem it = true := by
      intro it hit
      rcases List.mem_append.mp hit with h1 | h1
      · exact hits it (List.mem_of_mem_filter h1)
      · simp at h1; subst h1; exact hfd
    have hnlcopy : ∀ ch ∈ taskLine ' ' t0
        ((preI ++ MItem.tag (MTag.idT tid) :: postI).filter
          (fun it => !selTag (fun t => tagKind t == 1) it)
          ++ [MItem.tag (MTag.fromT fromDate)]), ch ≠ '\n' :=
      no_nl_taskLine ' ' t0 _ (by decide) h0 hitsC
    have hmemI : MItem.tag (MTag.idT tid) ∈ preI ++ MItem.tag (MTag.idT tid) :: postI :=
      List.mem_append_right _ (List.mem_cons_self _ _)
    have hmemC : MItem.tag (MTag.idT tid) ∈ (preI ++ MItem.tag (MTag.idT tid) :: postI).filter
        (fun it => !selTag (fun t => tagKind t == 1) it)
        ++ [MItem.tag (MTag.fromT fromDate)] :=
      List.mem_append_left _ (List.mem_filter.mpr ⟨hmemI, rfl⟩)
    have hhasid : hasIdTag tid (taskLine ' ' t0
        ((preI ++ MItem.tag (MTag.idT tid) :: postI).filter
          (fun it => !selTag (fun t => tagKind t == 1) it)
          ++ [MItem.tag (MTag.fromT fromDate)])) = true :=
      hasIdTag_taskLine ' ' t0 tid _ hmemC c r htc hc
    have hdel : TaskScheduler.deleteFromTarget tid (trimEndStr c2 ++ '\n' ::
        taskLine ' ' t0 ((preI ++ MItem.tag (MTag.idT tid) :: postI).filter
          (fun it => !selTag (fun t => tagKind t == 1) it)
          ++ [MItem.tag (MTag.fromT fromDate)]))
        = some (trimEndStr (TaskScheduler.collapseBlankRuns (trimEndStr c2))) := by
      rw [TaskScheduler.deleteFromTarget]
      have hsplit : splitLines (trimEndStr c2 ++ '\n' ::
          taskLine ' ' t0 ((preI ++ MItem.tag (MTag.idT tid) :: postI).filter
            (fun it => !selTag (fun t => tagKind t == 1) it)
            ++ [MItem.tag (MTag.fromT fromDate)]))
          = splitLines (trimEndStr c2) ++ [taskLine ' ' t0
              ((preI ++ MItem.tag (MTag.idT tid) :: postI).filter
                (fun it => !selTag (fun t => tagKind t == 1) it)
                ++ [MItem.tag (MTag.fromT fromDate)])] := by
        rw [splitLines_append_nl, splitLines_no_nl _ hnlcopy]
      rw [hsplit]
      have hfind : List.findIdx? (hasIdTag tid) (splitLines (trimEndStr c2)
          ++ [taskLine ' ' t0 ((preI ++ MItem.tag (MTag.idT tid) :: postI).filter
            (fun it => !selTag (fun t => tagKind t == 1) it)
            ++ [MItem.tag (MTag.fromT fromDate)])])
          = some (splitLines (trimEndStr c2)).length := by
        have h9 := findIdx?_append_singleton (hasIdTag tid) (splitLines (trimEndStr c2))
          _ hlines hhasid 0
        simpa using h9
      rw [hfind]
      simp only []
      have hdrop : (splitLines (trimEndStr c2) ++ [taskLine ' ' t0
          ((preI ++ MItem.tag (MTag.idT tid) :: postI).filter
            (fun it => !selTag (fun t => tagKind t == 1) it)
            ++ [MItem.tag (MTag.fromT fromDate)])]).drop
          ((splitLines (trimEndStr c2)).length + 1) = [] :=
        drop_append_length_succ _ _ []
      rw [hdrop]
      have hsub : TaskScheduler.subRunLen [] = 0 := rfl
      rw [hsub]
      simp only [Nat.add_zero]
      rw [take_append_length, hdrop, List.append_nil, joinLines_splitLines]
    rw [TaskScheduler.unscheduleTask]
    simp only [getD_append_length]
    rw [isTask_taskLine, hto]
    simp only [Option.isNone_some, Bool.not_true, Bool.false_and, Bool.false_eq_true, if_false]
    rw [hEid2]
    simp only []
    rw [hlk]
    simp only []
    rw [hdel, hreset, set_append_length]
    rw [take_append_length_succ, drop_append_length_succ, markTail_not_sub _ post hpost]
    rw [List.append_assoc]
    rfl

theorem C1_roundtrip_amended_witness :
    TaskScheduler.scheduleTask
        [taskLine ' ' (strL "Call") [MItem.tag (MTag.idT (strL "t-xy"))]] 0
        (strL "2025-01-10") (strL "2025-01-12") (strL "- [ ] Other")
      = some ([taskLine '>' (strL "Call")
            ([MItem.tag (MTag.idT (strL "t-xy"))]
              ++ [MItem.tag (MTag.toT (strL "2025-01-12"))])],
          trimEndStr (strL "- [ ] Other") ++ '\n' ::
            taskLine ' ' (strL "Call")
              ([MItem.tag (MTag.idT (strL "t-xy"))].filter
                  (fun it => !selTag (fun t => tagKind t == 1) it)
                ++ [MItem.tag (MTag.fromT (strL "2025-01-10"))]))
    ∧ TaskScheduler.unscheduleTask
        [taskLine '>' (strL "Call")
          ([MItem.tag (MTag.idT (strL "t-xy"))]
            ++ [MItem.tag (MTag.toT (strL "2025-01-12"))])] 0
        (fun _ => some (trimEndStr (strL "- [ ] Other") ++ '\n' ::
          taskLine ' ' (strL "Call")
            ([MItem.tag (MTag.idT (strL "t-xy"))].filter
                (fun it => !selTag (fun t => tagKind t == 1) it)
              ++ [MItem.tag (MTag.fromT (strL "2025-01-10"))])))
      = some ([taskLine ' ' (strL "Call") [MItem.tag (MTag.idT (strL "t-xy"))]],
          some (strL "2025-01-12",
            trimEndStr (TaskScheduler.collapseBlankRuns
              (trimEndStr (strL "- [ ] Other"))))) := by
  have h := C1_roundtrip_amended [] [] (strL "Call") (strL "t-xy") [] []
    [MItem.tag (MTag.idT (strL "t-xy"))] rfl
    (strL "2025-01-10") (strL "2025-01-12") (strL "- [ ] Other")
    (by decide) (by decide) (by decide)
    (fun t ht => absurd ht (List.not_mem_nil _))
    (by intro t ht
        simp at ht
        subst ht
        exact ⟨rfl, rfl⟩)
    (by decide) 't' (strL "-xy") (by decide)
    (fun l ls h => List.noConfusion h)
    (by decide) (by decide) (by decide) (by decide) (by decide)
  exact ⟨h.1, h.2 _ rfl⟩

theorem dropLit_mono : ∀ (l s r ext : Str), dropLit l s = some r →
    dropLit l (s ++ ext) = some (r ++ ext) := by
  intro l
  induction l with
  | nil =>
    intro s r ext h
    rw [dropLit] at h ⊢
    cases h
    rfl
  | cons a l ih =>
    intro s r ext h
    cases s with
    | nil => exact absurd h (by rw [dropLit]; simp)
    | cons b s =>
      rw [dropLit] at h
      rw [List.cons_append, dropLit]
      by_cases hab : (a == b) = true
      · rw [if_pos hab] at h
        rw [if_pos hab]
        exact ih s r ext h
      · rw [if_neg hab] at h
        exact absurd h (by simp)

theorem dropWhile_append_head (p : Char → Bool) : ∀ (s : Str) (a : Char) (rest ext : Str),
    List.dropWhile p s = a :: rest →
    List.dropWhile p (s ++ ext) = a :: (rest ++ ext) := by
  intro s
  induction s with
  | nil => intro a rest ext h; exact absurd h (by simp)
  | cons b s ih =>
    intro a rest ext h
    rw [List.dropWhile_cons] at h
    rw [List.cons_append, List.dropWhile_cons]
    by_cases hb : p b = true
    · rw [if_pos hb] at h
      rw [if_pos hb]
      exact ih a rest ext h
    · rw [if_neg hb] at h
      rw [if_neg hb]
      cases h
      rfl

theorem mIdTagAt_mono (tid : Str) (c : Char) (r : Str) (htc : tid = c :: r)
    (s w ext : Str) (h : mIdTagAt tid s = some w) :
    mIdTagAt tid (s ++ ext) = some (w ++ ext) := by
  rw [mIdTagAt] at h
  split at h
  · exact absurd h (by simp)
  next r1 heq1 =>
    split at h
    next r2 heq2 =>
      cases h
      have hne : List.dropWhile isWs r1 ≠ [] := by
        intro hnil
        rw [hnil, htc, dropLit] at heq2
        exact absurd heq2 (by simp)
      obtain ⟨x0, xr, hX⟩ : ∃ x0 xr, List.dropWhile isWs r1 = x0 :: xr := by
        cases hC : List.dropWhile isWs r1 with
        | nil => exact absurd hC hne
        | cons x0 xr => exact ⟨x0, xr, rfl⟩
      have dm1 : dropLit (strL "[id::") (s ++ ext) = some (r1 ++ ext) :=
        dropLit_mono _ s r1 ext heq1
      have dw : List.dropWhile isWs (r1 ++ ext) = x0 :: (xr ++ ext) :=
        dropWhile_append_head isWs r1 x0 xr ext hX
      have dm2 : dropLit tid (List.dropWhile isWs r1 ++ ext) = some ((']' :: w) ++ ext) :=
        dropLit_mono _ _ _ ext heq2
      rw [hX] at dm2
      have dm2' : dropLit tid (x0 :: (xr ++ ext)) = some (']' :: (w ++ ext)) := by
        simpa using dm2
      rw [mIdTagAt, dm1]
      simp only []
      rw [dw, dm2']
      simp only []
    next heq2 =>
      exact absurd h (by simp)

theorem hasIdTag_mono_right (tid : Str) (c : Char) (r : Str) (htc : tid = c :: r) :
    ∀ (s ext : Str), hasIdTag tid s = true → hasIdTag tid (s ++ ext) = true := by
  intro s
  induction s with
  | nil => intro ext h; exact absurd h (by rw [hasIdTag]; simp)
  | cons b s ih =>
    intro ext h
    rw [hasIdTag] at h
    rw [List.cons_append, hasIdTag]
    rcases Bool.or_eq_true_iff.mp h with h1 | h1
    · cases hm : mIdTagAt tid (b :: s) with
      | none => rw [hm] at h1; exact absurd h1 (by simp)
      | some w =>
        have := mIdTagAt_mono tid c r htc (b :: s) w ext hm
        rw [show (b :: s) ++ ext = b :: (s ++ ext) from rfl] at this
        rw [this]
        simp
    · rw [ih ext h1]
      simp

theorem joinLines_decomp : ∀ (xs : List Str) (y : Str) (ys : List Str),
    ∃ u v, joinLines (xs ++ y :: ys) = u ++ (y ++ v) := by
  intro xs
  induction xs with
  | nil =>
    intro y ys
    cases ys with
    | nil => exact ⟨[], [], by simp [joinLines]⟩
    | cons z zs =>
      refine ⟨[], '\n' :: joinLines (z :: zs), ?_⟩
      show joinLines (y :: z :: zs) = _
      show y ++ '\n' :: joinLines (z :: zs) = _
      simp
  | cons x xs ih =>
    intro y ys
    obtain ⟨u, v, hu⟩ := ih y ys
    refine ⟨x ++ '\n' :: u, v, ?_⟩
    have hne : ∃ h t, xs ++ y :: ys = h :: t := by
      cases xs with
      | nil => exact ⟨y, ys, rfl⟩
      | cons a b => exact ⟨a, b ++ y :: ys, rfl⟩
    obtain ⟨h, t, hht⟩ := hne
    show joinLines (x :: (xs ++ y :: ys)) = _
    rw [hht]
    show x ++ '\n' :: joinLines (h :: t) = _
    rw [← hht, hu]
    simp

theorem mapFirst_append (p : Str → Bool) (f : Str → Str) :
    ∀ (xs : List Str) (y : Str) (ys : List Str),
    (∀ x ∈ xs, p x = false) → p y = true →
    TaskScheduler.mapFirst p f (xs ++ y :: ys) = xs ++ f y :: ys := by
  intro xs
  induction xs with
  | nil =>
    intro y ys _ hy
    rw [List.nil_append, TaskScheduler.mapFirst, if_pos hy, List.nil_append]
  | cons x xs ih =>
    intro y ys hxs hy
    rw [List.cons_append, TaskScheduler.mapFirst,
      if_neg (by simp [hxs x (by simp)]), List.cons_append,
      ih y ys (fun z hz => hxs z (List.mem_cons_of_mem _ hz)) hy]

/-- C2: over a schedule cycle D1 -> D2 -> D3 -> D1 of a task carrying an id,
exactly one live (space-marked) copy of the task remains, in D1 (the most
recently targeted document); D2 and D3 each hold one `>`-marked breadcrumb.
The third hop finds the task id already present in D1 and does not append a
second line: it revives the existing line in place, resetting its marker to
incomplete, stripping the stale `[> D2]` tag and attaching a fresh
`[< D3]` tag. -/
theorem C2_cycle_safety
    (pre post : List Str) (t0 tid : Str) (preI postI : List MItem)
    (items items1 : List MItem)
    (hitems : items = preI ++ MItem.tag (MTag.idT tid) :: postI)
    (hitems1 : items1 = items.filter (fun it => !selTag (fun t => tagKind t == 1) it))
    (d1 d2 d3 c2 c3 : Str)
    (h0 : wfText t0 = true) (hnd : isDig (t0.headD ' ') = false)
    (hits : ∀ it ∈ items, wfItem it = true)
    (hpre0 : ∀ t, MItem.tag t ∈ preI → (tagKind t == 0) = false)
    (hno34 : ∀ t, MItem.tag t ∈ items →
      (tagKind t == 3) = false ∧ (tagKind t == 4) = false)
    (htid : trimStr tid = tid) (c : Char) (r : Str) (htc : tid = c :: r)
    (hpost : ∀ l ls, post = l :: ls → TaskUtils.isSubtask l = false)
    (hnlpre : ∀ l ∈ pre, ∀ ch ∈ l, ch ≠ '\n')
    (hnlpost : ∀ l ∈ post, ∀ ch ∈ l, ch ≠ '\n')
    (hidpre : ∀ l ∈ pre, hasIdTag tid l = false)
    (hd1 : wfDate d1 = true) (hd2 : wfDate d2 = true) (hd3 : wfDate d3 = true)
    (hdup1 : containsSub (strL "[> " ++ d2 ++ [']']) (taskLine ' ' t0 items) = false)
    (hdup2 : containsSub (strL "[> " ++ d3 ++ [']'])
      (taskLine ' ' t0 (items1 ++ [MItem.tag (MTag.fromT d1)])) = false)
    (hdup3 : containsSub (strL "[> " ++ d1 ++ [']'])
      (taskLine ' ' t0 (items1 ++ [MItem.tag (MTag.fromT d2)])) = false)
    (hc2 : hasIdTag tid c2 = false) (hc3 : hasIdTag tid c3 = false) :
    TaskScheduler.scheduleTask (pre ++ taskLine ' ' t0 items :: post) pre.length d1 d2 c2
      = some (pre ++ taskLine '>' t0 (items ++ [MItem.tag (MTag.toT d2)]) :: post,
          trimEndStr c2 ++ '\n' :: taskLine ' ' t0 (items1 ++ [MItem.tag (MTag.fromT d1)]))
    ∧ TaskScheduler.scheduleTask
        (splitLines (trimEndStr c2 ++ '\n' ::
          taskLine ' ' t0 (items1 ++ [MItem.tag (MTag.fromT d1)])))
        (splitLines (trimEndStr c2)).length d2 d3 c3
      = some (splitLines (trimEndStr c2)
            ++ [taskLine '>' t0 (items1 ++ [MItem.tag (MTag.toT d3)])],
          trimEndStr c3 ++ '\n' :: taskLine ' ' t0 (items1 ++ [MItem.tag (MTag.fromT d2)]))
    ∧ TaskScheduler.scheduleTask
        (splitLines (trimEndStr c3 ++ '\n' ::
          taskLine ' ' t0 (items1 ++ [MItem.tag (MTag.fromT d2)])))
        (splitLines (trimEndStr c3)).length d3 d1
        (joinLines (pre ++ taskLine '>' t0 (items ++ [MItem.tag (MTag.toT d2)]) :: post))
      = some (splitLines (trimEndStr c3)
            ++ [taskLine '>' t0 (items1 ++ [MItem.tag (MTag.toT d1)])],
          joinLines (pre ++ taskLine ' ' t0 (items ++ [MItem.tag (MTag.fromT d3)]) :: post)) := by
  subst hitems
  subst hitems1
  have hc : isWs c = false := by
    refine trimStr_head_nonws c r ?_
    rw [← htc]
    exact htid
  have hpreTags : ∀ x ∈ itemsTags preI, (fun t => tagKind t == 0) x = false :=
    fun x hx => hpre0 x (mem_of_mem_itemsTags x preI hx)
  have hiT : (itemsTags (preI ++ MItem.tag (MTag.idT tid) :: postI)).find?
      (fun t => tagKind t == 0) = some (MTag.idT tid) := by
    rw [itemsTags_append, find?_append_none _ _ _ hpreTags]
    show (MTag.idT tid :: itemsTags postI).find? (fun t => tagKind t == 0) = _
    exact List.find?_cons_of_pos _ rfl
  have hEid : TaskUtils.extractId (taskLine ' ' t0 (preI ++ MItem.tag (MTag.idT tid) :: postI))
      = some tid := by
    rw [extractId_taskLine ' ' (by decide) (by decide) t0 _ h0 hits, hiT]
    simp [tagVal, htid]
  have hf3 : (preI ++ MItem.tag (MTag.idT tid) :: postI).filter
      (fun it => !selTag (fun t => tagKind t == 3) it)
      = preI ++ MItem.tag (MTag.idT tid) :: postI :=
    filter_notSel_eq_self _ _ (fun t ht => (hno34 t ht).1)
  have hf4 : (preI ++ MItem.tag (MTag.idT tid) :: postI).filter
      (fun it => !selTag (fun t => tagKind t == 4) it)
      = preI ++ MItem.tag (MTag.idT tid) :: postI :=
    filter_notSel_eq_self _ _ (fun t ht => (hno34 t ht).2)
  have hits1 : ∀ it ∈ (preI ++ MItem.tag (MTag.idT tid) :: postI).filter
      (fun it => !selTag (fun t => tagKind t == 1) it), wfItem it = true :=
    fun it h => hits it (List.mem_of_mem_filter h)
  have hno34I : ∀ t, MItem.tag t ∈ (preI ++ MItem.tag (MTag.idT tid) :: postI).filter
      (fun it => !selTag (fun t => tagKind t == 1) it) →
      (tagKind t == 3) = false ∧ (tagKind t == 4) = false :=
    fun t h => hno34 t (List.mem_of_mem_filter h)
  have hf3I : ((preI ++ MItem.tag (MTag.idT tid) :: postI).filter
      (fun it => !selTag (fun t => tagKind t == 1) it)).filter
      (fun it => !selTag (fun t => tagKind t == 3) it)
      = (preI ++ MItem.tag (MTag.idT tid) :: postI).filter
        (fun it => !selTag (fun t => tagKind t == 1) it) :=
    filter_notSel_eq_self _ _ (fun t ht => (hno34I t ht).1)
  have hf4I : ((preI ++ MItem.tag (MTag.idT tid) :: postI).filter
      (fun it => !selTag (fun t => tagKind t == 1) it)).filter
      (fun it => !selTag (fun t => tagKind t == 4) it)
      = (preI ++ MItem.tag (MTag.idT tid) :: postI).filter
        (fun it => !selTag (fun t => tagKind t == 1) it) :=
    filter_notSel_eq_self _ _ (fun t ht => (hno34I t ht).2)
  have hf1I : ((preI ++ MItem.tag (MTag.idT tid) :: postI).filter
      (fun it => !selTag (fun t => tagKind t == 1) it)).filter
      (fun it => !selTag (fun t => tagKind t == 1) it)
      = (preI ++ MItem.tag (MTag.idT tid) :: postI).filter
        (fun it => !selTag (fun t => tagKind t == 1) it) := by
    refine filter_notSel_eq_self _ _ (fun t ht => ?_)
    have h2 := (List.mem_filter.mp ht).2
    simpa [selTag] using h2
  have hitems1d : (preI ++ MItem.tag (MTag.idT tid) :: postI).filter
      (fun it => !selTag (fun t => tagKind t == 1) it)
      = preI.filter (fun it => !selTag (fun t => tagKind t == 1) it)
        ++ MItem.tag (MTag.idT tid) ::
          postI.filter (fun it => !selTag (fun t => tagKind t == 1) it) := by
    rw [List.filter_append, List.filter_cons]
    simp [selTag, tagKind]
  have hitsC2 : ∀ it ∈ (preI ++ MItem.tag (MTag.idT tid) :: postI).filter
      (fun it => !selTag (fun t => tagKind t == 1) it)
      ++ [MItem.tag (MTag.fromT d1)], wfItem it = true := by
    intro it hit
    rcases List.mem_append.mp hit with h1 | h1
    · exact hits1 it h1
    · simp at h1; subst h1; exact hd1
  have hitsC3 : ∀ it ∈ (preI ++ MItem.tag (MTag.idT tid) :: postI).filter
      (fun it => !selTag (fun t => tagKind t == 1) it)
      ++ [MItem.tag (MTag.fromT d2)], wfItem it = true := by
    intro it hit
    rcases List.mem_append.mp hit with h1 | h1
    · exact hits1 it h1
    · simp at h1; subst h1; exact hd2
  have hitsM : ∀ it ∈ (preI ++ MItem.tag (MTag.idT tid) :: postI)
      ++ [MItem.tag (MTag.toT d2)], wfItem it = true := by
    intro it hit
    rcases List.mem_append.mp hit with h1 | h1
    · exact hits it h1
    · simp at h1; subst h1; exact hd2
  have hmark1 : TaskScheduler.markTaskAsScheduled
      (taskLine ' ' t0 (preI ++ MItem.tag (MTag.idT tid) :: postI)) d2
      = taskLine '>' t0 ((preI ++ MItem.tag (MTag.idT tid) :: postI)
          ++ [MItem.tag (MTag.toT d2)]) := by
    rw [markTaskAsScheduled_taskLine t0 _ d2 h0 hits hnd, hf3, hf4]
  have hcopy1 : TaskScheduler.createScheduledTaskCopy
      (taskLine ' ' t0 (preI ++ MItem.tag (MTag.idT tid) :: postI)) d1
      = taskLine ' ' t0 ((preI ++ MItem.tag (MTag.idT tid) :: postI).filter
          (fun it => !selTag (fun t => tagKind t == 1) it)
          ++ [MItem.tag (MTag.fromT d1)]) := by
    rw [createScheduledTaskCopy_taskLine t0 _ d1 h0 hits, hf3, hf4]
  have hff2 : (((((preI ++ MItem.tag (MTag.idT tid) :: postI).filter
      (fun it => !selTag (fun t => tagKind t == 1) it))
      ++ [MItem.tag (MTag.fromT d1)]).filter
      (fun it => !selTag (fun t => tagKind t == 3) it)).filter
      (fun it => !selTag (fun t => tagKind t == 4) it)
      = (preI ++ MItem.tag (MTag.idT tid) :: postI).filter
        (fun it => !selTag (fun t => tagKind t == 1) it)) := by
    have hsingle : ([MItem.tag (MTag.fromT d1)].filter
        (fun it => !selTag (fun t => tagKind t == 3) it)) = [] := by
      simp [selTag, tagKind]
    rw [List.filter_append, hf3I, hsingle, List.append_nil, hf4I]
  have hff3 : (((((preI ++ MItem.tag (MTag.idT tid) :: postI).filter
      (fun it => !selTag (fun t => tagKind t == 1) it))
      ++ [MItem.tag (MTag.fromT d2)]).filter
      (fun it => !selTag (fun t => tagKind t == 3) it)).filter
      (fun it => !selTag (fun t => tagKind t == 4) it)
      = (preI ++ MItem.tag (MTag.idT tid) :: postI).filter
        (fun it => !selTag (fun t => tagKind t == 1) it)) := by
    have hsingle : ([MItem.tag (MTag.fromT d2)].filter
        (fun it => !selTag (fun t => tagKind t == 3) it)) = [] := by
      simp [selTag, tagKind]
    rw [List.filter_append, hf3I, hsingle, List.append_nil, hf4I]
  have hmark2 : TaskScheduler.markTaskAsScheduled
      (taskLine ' ' t0 ((preI ++ MItem.tag (MTag.idT tid) :: postI).filter
        (fun it => !selTag (fun t => tagKind t == 1) it)
        ++ [MItem.tag (MTag.fromT d1)])) d3
      = taskLine '>' t0 ((preI ++ MItem.tag (MTag.idT tid) :: postI).filter
          (fun it => !selTag (fun t => tagKind t == 1) it)
          ++ [MItem.tag (MTag.toT d3)]) := by
    rw [markTaskAsScheduled_taskLine t0 _ d3 h0 hitsC2 hnd, hff2]
  have hmark3 : TaskScheduler.markTaskAsScheduled
      (taskLine ' ' t0 ((preI ++ MItem.tag (MTag.idT tid) :: postI).filter
        (fun it => !selTag (fun t => tagKind t == 1) it)
        ++ [MItem.tag (MTag.fromT d2)])) d1
      = taskLine '>' t0 ((preI ++ MItem.tag (MTag.idT tid) :: postI).filter
          (fun it => !selTag (fun t => tagKind t == 1) it)
          ++ [MItem.tag (MTag.toT d1)]) := by
    rw [markTaskAsScheduled_taskLine t0 _ d1 h0 hitsC3 hnd, hff3]
  have hcopy2 : TaskScheduler.createScheduledTaskCopy
      (taskLine ' ' t0 ((preI ++ MItem.tag (MTag.idT tid) :: postI).filter
        (fun it => !selTag (fun t => tagKind t == 1) it)
        ++ [MItem.tag (MTag.fromT d1)])) d2
      = taskLine ' ' t0 ((preI ++ MItem.tag (MTag.idT tid) :: postI).filter
          (fun it => !selTag (fun t => tagKind t == 1) it)
          ++ [MItem.tag (MTag.fromT d2)]) := by
    rw [createScheduledTaskCopy_taskLine t0 _ d2 h0 hitsC2, hff2, hf1I]
  have hpreTags1 : ∀ x ∈ itemsTags (preI.filter
      (fun it => !selTag (fun t => tagKind t == 1) it)),
      (fun t => tagKind t == 0) x = false :=
    fun x hx => hpre0 x (List.mem_of_mem_filter (mem_of_mem_itemsTags x _ hx))
  have hEidC2 : TaskUtils.extractId
      (taskLine ' ' t0 ((preI ++ MItem.tag (MTag.idT tid) :: postI).filter
        (fun it => !selTag (fun t => tagKind t == 1) it)
        ++ [MItem.tag (MTag.fromT d1)])) = some tid := by
    rw [extractId_taskLine ' ' (by decide) (by decide) t0 _ h0 hitsC2, hitems1d,
      List.append_assoc, itemsTags_append, find?_append_none _ _ _ hpreTags1]
    show (((MTag.idT tid :: itemsTags (postI.filter
      (fun it => !selTag (fun t => tagKind t == 1) it)
      ++ [MItem.tag (MTag.fromT d1)])).find?
        (fun t => tagKind t == 0)).map tagVal).map trimStr = some tid
    rw [List.find?_cons_of_pos _ rfl]
    simp [tagVal, htid]
  have hEidC3 : TaskUtils.extractId
      (taskLine ' ' t0 ((preI ++ MItem.tag (MTag.idT tid) :: postI).filter
        (fun it => !selTag (fun t => tagKind t == 1) it)
        ++ [MItem.tag (MTag.fromT d2)])) = some tid := by
    rw [extractId_taskLine ' ' (by decide) (by decide) t0 _ h0 hitsC3, hitems1d,
      List.append_assoc, itemsTags_append, find?_append_none _ _ _ hpreTags1]
    show (((MTag.idT tid :: itemsTags (postI.filter
      (fun it => !selTag (fun t => tagKind t == 1) it)
      ++ [MItem.tag (MTag.fromT d2)])).find?
        (fun t => tagKind t == 0)).map tagVal).map trimStr = some tid
    rw [List.find?_cons_of_pos _ rfl]
    simp [tagVal, htid]
  have hsplit2 : splitLines (trimEndStr c2 ++ '\n' ::
      taskLine ' ' t0 ((preI ++ MItem.tag (MTag.idT tid) :: postI).filter
        (fun it => !selTag (fun t => tagKind t == 1) it)
        ++ [MItem.tag (MTag.fromT d1)]))
      = splitLines (trimEndStr c2) ++ [taskLine ' ' t0
          ((preI ++ MItem.tag (MTag.idT tid) :: postI).filter
            (fun it => !selTag (fun t => tagKind t == 1) it)
            ++ [MItem.tag (MTag.fromT d1)])] := by
    rw [splitLines_append_nl, splitLines_no_nl _
      (no_nl_taskLine ' ' t0 _ (by decide) h0 hitsC2)]
  have hsplit3 : splitLines (trimEndStr c3 ++ '\n' ::
      taskLine ' ' t0 ((preI ++ MItem.tag (MTag.idT tid) :: postI).filter
        (fun it => !selTag (fun t => tagKind t == 1) it)
        ++ [MItem.tag (MTag.fromT d2)]))
      = splitLines (trimEndStr c3) ++ [taskLine ' ' t0
          ((preI ++ MItem.tag (MTag.idT tid) :: postI).filter
            (fun it => !selTag (fun t => tagKind t == 1) it)
            ++ [MItem.tag (MTag.fromT d2)])] := by
    rw [splitLines_append_nl, splitLines_no_nl _
      (no_nl_taskLine ' ' t0 _ (by decide) h0 hitsC3)]
  have hmemI : MItem.tag (MTag.idT tid) ∈ preI ++ MItem.tag (MTag.idT tid) :: postI :=
    List.mem_append_right _ (List.mem_cons_self _ _)
  have hasIdLM1 : hasIdTag tid (taskLine '>' t0
      ((preI ++ MItem.tag (MTag.idT tid) :: postI)
        ++ [MItem.tag (MTag.toT d2)])) = true :=
    hasIdTag_taskLine '>' t0 tid _ (List.mem_append_left _ hmemI) c r htc hc
  have hHas : hasIdTag tid (joinLines (pre ++ taskLine '>' t0
      ((preI ++ MItem.tag (MTag.idT tid) :: postI)
        ++ [MItem.tag (MTag.toT d2)]) :: post)) = true := by
    obtain ⟨u, v, hu⟩ := joinLines_decomp pre _ post
    rw [hu]
    exact hasIdTag_append_right tid u _
      (hasIdTag_mono_right tid c r htc _ v hasIdLM1)
  have hsplitJ : splitLines (joinLines (pre ++ taskLine '>' t0
      ((preI ++ MItem.tag (MTag.idT tid) :: postI)
        ++ [MItem.tag (MTag.toT d2)]) :: post))
      = pre ++ taskLine '>' t0 ((preI ++ MItem.tag (MTag.idT tid) :: postI)
          ++ [MItem.tag (MTag.toT d2)]) :: post := by
    refine splitLines_joinLines _ ?_ (by simp)
    intro l hl
    rcases List.mem_append.mp hl with h1 | h1
    · exact hnlpre l h1
    · rcases List.mem_cons.mp h1 with rfl | h2
      · exact no_nl_taskLine '>' t0 _ (by decide) h0 hitsM
      · exact hnlpost l h2
  have hupdT : TaskScheduler.updateTargetLine d3 (taskLine '>' t0
      ((preI ++ MItem.tag (MTag.idT tid) :: postI) ++ [MItem.tag (MTag.toT d2)]))
      = taskLine ' ' t0 ((preI ++ MItem.tag (MTag.idT tid) :: postI)
          ++ [MItem.tag (MTag.fromT d3)]) := by
    rw [TaskScheduler.updateTargetLine, setMarkerAny_taskLine ' ' '>' t0 _ (by decide),
      removeSchedulingTags_taskLine ' ' (Or.inl rfl) t0 h0 _ hitsM,
      List.filter_append, hf3, List.filter_append, hf4]
    have hrt : ((([MItem.tag (MTag.toT d2)].filter
        (fun it => !selTag (fun t => tagKind t == 3) it)).filter
        (fun it => !selTag (fun t => tagKind t == 4) it)) = []) := by
      simp [selTag, tagKind]
    rw [hrt, List.append_nil, trimEndStr_taskLine ' ' t0 _ h0 hits, taskLine_snoc_tag]
    simp [renderTag, List.append_assoc, strL]
  have hupdFirst : TaskScheduler.updateFirstIdLine tid d3
      (joinLines (pre ++ taskLine '>' t0
        ((preI ++ MItem.tag (MTag.idT tid) :: postI)
          ++ [MItem.tag (MTag.toT d2)]) :: post))
      = joinLines (pre ++ taskLine ' ' t0
          ((preI ++ MItem.tag (MTag.idT tid) :: postI)
            ++ [MItem.tag (MTag.fromT d3)]) :: post) := by
    rw [TaskScheduler.updateFirstIdLine, hsplitJ,
      mapFirst_append _ _ pre _ post hidpre hasIdLM1, hupdT]
  refine ⟨?_, ?_, ?_⟩
  · rw [TaskScheduler.scheduleTask]
    simp only [getD_append_length]
    rw [isTask_taskLine, hdup1, hEid]
    simp only []
    rw [hc2]
    simp only [Bool.not_true, Bool.false_eq_true, if_false]
    rw [hmark1, set_append_length, TaskScheduler.appendScheduledCopy, hcopy1]
    rw [take_append_length_succ, drop_append_length_succ, markTail_not_sub _ post hpost]
    rw [List.append_assoc]
    rfl
  · rw [hsplit2, TaskScheduler.scheduleTask]
    simp only [getD_append_length]
    rw [isTask_taskLine, hdup2, hEidC2]
    simp only []
    rw [hc3]
    simp only [Bool.not_true, Bool.false_eq_true, if_false]
    rw [hmark2, set_append_length, TaskScheduler.appendScheduledCopy, hcopy2]
    rw [take_append_length_succ, drop_append_length_succ]
    have hmt : TaskScheduler.markTail (setMarkerAny '>') ([] : List Str) = [] := rfl
    rw [hmt, List.append_nil]
  · rw [hsplit3, TaskScheduler.scheduleTask]
    simp only [getD_append_length]
    rw [isTask_taskLine, hdup3, hEidC3]
    simp only []
    rw [if_pos hHas]
    simp only [Bool.not_true, Bool.false_eq_true, if_false]
    rw [hupdFirst, hmark3, set_append_length]
    rw [take_append_length_succ, drop_append_length_succ]
    have hmt : TaskScheduler.markTail (setMarkerAny '>') ([] : List Str) = [] := rfl
    rw [hmt, List.append_nil]

theorem C2_cycle_safety_witness :
    TaskScheduler.scheduleTask
        [taskLine ' ' (strL "Call") [MItem.tag (MTag.idT (strL "t-xy"))]] 0
        (strL "2025-01-10") (strL "2025-01-11") (strL "- [ ] Other")
      = some ([taskLine '>' (strL "Call")
            ([MItem.tag (MTag.idT (strL "t-xy"))] ++ [MItem.tag (MTag.toT (strL "2025-01-11"))])],
          trimEndStr (strL "- [ ] Other") ++ '\n' ::
            taskLine ' ' (strL "Call")
              ([MItem.tag (MTag.idT (strL "t-xy"))].filter
                  (fun it => !selTag (fun t => tagKind t == 1) it)
                ++ [MItem.tag (MTag.fromT (strL "2025-01-10"))]))
    ∧ TaskScheduler.scheduleTask
        (splitLines (trimEndStr (strL "- [ ] Other") ++ '\n' ::
          taskLine ' ' (strL "Call")
            ([MItem.tag (MTag.idT (strL "t-xy"))].filter
                (fun it => !selTag (fun t => tagKind t == 1) it)
              ++ [MItem.tag (MTag.fromT (strL "2025-01-10"))])))
        (splitLines (trimEndStr (strL "- [ ] Other"))).length
        (strL "2025-01-11") (strL "2025-01-12") (strL "- [ ] Misc")
      = some (splitLines (trimEndStr (strL "- [ ] Other"))
            ++ [taskLine '>' (strL "Call")
              ([MItem.tag (MTag.idT (strL "t-xy"))].filter
                  (fun it => !selTag (fun t => tagKind t == 1) it)
                ++ [MItem.tag (MTag.toT (strL "2025-01-12"))])],
          trimEndStr (strL "- [ ] Misc") ++ '\n' ::
            taskLine ' ' (strL "Call")
              ([MItem.tag (MTag.idT (strL "t-xy"))].filter
                  (fun it => !selTag (fun t => tagKind t == 1) it)
                ++ [MItem.tag (MTag.fromT (strL "2025-01-11"))]))
    ∧ TaskScheduler.scheduleTask
        (splitLines (trimEndStr (strL "- [ ] Misc") ++ '\n' ::
          taskLine ' ' (strL "Call")
            ([MItem.tag (MTag.idT (strL "t-xy"))].filter
                (fun it => !selTag (fun t => tagKind t == 1) it)
              ++ [MItem.tag (MTag.fromT (strL "2025-01-11"))])))
        (splitLines (trimEndStr (strL "- [ ] Misc"))).length
        (strL "2025-01-12") (strL "2025-01-10")
        (joinLines [taskLine '>' (strL "Call")
          ([MItem.tag (MTag.idT (strL "t-xy"))] ++ [MItem.tag (MTag.toT (strL "2025-01-11"))])])
      = some (splitLines (trimEndStr (strL "- [ ] Misc"))
            ++ [taskLine '>' (strL "Call")
              ([MItem.tag (MTag.idT (strL "t-xy"))].filter
                  (fun it => !selTag (fun t => tagKind t == 1) it)
                ++ [MItem.tag (MTag.toT (strL "2025-01-10"))])],
          joinLines [taskLine ' ' (strL "Call")
            ([MItem.tag (MTag.idT (strL "t-xy"))]
              ++ [MItem.tag (MTag.fromT (strL "2025-01-12"))])]) := by
  have h := C2_cycle_safety [] [] (strL "Call") (strL "t-xy") [] []
    [MItem.tag (MTag.idT (strL "t-xy"))]
    ([MItem.tag (MTag.idT (strL "t-xy"))].filter
      (fun it => !selTag (fun t => tagKind t == 1) it))
    rfl rfl
    (strL "2025-01-10") (strL "2025-01-11") (strL "2025-01-12")
    (strL "- [ ] Other") (strL "- [ ] Misc")
    (by decide) (by decide) (by decide)
    (fun t ht => absurd ht (List.not_mem_nil _))
    (by intro t ht
        simp at ht
        subst ht
        exact ⟨rfl, rfl⟩)
    (by decide) 't' (strL "-xy") (by decide)
    (fun l ls h => List.noConfusion h)
    (fun l hl => absurd hl (List.not_mem_nil _))
    (fun l hl => absurd hl (List.not_mem_nil _))
    (fun l hl => absurd hl (List.not_mem_nil _))
    (by decide) (by decide) (by decide)
    (by decide) (by decide) (by decide)
    (by decide) (by decide)
  exact h
